import Mathlib

/-!
# ourfa: the XML API definition loader (`ourfa_xmlapi.c`)

A shallow embedding of the schema loader and of the AST builder `load_func_def`.

* libxml2 documents are forests in first-child / next-sibling form (`XmlNode`),
  which is the pointer structure (`children`, `next`) the C code walks; the
  `parent` pointers are kept as the stack of enclosing nodes of the cursor.
* AST nodes live in an arena (`List FuncNode`); a pointer is an index into it,
  `NULL` is `none`, `malloc` appends at the end.  The root of a tree is index 0.
* Deallocation (`free`) is not represented; the assertions of the cleanup code
  are.
-/

namespace Ourfa

/-! ## Return codes and the error callback -/

/-- Modelled from the spec: the result codes OK, SYSTEM and OTHER are declared
in `ourfa.h`, which is not among the sources; only that they differ is used.
This is `OURFA_OK`. -/
def OURFA_OK : Int := 0

/-- Modelled from the spec: the result code `OURFA_ERROR_SYSTEM` of `ourfa.h`. -/
def OURFA_ERROR_SYSTEM : Int := 1

/-- Modelled from the spec: the result code `OURFA_ERROR_OTHER` of `ourfa.h`. -/
def OURFA_ERROR_OTHER : Int := 2

/-- The error callback `printf_err` seen as a function of the kind it is
given: it reports the message and returns a kind, which the caller uses as
its result code. -/
abbrev ErrF := Int → Int

/-! ## libxml2 strings -/

/-- The `casemap` table of libxml2: `A`..`Z` go to `a`..`z`, every other
character is left alone. -/
def casemap (c : Char) : Int :=
  if 65 ≤ c.toNat ∧ c.toNat ≤ 90 then (c.toNat : Int) + 32 else (c.toNat : Int)

/-- libxml2 `xmlStrcasecmp` on NUL-terminated strings (the end of the list is
the terminator): the difference of the first pair of characters that differ
after `casemap`, 0 when there is none. -/
def xmlStrcasecmp : List Char → List Char → Int
  | [], [] => 0
  | [], b :: _ => 0 - casemap b
  | a :: _, [] => casemap a
  | a :: as, b :: bs =>
    let tmp := casemap a - casemap b
    if tmp ≠ 0 then tmp else xmlStrcasecmp as bs

/-- Two characters are the same letter up to ASCII case. -/
def sameLetter (a b : Char) : Prop :=
  a = b ∨ (65 ≤ a.toNat ∧ a.toNat ≤ 90 ∧ b.toNat = a.toNat + 32)
    ∨ (65 ≤ b.toNat ∧ b.toNat ≤ 90 ∧ a.toNat = b.toNat + 32)

/-- Equality of strings ignoring ASCII letter case, character by character. -/
def eqIgnoreCase (s t : String) : Prop :=
  List.Forall₂ sameLetter s.data t.data

/-! ## Node kinds -/

/-- Modelled from the spec: the enumeration of node kinds is declared in
`ourfa.h`, which is not among the sources; the constants are the ones
`ourfa_xmlapi.c` names (`OURFA_XMLAPI_NODE_*`). -/
inductive NodeType
  | INTEGER | STRING | LONG | DOUBLE | IP | IF | FOR | SET | ERROR | ROOT
  | BREAK | CALL | PARAMETER | MESSAGE | SHIFT | REMOVE | UNKNOWN
  deriving DecidableEq, Repr

/-- The table `node_types`. -/
def node_types : List (NodeType × String) :=
  [ (.INTEGER, "integer"), (.STRING, "string"), (.LONG, "long"),
    (.DOUBLE, "double"), (.IP, "ip_address"), (.IF, "if"), (.FOR, "for"),
    (.SET, "set"), (.ERROR, "error"), (.ROOT, "ROOT"), (.BREAK, "break"),
    (.CALL, "call"), (.PARAMETER, "parameter"), (.MESSAGE, "message"),
    (.SHIFT, "shift"), (.REMOVE, "remove") ]

/-- The loop of `ourfa_xmlapi_node_type_by_name` over a table. -/
def node_type_by_name_loop (node_name : String) : List (NodeType × String) → NodeType
  | [] => .UNKNOWN
  | (type, name) :: rest =>
    if xmlStrcasecmp node_name.data name.data = 0 then type
    else node_type_by_name_loop node_name rest

/-- The function `ourfa_xmlapi_node_type_by_name`. -/
def ourfa_xmlapi_node_type_by_name (node_name : String) : NodeType :=
  node_type_by_name_loop node_name node_types

/-- The loop of `ourfa_xmlapi_node_name_by_type` over a table.  The argument
is a C `int`; `code` gives the integer value of each enumeration constant. -/
def node_name_by_type_loop (code : NodeType → Int) (node_type : Int) :
    List (NodeType × String) → String
  | [] => "UNKNOWN"
  | (type, name) :: rest =>
    if node_type = code type then name
    else node_name_by_type_loop code node_type rest

/-- The function `ourfa_xmlapi_node_name_by_type`. -/
def ourfa_xmlapi_node_name_by_type (code : NodeType → Int) (node_type : Int) : String :=
  node_name_by_type_loop code node_type node_types

/-- One numbering of the node kinds: the constants in the order of
`node_types`, from 0, with `UNKNOWN` last. -/
def NodeType.ord : NodeType → Int
  | .INTEGER => 0 | .STRING => 1 | .LONG => 2 | .DOUBLE => 3 | .IP => 4
  | .IF => 5 | .FOR => 6 | .SET => 7 | .ERROR => 8 | .ROOT => 9 | .BREAK => 10
  | .CALL => 11 | .PARAMETER => 12 | .MESSAGE => 13 | .SHIFT => 14
  | .REMOVE => 15 | .UNKNOWN => 16

/-! ## libc: `strtol` -/

/-- The C `isspace` in the "C" locale. -/
def isspace (c : Char) : Bool :=
  c.toNat = 32 || (9 ≤ c.toNat && c.toNat ≤ 13)

/-- The value of a character as a digit, for bases up to 36. -/
def digit_value (c : Char) : Option Nat :=
  if 48 ≤ c.toNat ∧ c.toNat ≤ 57 then some (c.toNat - 48)
  else if 97 ≤ c.toNat ∧ c.toNat ≤ 122 then some (c.toNat - 97 + 10)
  else if 65 ≤ c.toNat ∧ c.toNat ≤ 90 then some (c.toNat - 65 + 10)
  else none

/-- The longest prefix of digits of the base: the number it denotes, how many
characters it has, and what follows it. -/
def strtol_digits (base : Nat) : List Char → Nat → Nat → Nat × Nat × List Char
  | [], acc, cnt => (acc, cnt, [])
  | c :: cs, acc, cnt =>
    match digit_value c with
    | some d => if d < base then strtol_digits base cs (acc * base + d) (cnt + 1)
                else (acc, cnt, c :: cs)
    | none => (acc, cnt, c :: cs)

/-- The value `LONG_MAX` where `long` has 64 bits. -/
def LONG_MAX : Int := 2 ^ 63 - 1

/-- The value `LONG_MIN` where `long` has 64 bits. -/
def LONG_MIN : Int := -(2 ^ 63)

/-- The result of `strtol`. -/
structure StrtolResult where
  /-- the value returned -/
  value : Int
  /-- the string `*endptr` points to -/
  endptr : List Char
  /-- whether `errno` is set to `ERANGE` -/
  erange : Bool
  deriving DecidableEq, Repr

/-- The sign and magnitude of a conversion, clamped to the range of `long`. -/
def strtol_clamp (neg : Bool) (n : Nat) (rest : List Char) : StrtolResult :=
  if neg then
    if (n : Int) > -LONG_MIN then ⟨LONG_MIN, rest, true⟩ else ⟨-(n : Int), rest, false⟩
  else
    if (n : Int) > LONG_MAX then ⟨LONG_MAX, rest, true⟩ else ⟨(n : Int), rest, false⟩

/-- The C library `strtol(nptr, &endptr, base)` for `base` 0 or 2..36, `long`
of 64 bits: white space, an optional sign, an optional `0x` (base 0 or 16) or
`0` (base 0) prefix, then digits.  Without any digit nothing is converted and
`endptr` is `nptr`. -/
def strtol (nptr : List Char) (base : Nat) : StrtolResult :=
  let s := nptr.dropWhile isspace
  let (neg, s) :=
    match s with
    | '-' :: t => (true, t)
    | '+' :: t => (false, t)
    | _ => (false, s)
  let hex_rest : Option (List Char) :=
    match s with
    | '0' :: x :: t => if (x = 'x' ∨ x = 'X') ∧ (base = 0 ∨ base = 16) then some t else none
    | _ => none
  match hex_rest with
  | some t =>
    match strtol_digits 16 t 0 0 with
    | (_, 0, _) => ⟨0, s.drop 1, false⟩  -- only the `0` of `0x` is converted
    | (n, _, rest) => strtol_clamp neg n rest
  | none =>
    let b := if base = 0 then (match s with | '0' :: _ => 8 | _ => 10) else base
    match strtol_digits b s 0 0 with
    | (_, 0, _) => ⟨0, nptr, false⟩
    | (n, _, rest) => strtol_clamp neg n rest

/-- The conversion of a `long` to `int` (32 bits, two's complement). -/
def long_to_int (v : Int) : Int :=
  (v + 2 ^ 31) % 2 ^ 32 - 2 ^ 31

/-! ## libxml2 documents -/

/-- A list of libxml2 nodes linked by `next`, each with its `children`:
`nil` is the `NULL` pointer, `other` a node whose type is not
`XML_ELEMENT_NODE` (text, comment, ...). -/
inductive XmlNode
  | nil
  | element (name : String) (attrs : List (String × String)) (children : XmlNode)
      (next : XmlNode)
  | other (next : XmlNode)
  deriving DecidableEq, Repr

/-- The field `next`. -/
def XmlNode.next : XmlNode → XmlNode
  | .nil => .nil
  | .element _ _ _ next => next
  | .other next => next

/-- The field `children`. -/
def XmlNode.children : XmlNode → XmlNode
  | .element _ _ children _ => children
  | _ => .nil

/-- The number of nodes in a node list, the nodes below them included. -/
def XmlNode.size : XmlNode → Nat
  | .nil => 0
  | .element _ _ children next => 1 + children.size + next.size
  | .other next => 1 + next.size

/-- libxml2 `xmlGetProp`: the value of the attribute of that name, if any. -/
def xmlGetProp (attrs : List (String × String)) (name : String) : Option String :=
  attrs.lookup name

/-! ## The AST -/

/-- Modelled from the spec: the conditions of an IF node, EQ and NE, declared in
`ourfa.h` as `OURFA_XMLAPI_IF_EQ` and `OURFA_XMLAPI_IF_NE`. -/
inductive IfCond
  | EQ | NE
  deriving DecidableEq, Repr

/-- Modelled from the spec: the union `n` of `struct xmlapi_func_node_t`, which
is declared in `ourfa.h`; the fields are those `ourfa_xmlapi.c` reads and
writes.  A string pointer is `none` when it is `NULL` (or was never written). -/
inductive NodeData
  | empty
  | n_val (name array_index defval : Option String)
  | n_if (variable_ value : Option String) (condition : Option IfCond)
  | n_set (src src_index dst dst_index value : Option String)
  | n_for (name from_ count array_name : Option String)
  | n_error (code : Option Int) (comment variable_ : Option String)
  deriving DecidableEq, Repr

/-- Modelled from the spec: the node `struct xmlapi_func_node_t` of `ourfa.h`,
with the links `parent`, `next` and `children` the code follows; pointers are
indices in the arena. -/
structure FuncNode where
  type : NodeType
  parent : Option Nat
  next : Option Nat
  children : Option Nat
  n : NodeData
  deriving DecidableEq, Repr

/-- The builder's variables: the nodes allocated so far (the root is node 0)
and the insertion point `cur_node`. -/
structure Ast where
  nodes : List FuncNode
  cur_node : Option Nat
  deriving DecidableEq, Repr

/-- The loop of `get_xml_attributes` over the entries `(name, required)`: the
result code and the strings stored, one per entry.  A missing required
attribute reports through the callback and leaves the loop. -/
def get_xml_attributes (err_f : ErrF) (attrs : List (String × String)) :
    List (String × Bool) → Int × List (Option String)
  | [] => (OURFA_OK, [])
  | (name, required) :: rest =>
    match xmlGetProp attrs name with
    | some src =>
      let r := get_xml_attributes err_f attrs rest
      (r.1, some src :: r.2)
    | none =>
      if required then (err_f OURFA_ERROR_OTHER, none :: rest.map (fun _ => none))
      else
        let r := get_xml_attributes err_f attrs rest
        (r.1, none :: r.2)

/-- The character `s[i]` of a C string; `none` is the terminating NUL, read
at the index that is the length of the string. -/
def char_at (s : String) (i : Nat) : Option Char :=
  s.data[i]?

/-- The loop `for (tmp = ...; tmp; tmp = tmp->next) if (tmp->type == FOR) i++`
of the FOR case: the final `i`. -/
def count_for (nodes : List FuncNode) : Nat → Option Nat → Nat → Option Nat
  | 0, _, _ => none
  | _ + 1, none, i => some i
  | fuel + 1, some tmp, i =>
    match nodes[tmp]? with
    | none => none
    | some nd => count_for nodes fuel nd.next (if nd.type = .FOR then i + 1 else i)

/-- The loop of the BREAK case, from `cur` up the `parent` links until the
root: whether a FOR node is met. -/
def find_for (nodes : List FuncNode) : Nat → Option Nat → Option Bool
  | 0, _ => none
  | _ + 1, none => some false
  | fuel + 1, some cur =>
    match nodes[cur]? with
    | none => none
    | some nd =>
      if nd.type = .ROOT then some false
      else if nd.type = .FOR then some true
      else find_for nodes fuel nd.parent

/-- What the `switch` of `load_func_def` leaves: the result code and the new
node, or the process stopped (a `NULL` string read), or a loop of the model
that ran out of steps. -/
inductive Made
  | done (ret_code : Int) (node : FuncNode)
  | abort
  | out_of_fuel
  deriving DecidableEq, Repr

/-- The attribute tables `my_nodes` of the cases of `load_func_def`. -/
def val_attributes : List (String × Bool) :=
  [("name", true), ("array_index", false), ("default", false)]

/-- The attribute table of the IF case. -/
def if_attributes : List (String × Bool) :=
  [("variable", true), ("value", true), ("condition", true)]

/-- The attribute table of the SET case. -/
def set_attributes : List (String × Bool) :=
  [("src", false), ("src_index", false), ("dst", false), ("dst_index", false),
   ("value", false)]

/-- The attribute table of the FOR case. -/
def for_attributes : List (String × Bool) :=
  [("name", true), ("from", true), ("count", true)]

/-- The attribute table of the ERROR case. -/
def error_attributes : List (String × Bool) :=
  [("code", true), ("comment", false), ("variable", false)]

/-- The `i`-th string stored by `get_xml_attributes`. -/
def attr_at (vals : List (Option String)) (i : Nat) : Option String :=
  (vals.getD i none)

/-- The test of the IF case for `eq`. -/
def is_eq (condition : String) : Bool :=
  (char_at condition 0 = some 'e' || char_at condition 0 = some 'E')
    && (char_at condition 1 = some 'q' || char_at condition 1 = some 'Q')
    && char_at condition 2 = none

/-- The test of the IF case for `ne`. -/
def is_ne (condition : String) : Bool :=
  (char_at condition 0 = some 'n' || char_at condition 0 = some 'N')
    && (char_at condition 1 = some 'e' || char_at condition 1 = some 'E')
    && char_at condition 2 = none

/-- The node allocation and the `switch (node->type)` of `load_func_def` for
the element `name` with attributes `attrs`.  The new node will be at index
`ast.nodes.length`; `children = node` ("uninitialized") is that index. -/
def make_node (err_f : ErrF) (name : String) (attrs : List (String × String)) (ast : Ast) :
    Made :=
  let self := ast.nodes.length
  let type := ourfa_xmlapi_node_type_by_name name
  let node : FuncNode :=
    { type := type, parent := none, next := none, children := none, n := .empty }
  match type with
  | .INTEGER | .STRING | .LONG | .DOUBLE | .IP =>
    let r := get_xml_attributes err_f attrs val_attributes
    .done r.1 { node with n := .n_val (attr_at r.2 0) (attr_at r.2 1) (attr_at r.2 2) }
  | .IF =>
    let r := get_xml_attributes err_f attrs if_attributes
    let node := { node with n := .n_if (attr_at r.2 0) (attr_at r.2 1) none }
    if r.1 ≠ OURFA_OK then .done r.1 node
    else
      match attr_at r.2 2 with
      | none => .abort
      | some condition =>
        if is_eq condition then
          .done r.1 { node with n := .n_if (attr_at r.2 0) (attr_at r.2 1) (some .EQ),
                                children := some self }
        else if is_ne condition then
          .done r.1 { node with n := .n_if (attr_at r.2 0) (attr_at r.2 1) (some .NE),
                                children := some self }
        else .done (err_f OURFA_ERROR_OTHER) node
  | .SET =>
    let r := get_xml_attributes err_f attrs set_attributes
    let node := { node with
      n := .n_set (attr_at r.2 0) (attr_at r.2 1) (attr_at r.2 2) (attr_at r.2 3) (attr_at r.2 4) }
    if r.1 = OURFA_OK then
      if (attr_at r.2 0).isSome ∧ (attr_at r.2 4).isSome then
        .done (err_f OURFA_ERROR_OTHER) node
      else if (attr_at r.2 0).isNone ∧ (attr_at r.2 2).isNone then
        .done (err_f OURFA_ERROR_OTHER) node
      else .done r.1 node
    else .done r.1 node
  | .FOR =>
    let r := get_xml_attributes err_f attrs for_attributes
    let node := { node with children := some self }
    if r.1 = OURFA_OK then
      let i : Option Nat :=
        match ast.cur_node with
        | none => some 1
        | some cur =>
          match ast.nodes[cur]? with
          | none => none
          | some c =>
            match c.parent with
            | none => some 1
            | some p =>
              match ast.nodes[p]? with
              | none => none
              | some pn => count_for ast.nodes (ast.nodes.length + 1) pn.children 1
      match i with
      | none => .out_of_fuel
      | some i =>
        .done r.1 { node with
          n := .n_for (attr_at r.2 0) (attr_at r.2 1) (attr_at r.2 2)
                 (some ("array-" ++ toString i)) }
    else
      .done r.1 { node with n := .n_for (attr_at r.2 0) (attr_at r.2 1) (attr_at r.2 2) none }
  | .BREAK =>
    match find_for ast.nodes (ast.nodes.length + 1) ast.cur_node with
    | none => .out_of_fuel
    | some node_found =>
      if node_found then .done OURFA_OK node else .done (err_f OURFA_ERROR_OTHER) node
  | .ERROR =>
    let r := get_xml_attributes err_f attrs error_attributes
    if r.1 = OURFA_OK then
      match attr_at r.2 0 with
      | none => .abort
      | some code_str =>
        let c := strtol code_str.data 10
        let node := { node with
          n := .n_error (some (long_to_int c.value)) (attr_at r.2 1) (attr_at r.2 2) }
        if char_at code_str 0 = none ∨ c.endptr ≠ [] then
          .done (err_f OURFA_ERROR_OTHER) node
        else .done r.1 node
    else .done r.1 { node with n := .n_error none (attr_at r.2 1) (attr_at r.2 2) }
  | _ => .done (err_f OURFA_ERROR_OTHER) node

/-- The assignment `nodes[i].children = v`. -/
def set_children (nodes : List FuncNode) (i : Nat) (v : Option Nat) : List FuncNode :=
  match nodes[i]? with
  | none => nodes
  | some nd => nodes.set i { nd with children := v }

/-- The assignment `nodes[i].next = v`. -/
def set_next (nodes : List FuncNode) (i : Nat) (v : Option Nat) : List FuncNode :=
  match nodes[i]? with
  | none => nodes
  | some nd => nodes.set i { nd with next := v }

/-- The assignment `cur_node->children = NULL`. -/
def clear_children (ast : Ast) : Ast :=
  match ast.cur_node with
  | none => ast
  | some cur => { ast with nodes := set_children ast.nodes cur none }

/-- The part "Add node to tree" of `load_func_def`: link `node` below or after
the insertion point and make it the insertion point.  `none` when a pointer
read is not a node of the arena. -/
def add_node (ast : Ast) (node : FuncNode) : Option Ast :=
  let self := ast.nodes.length
  match ast.cur_node with
  | none =>
    match ast.nodes[0]? with
    | none => none
    | some _ =>
      some { nodes := set_children ast.nodes 0 (some self) ++ [{ node with parent := some 0 }],
             cur_node := some self }
  | some cur =>
    match ast.nodes[cur]? with
    | none => none
    | some c =>
      if c.children = some cur ∧ (c.type = .FOR ∨ c.type = .IF) then
        some { nodes := set_children ast.nodes cur (some self) ++ [{ node with parent := some cur }],
               cur_node := some self }
      else
        some { nodes := set_next ast.nodes cur (some self) ++ [{ node with parent := c.parent }],
               cur_node := some self }

/-- Where one turn of the `while` loop of `load_func_def` leaves the builder. -/
inductive Step
  | at (xml_node : XmlNode) (parents : List XmlNode) (ast : Ast)
  | finished (ast : Ast)
  | failed (ast : Ast)
  | abort
  | out_of_fuel
  deriving DecidableEq, Repr

/-- The loop `for(;;)` "Move UP a tree", entered with the parents of
`xml_node` up to, and without, `xml_root` (the nearest first). -/
def move_up : List XmlNode → Ast → Step
  | [], ast => .finished ast
  | p :: ps, ast =>
    match ast.cur_node with
    | none => .abort
    | some cur =>
      match ast.nodes[cur]? with
      | none => .abort
      | some c =>
        let ast1 : Ast :=
          if c.children = some cur then clear_children ast
          else { ast with cur_node := c.parent }
        match p.next with
        | .nil => move_up ps ast1
        | nx => .at nx ps ast1

/-- The label `load_f_def_next_node`, for a node whose `next` is given. -/
def next_node (next : XmlNode) (parents : List XmlNode) (ast : Ast) : Step :=
  match next with
  | .nil => move_up parents ast
  | nx => .at nx parents ast

/-- One turn of the `while (xml_node != xml_root)` loop of `load_func_def`. -/
def step (err_f : ErrF) (xml_node : XmlNode) (parents : List XmlNode) (ast : Ast) : Step :=
  match xml_node with
  | .nil => .abort
  | .other next => next_node next parents ast
  | .element name attrs children next =>
    match make_node err_f name attrs ast with
    | .abort => .abort
    | .out_of_fuel => .out_of_fuel
    | .done ret_code node =>
      if ret_code ≠ OURFA_OK then .failed ast
      else
        match add_node ast node with
        | none => .abort
        | some ast1 =>
          if node.type = .IF ∨ node.type = .FOR then
            match children with
            | .nil => next_node next parents (clear_children ast1)
            | ch => .at ch (xml_node :: parents) ast1
          else next_node next parents ast1

/-- What a turn of the loop leaves, continued. -/
inductive WalkResult
  | finished (nodes : List FuncNode)
  | failed (nodes : List FuncNode)
  | abort
  | out_of_fuel
  deriving DecidableEq, Repr

/-- The `while (xml_node != xml_root)` loop of `load_func_def`, for at most
`fuel` turns. -/
def walk (err_f : ErrF) : Nat → XmlNode → List XmlNode → Ast → WalkResult
  | 0, _, _, _ => .out_of_fuel
  | fuel + 1, xml_node, parents, ast =>
    match step err_f xml_node parents ast with
    | .at xml_node1 parents1 ast1 => walk err_f fuel xml_node1 parents1 ast1
    | .finished ast1 => .finished ast1.nodes
    | .failed ast1 => .failed ast1.nodes
    | .abort => .abort
    | .out_of_fuel => .out_of_fuel

/-- The assertions of `free_func_def`: `some true` when the cleanup of the list
at `def_` runs through, `some false` when `assert(def->children != def)` fails
(or a pointer is not a node of the arena), `none` out of steps. -/
def free_func_def (nodes : List FuncNode) : Nat → Option Nat → Option Bool
  | 0, _ => none
  | _ + 1, none => some true
  | fuel + 1, some def_ =>
    match nodes[def_]? with
    | none => some false
    | some d =>
      let below : Option Bool :=
        match d.children with
        | none => some true
        | some ch => if ch = def_ then some false else free_func_def nodes fuel (some ch)
      match below with
      | some true => free_func_def nodes fuel d.next
      | r => r

/-- What `load_func_def` does: it returns a tree, returns `NULL`, or the
process is stopped by an assertion or a `NULL` read. -/
inductive LoadResult
  | tree (nodes : List FuncNode)
  | null
  | abort
  | out_of_fuel
  deriving DecidableEq, Repr

/-- The root node allocated first by `load_func_def`. -/
def root_node : FuncNode :=
  { type := .ROOT, parent := none, next := none, children := none, n := .empty }

/-- The function `load_func_def`, for the element `xml_root` (`nil` when the
function has no `input`, or no `output`) and the error callback of the API. -/
def load_func_def (err_f : ErrF) (xml_root : XmlNode) : LoadResult :=
  match xml_root.children with
  | .nil => .tree [root_node]
  | children =>
    match walk err_f children.size children [] { nodes := [root_node], cur_node := none } with
    | .finished nodes => .tree nodes
    | .failed nodes =>
      match free_func_def nodes (nodes.length + 1) (some 0) with
      | some true => .null
      | some false => .abort
      | none => .out_of_fuel
    | .abort => .abort
    | .out_of_fuel => .out_of_fuel

/-! ## The recursive definition of the tree, and reading a tree back -/

/-- A tree of node kinds. -/
inductive Tree
  | node (type : NodeType) (children : List Tree)
  deriving Repr

/-- The recursive definition of the AST of a body: one node per element of
the list, in document order, of the kind of the element's name; below a FOR
or IF node the trees of the element's children, built the same way; nothing
below any other node; nodes that are not elements are skipped. -/
def spec_build : XmlNode → List Tree
  | .nil => []
  | .other next => spec_build next
  | .element name _ children next =>
    let type := ourfa_xmlapi_node_type_by_name name
    Tree.node type (if type = .FOR ∨ type = .IF then spec_build children else [])
      :: spec_build next

/-- The trees of the list of nodes that starts at `p` and follows `next`,
with below each node the trees of the list at its `children`. -/
def read_tree (nodes : List FuncNode) : Nat → Option Nat → Option (List Tree)
  | 0, _ => none
  | _ + 1, none => some []
  | fuel + 1, some i =>
    match nodes[i]? with
    | none => none
    | some nd =>
      match read_tree nodes fuel nd.children, read_tree nodes fuel nd.next with
      | some cs, some ts => some (Tree.node nd.type cs :: ts)
      | _, _ => none

/-- The elements the walk turns into nodes: those of the list, and those
below its `for` and `if` elements, recursively. -/
def Visited (name : String) (attrs : List (String × String)) : XmlNode → Prop
  | .nil => False
  | .other next => Visited name attrs next
  | .element name1 attrs1 children next =>
    (name1 = name ∧ attrs1 = attrs)
    ∨ ((ourfa_xmlapi_node_type_by_name name1 = .FOR
          ∨ ourfa_xmlapi_node_type_by_name name1 = .IF) ∧ Visited name attrs children)
    ∨ Visited name attrs next

/-- The continuation of the loop from where a turn left it. -/
def run (err_f : ErrF) (fuel : Nat) : Step → WalkResult
  | .at xml_node parents ast => walk err_f fuel xml_node parents ast
  | .finished ast => .finished ast.nodes
  | .failed ast => .failed ast.nodes
  | .abort => .abort
  | .out_of_fuel => .out_of_fuel

/-- What "Add node to tree" does to the nodes that exist, and the parent it
gives the new node. -/
def attach (nodes : List FuncNode) (cur_node : Option Nat) :
    Option (List FuncNode × Option Nat) :=
  match cur_node with
  | none =>
    match nodes[0]? with
    | none => none
    | some _ => some (set_children nodes 0 (some nodes.length), some 0)
  | some cur =>
    match nodes[cur]? with
    | none => none
    | some c =>
      if c.children = some cur ∧ (c.type = .FOR ∨ c.type = .IF) then
        some (set_children nodes cur (some nodes.length), some cur)
      else some (set_next nodes cur (some nodes.length), c.parent)

/-- The links of an arena point the way the builder makes them: a parent is an
older node, a next sibling a newer one, the children newer or the node itself. -/
def Linked (nodes : List FuncNode) : Prop :=
  ∀ i nd, nodes[i]? = some nd →
    (∀ p, nd.parent = some p → p < i) ∧
    (∀ j, nd.next = some j → i < j ∧ j < nodes.length) ∧
    (∀ j, nd.children = some j → i ≤ j ∧ j < nodes.length)

/-- What the checks of `load_func_def` establish for a node. -/
def NodeOk (nd : FuncNode) : Prop :=
  match nd.type with
  | .INTEGER | .STRING | .LONG | .DOUBLE | .IP =>
    ∃ name array_index defval, nd.n = .n_val (some name) array_index defval
  | .IF => ∃ v w c, nd.n = .n_if (some v) (some w) (some c)
  | .FOR => ∃ a b c d, nd.n = .n_for (some a) (some b) (some c) (some d)
  | .SET =>
    ∃ src src_index dst dst_index value, nd.n = .n_set src src_index dst dst_index value
      ∧ ¬ (src.isSome ∧ value.isSome) ∧ (src.isSome ∨ dst.isSome)
  | .ERROR => ∃ code comment v, nd.n = .n_error (some code) comment v
  | .BREAK => True
  | _ => False

/-- The invariant of the arena during a build with a callback that keeps the
kind: node 0 is the root, every other node passed the checks of its kind, and
the links are those of `Linked`. -/
def Inv (nodes : List FuncNode) : Prop :=
  Linked nodes
  ∧ (∃ r, nodes[0]? = some r ∧ r.type = .ROOT ∧ r.parent = none ∧ r.next = none)
  ∧ ∀ i nd, nodes[i]? = some nd → 0 < i → NodeOk nd

/-- The list of nodes at `p` and after it, all within `[lo, hi)`, is the list
of trees `ts`. -/
inductive Rep (nodes : List FuncNode) : Nat → Nat → Option Nat → List Tree → Prop
  | nil (lo hi : Nat) : Rep nodes lo hi none []
  | cons (lo hi i : Nat) (nd : FuncNode) (cs ts : List Tree) :
      lo ≤ i → i < hi → nodes[i]? = some nd →
      Rep nodes (i + 1) hi nd.children cs → Rep nodes (i + 1) hi nd.next ts →
      Rep nodes lo hi (some i) (Tree.node nd.type cs :: ts)

/-! ## The function table and `ourfa_xmlapi_load_file` -/

/-- Modelled from the spec: the record `ourfa_xmlapi_func_t` of `ourfa.h`: name,
id and the two trees. -/
structure Func where
  name : String
  id : Int
  in_ : List FuncNode
  out : List FuncNode
  deriving DecidableEq, Repr

/-- A libxml2 hash table keyed by one name: its entries. -/
abbrev FuncTable := List (String × Func)

/-- libxml2 `xmlHashLookup`: the payload stored under exactly this name. -/
def xmlHashLookup (table : FuncTable) (name : String) : Option Func :=
  match table with
  | [] => none
  | (k, v) :: rest => if k = name then some v else xmlHashLookup rest name

/-- libxml2 `xmlHashUpdateEntry`: the payload under the name is replaced, or
the entry is added. -/
def xmlHashUpdateEntry (table : FuncTable) (name : String) (f : Func) : FuncTable :=
  match table with
  | [] => [(name, f)]
  | (k, v) :: rest =>
    if k = name then (name, f) :: rest else (k, v) :: xmlHashUpdateEntry rest name f

/-- Modelled from the spec: the container `ourfa_xmlapi_t` of `ourfa.h`, with the
fields `ourfa_xmlapi_new` sets (the callback context apart). -/
structure XmlApi where
  file : Option String
  func_by_name : Option FuncTable
  printf_err : ErrF

/-- The constant `DEFAULT_API_XML_FILE`. -/
def DEFAULT_API_XML_FILE : String := "/netup/utm5/xml/api.xml"

/-- The loop of `ourfa_xmlapi_load_file` that looks for the `input` and the
`output` child of a function: the last of each, `nil` when there is none. -/
def find_in_out : XmlNode → XmlNode × XmlNode → XmlNode × XmlNode
  | .nil, acc => acc
  | .other next, acc => find_in_out next acc
  | .element name attrs children next, acc =>
    if xmlStrcasecmp name.data "input".data = 0 then
      find_in_out next (.element name attrs children next, acc.2)
    else if xmlStrcasecmp name.data "output".data = 0 then
      find_in_out next (acc.1, .element name attrs children next)
    else find_in_out next acc

/-- What the loop over the functions of a document leaves: the table, or the
process stopped. -/
inductive FuncsResult
  | done (table : FuncTable)
  | abort
  | out_of_fuel
  deriving DecidableEq, Repr

/-- The loop `for (cur_node = urfa_root->children; ...)` of
`ourfa_xmlapi_load_file` ("foreach function").  `erange` is whether `errno`
is `ERANGE`: `strtol` sets it on overflow and nothing here resets it. -/
def load_functions (err_f : ErrF) : XmlNode → FuncTable → Bool → FuncsResult
  | .nil, table, _ => .done table
  | .other next, table, erange => load_functions err_f next table erange
  | .element name attrs children next, table, erange =>
    if xmlStrcasecmp name.data "function".data ≠ 0 then load_functions err_f next table erange
    else
      match xmlGetProp attrs "name" with
      | none => load_functions err_f next table erange
      | some prop_func_name =>
        match xmlGetProp attrs "id" with
        | none => load_functions err_f next table erange
        | some prop_func_id =>
          if char_at prop_func_id 0 = none then load_functions err_f next table erange
          else
            let r := strtol prop_func_id.data 0
            let erange1 := erange || r.erange
            if r.endptr ≠ [] ∨ erange1 = true then load_functions err_f next table erange1
            else
              let io := find_in_out children (.nil, .nil)
              match load_func_def err_f io.1 with
              | .null => load_functions err_f next table erange1
              | .abort => .abort
              | .out_of_fuel => .out_of_fuel
              | .tree f_in =>
                match load_func_def err_f io.2 with
                | .null => load_functions err_f next table erange1
                | .abort => .abort
                | .out_of_fuel => .out_of_fuel
                | .tree f_out =>
                  load_functions err_f next
                    (xmlHashUpdateEntry table prop_func_name
                      { name := prop_func_name, id := long_to_int r.value,
                        in_ := f_in, out := f_out })
                    erange1

/-- libxml2 `xmlDocGetRootElement`: the first element among the children of
the document. -/
def xmlDocGetRootElement : XmlNode → XmlNode
  | .nil => .nil
  | .other next => xmlDocGetRootElement next
  | .element name attrs children next => .element name attrs children next

/-- What `ourfa_xmlapi_load_file` does: it returns a code and leaves the
container in a state, or the process is stopped. -/
inductive LoadFileResult
  | returned (res : Int) (xmlapi : XmlApi)
  | abort
  | out_of_fuel

/-- The label `load_file_end`: on an error the file name and the table are
released. -/
def load_file_end (res : Int) (xmlapi : XmlApi) : LoadFileResult :=
  if res ≠ OURFA_OK then .returned res { xmlapi with file := none, func_by_name := none }
  else .returned res xmlapi

/-- The function `ourfa_xmlapi_load_file`.  `xmlReadFile` is the file system
seen through libxml2 (the children of the document read at a path, `none`
when it cannot be read or parsed), `erange` whether `errno` is `ERANGE` on
entry.  Allocations succeed. -/
def ourfa_xmlapi_load_file (xmlReadFile : String → Option XmlNode) (erange : Bool)
    (xmlapi : XmlApi) (file : Option String) : LoadFileResult :=
  match xmlapi.file with
  | some _ => .returned (xmlapi.printf_err OURFA_ERROR_OTHER) xmlapi
  | none =>
    let path := match file with
      | some f => f
      | none => DEFAULT_API_XML_FILE
    let api1 : XmlApi := { xmlapi with file := some path }
    match xmlReadFile path with
    | none => load_file_end OURFA_ERROR_OTHER api1
    | some doc =>
      let api2 : XmlApi := { api1 with func_by_name := some [] }
      match xmlDocGetRootElement doc with
      | .element name _ children _ =>
        if xmlStrcasecmp name.data "urfa".data ≠ 0 then
          load_file_end (xmlapi.printf_err OURFA_ERROR_OTHER) api2
        else
          match load_functions xmlapi.printf_err children [] erange with
          | .done table => load_file_end OURFA_OK { api2 with func_by_name := some table }
          | .abort => .abort
          | .out_of_fuel => .out_of_fuel
      | _ => load_file_end (xmlapi.printf_err OURFA_ERROR_OTHER) api2

/-- The function `ourfa_xmlapi_func`. -/
def ourfa_xmlapi_func (api : XmlApi) (name : String) : Option Func :=
  match api.func_by_name with
  | none => none
  | some table => xmlHashLookup table name

/-! ## Properties of a tree in the arena, and sample bodies -/

/-- Whether a node on the `parent` chain that starts at `p` is a FOR. -/
def has_for_ancestor (nodes : List FuncNode) : Nat → Option Nat → Bool
  | 0, _ => false
  | _ + 1, none => false
  | fuel + 1, some p =>
    match nodes[p]? with
    | none => false
    | some nd => if nd.type = .FOR then true else has_for_ancestor nodes fuel nd.parent

/-- The number of FOR nodes in the sibling list that starts at `p`, before the
node `target`. -/
def for_siblings_before (nodes : List FuncNode) (target : Nat) : Nat → Option Nat → Nat
  | 0, _ => 0
  | _ + 1, none => 0
  | fuel + 1, some i =>
    if i = target then 0
    else
      match nodes[i]? with
      | none => 0
      | some nd =>
        (if nd.type = .FOR then 1 else 0) + for_siblings_before nodes target fuel nd.next

/-- The body `<input><for name="i" from="0" count="n"/><break/></input>`. -/
def break_after_for : XmlNode :=
  .element "input" []
    (.element "for" [("name", "i"), ("from", "0"), ("count", "n")] .nil
      (.element "break" [] .nil .nil)) .nil

/-- The body
`<output><for name="i" from="0" count="n"><for name="j" from="0" count="m"/></for></output>`. -/
def for_in_for : XmlNode :=
  .element "output" []
    (.element "for" [("name", "i"), ("from", "0"), ("count", "n")]
      (.element "for" [("name", "j"), ("from", "0"), ("count", "m")] .nil .nil) .nil) .nil

/-- The body
`<input><if variable="a" value="b" condition="zz"><integer name="x"/></if></input>`. -/
def if_wrong_condition : XmlNode :=
  .element "input" []
    (.element "if" [("variable", "a"), ("value", "b"), ("condition", "zz")]
      (.element "integer" [("name", "x")] .nil .nil) .nil) .nil

/-- The body `<input><set src="a" value="b"/></input>`. -/
def set_src_and_value : XmlNode :=
  .element "input" [] (.element "set" [("src", "a"), ("value", "b")] .nil .nil) .nil

/-- The body
`<input><for name="i" from="0" count="n"><integer name="v" array_index="i"/></for>
<set dst="d" value="1"/></input>`, with the white space between the elements. -/
def sample_body : XmlNode :=
  .element "input" []
    (.other
      (.element "for" [("name", "i"), ("from", "0"), ("count", "n")]
        (.other (.element "integer" [("name", "v"), ("array_index", "i")] .nil (.other .nil)))
        (.other (.element "set" [("dst", "d"), ("value", "1")] .nil (.other .nil))))) .nil

/-- A callback that reports and answers `OURFA_OK` whatever the kind. -/
def err_f_ok : ErrF := fun _ => OURFA_OK

/-- The document `<urfa><function name="ping" id="1"/></urfa>`. -/
def ping_doc : XmlNode :=
  .element "urfa" [] (.element "function" [("name", "ping"), ("id", "1")] .nil .nil) .nil

/-- A container as `ourfa_xmlapi_new` leaves it, with the given callback. -/
def ourfa_xmlapi_new (err_f : ErrF) : XmlApi :=
  { file := none, func_by_name := none, printf_err := err_f }

/-- The nodes `load_func_def` builds for `sample_body`. -/
def sample_nodes : List FuncNode :=
  [{ type := .ROOT, parent := none, next := none, children := some 1, n := .empty },
   { type := .FOR, parent := some 0, next := some 3, children := some 2,
     n := .n_for (some "i") (some "0") (some "n") (some "array-1") },
   { type := .INTEGER, parent := some 1, next := none, children := none,
     n := .n_val (some "v") (some "i") none },
   { type := .SET, parent := some 0, next := none, children := none,
     n := .n_set none none (some "d") none (some "1") }]

/-- An element of a kind with required attributes lacks one of them. -/
def MissingRequired (name : String) (attrs : List (String × String)) : Prop :=
  match ourfa_xmlapi_node_type_by_name name with
  | .INTEGER | .STRING | .LONG | .DOUBLE | .IP => xmlGetProp attrs "name" = none
  | .IF =>
    xmlGetProp attrs "variable" = none ∨ xmlGetProp attrs "value" = none
      ∨ xmlGetProp attrs "condition" = none
  | .FOR =>
    xmlGetProp attrs "name" = none ∨ xmlGetProp attrs "from" = none
      ∨ xmlGetProp attrs "count" = none
  | .ERROR => xmlGetProp attrs "code" = none
  | _ => False

/-- The fields filled from required attributes are present in a node. -/
def FieldsPresent (nd : FuncNode) : Prop :=
  match nd.type with
  | .INTEGER | .STRING | .LONG | .DOUBLE | .IP =>
    ∃ name array_index defval, nd.n = .n_val (some name) array_index defval
  | .IF => ∃ v w c, nd.n = .n_if (some v) (some w) (some c)
  | .FOR => ∃ a b c array_name, nd.n = .n_for (some a) (some b) (some c) array_name
  | .ERROR => ∃ code comment v, nd.n = .n_error (some code) comment v
  | _ => True

/-- The body `<input><for name="i" from="0" count="n"/><integer/></input>`. -/
def integer_without_name : XmlNode :=
  .element "input" []
    (.element "for" [("name", "i"), ("from", "0"), ("count", "n")] .nil
      (.element "integer" [] .nil .nil)) .nil

/-- A `set` element that has both `src` and `value`, or neither `src` nor
`dst`. -/
def SetViolation (name : String) (attrs : List (String × String)) : Prop :=
  ourfa_xmlapi_node_type_by_name name = .SET ∧
  (((xmlGetProp attrs "src").isSome ∧ (xmlGetProp attrs "value").isSome)
    ∨ (xmlGetProp attrs "src" = none ∧ xmlGetProp attrs "dst" = none))

/-- A SET node has not both `src` and `value`, and has `src` or `dst`. -/
def SetOk (nd : FuncNode) : Prop :=
  nd.type = .SET →
    ∃ src src_index dst dst_index value, nd.n = .n_set src src_index dst dst_index value
      ∧ ¬ (src.isSome ∧ value.isSome) ∧ (src.isSome ∨ dst.isSome)

/-- An element occurs in a node list at any depth, below any element. -/
def Contains (name : String) (attrs : List (String × String)) : XmlNode → Prop
  | .nil => False
  | .other next => Contains name attrs next
  | .element name1 attrs1 children next =>
    (name1 = name ∧ attrs1 = attrs) ∨ Contains name attrs children ∨ Contains name attrs next

/-- The body `<input><integer name="x"><set src="a" value="b"/></integer></input>`. -/
def set_below_leaf : XmlNode :=
  .element "input" []
    (.element "integer" [("name", "x")]
      (.element "set" [("src", "a"), ("value", "b")] .nil .nil) .nil) .nil

/-- The function element
`<function name="f" id="7"><input><set src="a" value="b"/></input></function>`,
alone in its list. -/
def function_with_bad_set : XmlNode :=
  .element "function" [("name", "f"), ("id", "7")] set_src_and_value .nil

/-- The body `<input><if variable="a" value="b" condition="Eq"/></input>`. -/
def if_eq_body : XmlNode :=
  .element "input" []
    (.element "if" [("variable", "a"), ("value", "b"), ("condition", "Eq")] .nil .nil) .nil

/-- The body `<input><if variable="a" value="b" condition="zz"/></input>`. -/
def if_zz_body : XmlNode :=
  .element "input" []
    (.element "if" [("variable", "a"), ("value", "b"), ("condition", "zz")] .nil .nil) .nil

/-- The tree of a body that is one `if` element without children: the root
and the IF node. -/
def if_tree (variable_ value : String) (condition : IfCond) : List FuncNode :=
  [{ type := .ROOT, parent := none, next := none, children := some 1, n := .empty },
   { type := .IF, parent := some 0, next := none, children := none,
     n := .n_if (some variable_) (some value) (some condition) }]

/-- The body `<input><integer name="x"><string/></integer></input>`. -/
def leaf_below_leaf : XmlNode :=
  .element "input" []
    (.element "integer" [("name", "x")] (.element "string" [] .nil .nil) .nil) .nil

/-- The function built from `<function name="ping" id="1"/>`. -/
def ping_func : Func :=
  { name := "ping", id := 1, in_ := [root_node], out := [root_node] }

/-- The container after `ping_doc` is loaded with the default path. -/
def ping_api : XmlApi :=
  { file := some DEFAULT_API_XML_FILE, func_by_name := some [("ping", ping_func)],
    printf_err := id }

/-! ## Predicates of the proofs -/

/-- The insertion point is a node of the arena other than the root. -/
def ValidCur (nodes : List FuncNode) (cur_node : Option Nat) : Prop :=
  ∀ k, cur_node = some k → 0 < k ∧ k < nodes.length

/-- What `make_node` gives when the callback keeps the kind. -/
def MadeOk (ast : Ast) (name : String) (r : Int) (node : FuncNode) : Prop :=
  node.type = ourfa_xmlapi_node_type_by_name name ∧ node.next = none ∧ node.parent = none ∧
  (r = OURFA_OK → NodeOk node ∧
    node.children = (if node.type = .IF ∨ node.type = .FOR then some ast.nodes.length else none))

/-- The list `L` is `A` with one link of node `k` set to the next free index. -/
def Relinked (A L : List FuncNode) (k : Nat) : Prop :=
  L.length = A.length ∧ (∀ j, j ≠ k → L[j]? = A[j]?) ∧
  ∃ nd, A[k]? = some nd ∧
    (L[k]? = some { nd with children := some A.length }
      ∨ L[k]? = some { nd with next := some A.length })

/-- The state when the walk has gone through the node list `xs` from the arena
`A` and insertion point `c`: nothing changed without an element; otherwise
the new nodes are the trees of `xs`, linked at the insertion point, and the
insertion point is the last of them. -/
def Post (A : List FuncNode) (c : Option Nat) (xs : XmlNode) (A' : List FuncNode)
    (c' : Option Nat) : Prop :=
  Inv A' ∧ ValidCur A' c' ∧ A.length ≤ A'.length ∧
  (spec_build xs = [] → A' = A ∧ c' = c) ∧
  (spec_build xs ≠ [] → ∃ L P l ndl, attach A c = some (L, P) ∧
      (∀ k, k < A.length → A'[k]? = L[k]?) ∧
      Rep A' A.length A'.length (some A.length) (spec_build xs) ∧
      c' = some l ∧ A.length ≤ l ∧ A'[l]? = some ndl ∧ ndl.parent = P ∧ ndl.next = none ∧
      ndl.children ≠ some l)

/-- The state when the walk has gone through an element and what is below it:
the element's node is node `n`, complete but for its `next`. -/
def Mid (L : List FuncNode) (P : Option Nat) (n : Nat) (t : NodeType) (cs : List Tree)
    (A3 : List FuncNode) : Prop :=
  Inv A3 ∧ n < A3.length ∧ (∀ k, k < n → A3[k]? = L[k]?) ∧
  ∃ nd3, A3[n]? = some nd3 ∧ nd3.type = t ∧ nd3.parent = P ∧ nd3.next = none ∧
    nd3.children ≠ some n ∧ Rep A3 (n + 1) A3.length nd3.children cs

/-- Every element the walk visits in `xs` passes the `switch` in some state. -/
def AllMade (err_f : ErrF) (xs : XmlNode) : Prop :=
  ∀ name attrs, Visited name attrs xs →
    ∃ ast node, make_node err_f name attrs ast = .done OURFA_OK node

/-- No two entries of a table have the same name. -/
def NodupKeys (t : FuncTable) : Prop := (t.map (fun e => e.1)).Nodup

/-! ## Predicates of the proofs for any callback -/

/-- Node 0 is the ROOT and has a first child. -/
def RootChild (nodes : List FuncNode) : Prop :=
  ∃ r j, nodes[0]? = some r ∧ r.type = .ROOT ∧ r.children = some j

/-- The invariant of the builder whatever the callback answers: the links are
those of `Linked`, the insertion point is a node of the arena, node 0 is the
ROOT, never marked "uninitialized", and it has a child once there is an
insertion point. -/
def GInv (ast : Ast) : Prop :=
  Linked ast.nodes ∧ (∀ k, ast.cur_node = some k → k < ast.nodes.length) ∧
  ∃ r, ast.nodes[0]? = some r ∧ r.type = .ROOT ∧ r.children ≠ some 0 ∧
    (r.children = none → ast.cur_node = none)

/-- A node list has an element among its nodes (not counting what is below
them). -/
def HasElement : XmlNode → Prop
  | .nil => False
  | .other next => HasElement next
  | .element _ _ _ _ => True

/-- The number of nodes the walk can still visit after it has moved up through
the given parents. -/
def stack_size : List XmlNode → Nat
  | [] => 0
  | p :: ps => p.next.size + stack_size ps

/-- What a turn of the loop leaves is sound: the invariant holds, the walk has
at most `bound` nodes left to visit, and the root has a child when `K`. -/
def StepGood (bound : Nat) (K : Prop) : Step → Prop
  | .at x ps ast =>
    GInv ast ∧ x ≠ .nil ∧ x.size + stack_size ps ≤ bound ∧ (K → RootChild ast.nodes)
  | .finished ast => GInv ast ∧ (K → RootChild ast.nodes)
  | .failed ast => GInv ast
  | .abort => True
  | .out_of_fuel => False

/-- What the loop leaves is sound: it ended, a failed build leaves an arena
with sound links, a finished one a root with a child. -/
def WalkGood : WalkResult → Prop
  | .finished nodes => RootChild nodes
  | .failed nodes => Linked nodes
  | .abort => True
  | .out_of_fuel => False


/-! ## Allocation failures in `ourfa_xmlapi_load_file` -/

/-- Which allocations of `ourfa_xmlapi_load_file` succeed: the `strdup` of the
file name, `xmlHashCreate`, and, for the function element at position `i` of
the list of the root's children, the `malloc` of its record and its
`xmlHashUpdateEntry`. -/
structure Sys where
  strdup_ok : Bool
  hash_create_ok : Bool
  malloc_func_ok : Nat → Bool
  hash_update_ok : Nat → Bool

/-- All allocations succeed. -/
def Sys.ok : Sys :=
  { strdup_ok := true, hash_create_ok := true, malloc_func_ok := fun _ => true,
    hash_update_ok := fun _ => true }

/-- What the loop over the functions leaves when allocations can fail: the
loop ran to the end (`res` is still `OURFA_OK`), or it was left by `break`
with a result code, or the process stopped. -/
inductive FuncsResultSys
  | done (table : FuncTable)
  | stopped (res : Int) (table : FuncTable)
  | abort
  | out_of_fuel
  deriving DecidableEq, Repr

/-- The loop "foreach function" of `ourfa_xmlapi_load_file` with allocations
that can fail; `i` is the position of the node in the list. -/
def load_functions_sys (sys : Sys) (err_f : ErrF) :
    XmlNode → Nat → FuncTable → Bool → FuncsResultSys
  | .nil, _, table, _ => .done table
  | .other next, i, table, erange => load_functions_sys sys err_f next (i + 1) table erange
  | .element name attrs children next, i, table, erange =>
    if xmlStrcasecmp name.data "function".data ≠ 0 then
      load_functions_sys sys err_f next (i + 1) table erange
    else
      match xmlGetProp attrs "name" with
      | none => load_functions_sys sys err_f next (i + 1) table erange
      | some prop_func_name =>
        if sys.malloc_func_ok i = false then .stopped (err_f OURFA_ERROR_SYSTEM) table
        else
          match xmlGetProp attrs "id" with
          | none => load_functions_sys sys err_f next (i + 1) table erange
          | some prop_func_id =>
            if char_at prop_func_id 0 = none then
              load_functions_sys sys err_f next (i + 1) table erange
            else
              let r := strtol prop_func_id.data 0
              let erange1 := erange || r.erange
              if r.endptr ≠ [] ∨ erange1 = true then
                load_functions_sys sys err_f next (i + 1) table erange1
              else
                let io := find_in_out children (.nil, .nil)
                match load_func_def err_f io.1 with
                | .null => load_functions_sys sys err_f next (i + 1) table erange1
                | .abort => .abort
                | .out_of_fuel => .out_of_fuel
                | .tree f_in =>
                  match load_func_def err_f io.2 with
                  | .null => load_functions_sys sys err_f next (i + 1) table erange1
                  | .abort => .abort
                  | .out_of_fuel => .out_of_fuel
                  | .tree f_out =>
                    if sys.hash_update_ok i = false then
                      .stopped (err_f OURFA_ERROR_OTHER) table
                    else
                      load_functions_sys sys err_f next (i + 1)
                        (xmlHashUpdateEntry table prop_func_name
                          { name := prop_func_name, id := long_to_int r.value,
                            in_ := f_in, out := f_out })
                        erange1

/-- The function `ourfa_xmlapi_load_file` with allocations that can fail. -/
def ourfa_xmlapi_load_file_sys (sys : Sys) (xmlReadFile : String → Option XmlNode)
    (erange : Bool) (xmlapi : XmlApi) (file : Option String) : LoadFileResult :=
  match xmlapi.file with
  | some _ => .returned (xmlapi.printf_err OURFA_ERROR_OTHER) xmlapi
  | none =>
    let path := match file with
      | some f => f
      | none => DEFAULT_API_XML_FILE
    if sys.strdup_ok = false then
      load_file_end (xmlapi.printf_err OURFA_ERROR_SYSTEM) xmlapi
    else
      let api1 : XmlApi := { xmlapi with file := some path }
      match xmlReadFile path with
      | none => load_file_end OURFA_ERROR_OTHER api1
      | some doc =>
        if sys.hash_create_ok = false then
          load_file_end OURFA_ERROR_OTHER { api1 with func_by_name := none }
        else
          let api2 : XmlApi := { api1 with func_by_name := some [] }
          match xmlDocGetRootElement doc with
          | .element name _ children _ =>
            if xmlStrcasecmp name.data "urfa".data ≠ 0 then
              load_file_end (xmlapi.printf_err OURFA_ERROR_OTHER) api2
            else
              match load_functions_sys sys xmlapi.printf_err children 0 [] erange with
              | .done table => load_file_end OURFA_OK { api2 with func_by_name := some table }
              | .stopped res table =>
                load_file_end res { api2 with func_by_name := some table }
              | .abort => .abort
              | .out_of_fuel => .out_of_fuel
          | _ => load_file_end (xmlapi.printf_err OURFA_ERROR_OTHER) api2

/-! ## Sample documents -/

/-- A function element `<function name=... id=.../>` followed by `next`. -/
def function_element (name id : String) (next : XmlNode) : XmlNode :=
  .element "function" [("name", name), ("id", id)] .nil next

/-- The function built from `<function name=... id=.../>` when the id is the
given integer. -/
def bare_func (name : String) (id : Int) : Func :=
  { name := name, id := id, in_ := [root_node], out := [root_node] }

/-- The document `<urfa><function name="" id="1"/></urfa>`. -/
def empty_name_doc : XmlNode :=
  .element "urfa" [] (function_element "" "1" .nil) .nil

/-- The children of the root of
`<urfa><function name="f" id="1"/><function name="g" id="99999999999999999999"/>
<function name="f" id="2"/></urfa>`. -/
def stale_erange_functions : XmlNode :=
  function_element "f" "1"
    (function_element "g" "99999999999999999999" (function_element "f" "2" .nil))



/-! ## The table a document denotes -/

/-- The function a `function` element denotes when it is well formed: it has
a `name`, a non-empty `id` that `strtol` reads to its end within the range of
`long`, and its `input` and `output` bodies build. -/
def func_of (err_f : ErrF) (attrs : List (String × String)) (children : XmlNode) :
    Option (String × Func) :=
  match xmlGetProp attrs "name", xmlGetProp attrs "id" with
  | some name, some id =>
    if id.data = [] ∨ (strtol id.data 0).endptr ≠ [] ∨ (strtol id.data 0).erange = true then none
    else
      match load_func_def err_f (find_in_out children (.nil, .nil)).1,
            load_func_def err_f (find_in_out children (.nil, .nil)).2 with
      | .tree f_in, .tree f_out =>
        some (name, { name := name, id := long_to_int (strtol id.data 0).value,
                      in_ := f_in, out := f_out })
      | _, _ => none
  | _, _ => none

/-- The function of the last well-formed `function` element with the given
name in a list of nodes, if there is one. -/
def last_well_formed (err_f : ErrF) (name : String) : XmlNode → Option Func
  | .nil => none
  | .other next => last_well_formed err_f name next
  | .element ename attrs children next =>
    match last_well_formed err_f name next with
    | some f => some f
    | none =>
      if xmlStrcasecmp ename.data "function".data = 0 then
        match func_of err_f attrs children with
        | some (n, f) => if n = name then some f else none
        | none => none
      else none

/-- No `function` element of the list has an id out of the range of `long`
(so that `strtol` never sets `errno` to `ERANGE`). -/
def IdsInRange : XmlNode → Prop
  | .nil => True
  | .other next => IdsInRange next
  | .element ename attrs _ next =>
    (xmlStrcasecmp ename.data "function".data = 0 →
      ∀ id, xmlGetProp attrs "id" = some id → (strtol id.data 0).erange = false)
    ∧ IdsInRange next

/-- The children of the root of `<urfa><function name="f" id="1"/>
<function name="f" id="2"/><function name="g"/></urfa>`. -/
def duplicate_functions : XmlNode :=
  function_element "f" "1"
    (function_element "f" "2" (.element "function" [("name", "g")] .nil .nil))

/-- The document with the children `duplicate_functions`. -/
def duplicate_doc : XmlNode := .element "urfa" [] duplicate_functions .nil


/-- The path `ourfa_xmlapi_load_file` reads: the one given, or the default. -/
def load_path (file : Option String) : String :=
  match file with
  | some f => f
  | none => DEFAULT_API_XML_FILE

/-- A `function` element has one of the per-function problems: no `name`, no
`id`, an empty `id`, an `id` with characters left over after the number, or
an `input` or `output` body for which `load_func_def` returns `NULL`. -/
def Malformed (err_f : ErrF) (attrs : List (String × String)) (children : XmlNode) : Prop :=
  xmlGetProp attrs "name" = none ∨ xmlGetProp attrs "id" = none
  ∨ (∃ id, xmlGetProp attrs "id" = some id ∧ (id.data = [] ∨ (strtol id.data 0).endptr ≠ []))
  ∨ load_func_def err_f (find_in_out children (.nil, .nil)).1 = .null
  ∨ load_func_def err_f (find_in_out children (.nil, .nil)).2 = .null

/-- The container after `duplicate_doc` is loaded with the default path. -/
def duplicate_api : XmlApi :=
  { file := some DEFAULT_API_XML_FILE, func_by_name := some [("f", bare_func "f" 2)],
    printf_err := id }


/-! ## `ourfa_xmlapi_f_have_input` and `ourfa_xmlapi_f_have_output` -/

/-- The function `ourfa_xmlapi_f_have_input`; `f->in` is node 0 of `in_`
(every function of the table has it). -/
def ourfa_xmlapi_f_have_input (f : Option Func) : Int :=
  match f with
  | none => 0
  | some f =>
    match f.in_[0]? with
    | none => 0
    | some root => if root.children = none then 0 else 1

/-- The function `ourfa_xmlapi_f_have_output`. -/
def ourfa_xmlapi_f_have_output (f : Option Func) : Int :=
  match f with
  | none => 0
  | some f =>
    match f.out[0]? with
    | none => 0
    | some root => if root.children = none then 0 else 1

/-- No element of the list is named `s` ignoring case (not counting what is
below the elements). -/
def NoChildNamed (s : String) : XmlNode → Prop
  | .nil => True
  | .other next => NoChildNamed s next
  | .element name _ _ next => xmlStrcasecmp name.data s.data ≠ 0 ∧ NoChildNamed s next

/-- The function element
`<function name="ping" id="1"><input> </input><output><integer name="x"/></output></function>`,
alone in its list. -/
def ping_with_output : XmlNode :=
  .element "function" [("name", "ping"), ("id", "1")]
    (.element "input" [] (.other .nil)
      (.element "output" [] (.element "integer" [("name", "x")] .nil .nil) .nil)) .nil


/-! ## Reserved and unknown tags -/

/-- The kinds `load_func_def` has no case for, and `UNKNOWN`. -/
def RejectedKind (t : NodeType) : Prop :=
  t = .CALL ∨ t = .PARAMETER ∨ t = .MESSAGE ∨ t = .SHIFT ∨ t = .REMOVE ∨ t = .ROOT
    ∨ t = .UNKNOWN

/-- The name is call, parameter, message, shift, remove or ROOT in some
letter case. -/
def ReservedName (s : String) : Prop :=
  eqIgnoreCase s "call" ∨ eqIgnoreCase s "parameter" ∨ eqIgnoreCase s "message"
    ∨ eqIgnoreCase s "shift" ∨ eqIgnoreCase s "remove" ∨ eqIgnoreCase s "ROOT"

/-- The name is a C string (no NUL in it) that is no name of the table
`node_types` in any letter case. -/
def NotInTable (s : String) : Prop :=
  (∀ c ∈ s.data, c.toNat ≠ 0) ∧ ∀ e ∈ node_types, ¬ eqIgnoreCase s e.2

/-- The body `<input><call function="f"/></input>`. -/
def call_body : XmlNode :=
  .element "input" [] (.element "call" [("function", "f")] .nil .nil) .nil

/-- The body `<input><Shift name="a"/></input>`. -/
def shift_body : XmlNode :=
  .element "input" [] (.element "Shift" [("name", "a")] .nil .nil) .nil

/-- The function element `<function name="f" id="1"><input><call function="f"/></input></function>`. -/
def function_with_call (next : XmlNode) : XmlNode :=
  .element "function" [("name", "f"), ("id", "1")] call_body next


/-! ## Decimal integers -/

/-- A decimal digit. -/
def is_decimal_digit (c : Char) : Bool :=
  48 ≤ c.toNat && c.toNat ≤ 57

/-- The number a string of decimal digits denotes. -/
def decimal_nat (s : List Char) : Nat :=
  s.foldl (fun acc c => acc * 10 + (c.toNat - 48)) 0

/-- The integer a string denotes when it is, from its first to its last
character, a base-10 integer in the form `strtol` reads: white space, an
optional sign, one or more decimal digits.  This definition follows the words
of the specification, not the code. -/
def decimal_value (s : List Char) : Option Int :=
  match s.dropWhile isspace with
  | '-' :: u =>
    if u ≠ [] ∧ u.all is_decimal_digit = true then some (-(decimal_nat u : Int)) else none
  | '+' :: u =>
    if u ≠ [] ∧ u.all is_decimal_digit = true then some (decimal_nat u : Int) else none
  | u =>
    if u ≠ [] ∧ u.all is_decimal_digit = true then some (decimal_nat u : Int) else none

/-- An integer brought into the range of `long`, as `strtol` does. -/
def clamp_long (v : Int) : Int :=
  if v > LONG_MAX then LONG_MAX else if v < LONG_MIN then LONG_MIN else v

/-- The tree of a body whose one element is an `error`. -/
def error_tree (code : Int) (comment variable_ : Option String) : List FuncNode :=
  [{ type := .ROOT, parent := none, next := none, children := some 1, n := .empty },
   { type := .ERROR, parent := some 0, next := none, children := none,
     n := .n_error (some code) comment variable_ }]

/-- The body `<input><error code="..."/></input>`. -/
def error_body (code : String) : XmlNode :=
  .element "input" [] (.element "error" [("code", code)] .nil .nil) .nil


/-! ## The client context and `ourfa_call` -/

/-- Modelled from the spec: a packet (`ourfa_pkt_t` of `ourfa.h`, which is not
among the sources) is a handle. -/
structure Pkt where
  id : Nat
  deriving DecidableEq, Repr

/-- Modelled from the spec: a parameter hash (`ourfa_hash_t` of `ourfa.h`) is a
handle. -/
structure Hash where
  id : Nat
  deriving DecidableEq, Repr

/-- Modelled from the spec: a connection (`ourfa_conn_t` of `ourfa.h`) is a
handle. -/
structure Conn where
  id : Nat
  deriving DecidableEq, Repr

/-- Modelled from the spec: the response interpreter made by
`ourfa_xmlapictx_load_resp_pkt_start` is a handle. -/
structure RespCtx where
  id : Nat
  deriving DecidableEq, Repr

/-- Modelled from the spec: the call context `ourfa_xmlapictx_t` made by
`ourfa_xmlapictx_new` (not among the sources) holds the function resolved in
the schema. -/
structure CallCtx where
  f : Func
  deriving DecidableEq, Repr

/-- Modelled from the spec: `ourfa_xmlapictx_have_input_parameters` answers
whether the `in` tree of the resolved function has a child. -/
def ourfa_xmlapictx_have_input_parameters (ctx : CallCtx) : Int :=
  ourfa_xmlapi_f_have_input (some ctx.f)

/-- Modelled from the spec: `ourfa_xmlapictx_func_id` is the id of the resolved
function. -/
def ourfa_xmlapictx_func_id (ctx : CallCtx) : Int :=
  ctx.f.id

/-- Modelled from the spec: the functions `ourfa_call` calls that are declared
in `ourfa.h` and defined outside the sources, as what they answer.  A result
code is what the C function returns; a `none` is a `NULL`.  The response
interpreter answers from the packets it was fed before. -/
structure CallEnv where
  /-- the call `ourfa_xmlapictx_new(xmlapi, func, 0, NULL, NULL, 0, NULL)` -/
  xmlapictx_new : XmlApi → String → Option CallCtx
  /-- the string of `ourfa_xmlapi_last_err_str` -/
  xmlapi_last_err_str : XmlApi → String
  /-- the call `ourfa_xmlapictx_get_req_pkt(ctx, in, &pkt_in)`: the result and
  the packet stored -/
  xmlapictx_get_req_pkt : CallCtx → Option Hash → Int × Option Pkt
  /-- the string of `ourfa_xmlapictx_last_err_str` -/
  xmlapictx_last_err_str : CallCtx → String
  /-- the call `ourfa_conn_start_func_call(conn, func_id)` -/
  conn_start_func_call : Option Conn → Int → Int
  /-- the call `ourfa_pkt_add_attrs(pkt_in, "4i", 4)`: the result and the
  packet with the attribute -/
  pkt_add_attrs : Pkt → Int × Pkt
  /-- the call `ourfa_conn_send_packet(conn, pkt)` -/
  conn_send_packet : Conn → Pkt → Int
  /-- the string of `ourfa_conn_last_err_str` -/
  conn_last_err_str : Conn → String
  /-- the call `ourfa_xmlapictx_load_resp_pkt_start(xmlapi, func)` -/
  load_resp_pkt_start : XmlApi → String → Option RespCtx
  /-- the call `ourfa_xmlapictx_load_resp_pkt(resp_ctx, pkt_out)`, given the
  packets fed before -/
  load_resp_pkt : RespCtx → List (Option Pkt) → Option Pkt → Int
  /-- whether `ourfa_pkt_get_attrs_list(pkt_out, OURFA_ATTR_TERMINATION)` is
  not `NULL` -/
  pkt_has_termination : Option Pkt → Bool
  /-- the call `ourfa_xmlapictx_load_resp_pkt_end(resp_ctx)`, given the packets
  fed -/
  load_resp_pkt_end : RespCtx → List (Option Pkt) → Option Hash

/-- The record `struct ourfa_t`. -/
structure ourfa_t where
  proto : Nat
  login_type : Nat
  ssl : Nat
  timeout : Nat
  login : Option String
  pass : Option String
  server_port : Option String
  xmlapi : Option XmlApi
  conn : Option Conn
  err_msg : String
  debug_stream : Option Nat

/-- The function `set_err`, given the formatted message: `vsnprintf` keeps at
most 499 characters of it. -/
def set_err (ourfa : ourfa_t) (msg : String) : Int × ourfa_t :=
  (-1, { ourfa with err_msg := String.mk (msg.data.take 499) })

/-- The calls made to the collaborators, in order. -/
inductive Event
  | xmlapictx_new (func : String)
  | xmlapictx_get_req_pkt
  | conn_start_func_call (func_id : Int)
  | pkt_add_attrs
  | conn_send_packet (pkt : Pkt)
  | load_resp_pkt_start
  | conn_recv_packet
  | load_resp_pkt (pkt : Option Pkt)
  | load_resp_pkt_end
  | hash_free (h : Hash)
  deriving DecidableEq, Repr

/-- The function `ourfa_send_packet`: the result, the context afterwards and
the calls made. -/
def ourfa_send_packet (env : CallEnv) (ourfa : Option ourfa_t) (pkt : Pkt) :
    Int × Option ourfa_t × List Event :=
  match ourfa with
  | none => (-1, none, [])
  | some o =>
    match o.conn with
    | none => (-1, some o, [])
    | some conn =>
      let res := env.conn_send_packet conn pkt
      if res < 0 then
        (res, some (set_err o (env.conn_last_err_str conn)).2, [.conn_send_packet pkt])
      else (res, some o, [.conn_send_packet pkt])

/-- What `ourfa_recv_packet` leaves. -/
structure RecvResult where
  /-- the value returned -/
  res0 : Int
  /-- the packet pointer `*res` afterwards -/
  pkt : Option Pkt
  /-- the context afterwards -/
  ourfa : Option ourfa_t
  /-- what the connection has still to deliver -/
  incoming : List (Int × Pkt)
  /-- the calls made -/
  trace : List Event

/-- The function `ourfa_recv_packet`.  Modelled from the spec:
`ourfa_conn_recv_packet` delivers the next of the pairs (result, packet) the
connection has to deliver, and fails with -1 (a timeout) when there is none. -/
def ourfa_recv_packet (env : CallEnv) (ourfa : Option ourfa_t) (pkt : Option Pkt)
    (incoming : List (Int × Pkt)) : RecvResult :=
  match ourfa with
  | none => ⟨-1, pkt, none, incoming, []⟩
  | some o =>
    match o.conn with
    | none => ⟨-1, pkt, some o, incoming, []⟩
    | some conn =>
      let r : Int × Option Pkt × List (Int × Pkt) :=
        match incoming with
        | [] => (-1, pkt, [])
        | (res0, p) :: rest => (res0, some p, rest)
      if r.1 < 0 then
        ⟨r.1, r.2.1, some (set_err o (env.conn_last_err_str conn)).2, r.2.2, [.conn_recv_packet]⟩
      else ⟨r.1, r.2.1, some o, r.2.2, [.conn_recv_packet]⟩

/-- The variables of `ourfa_call` when its receive loop is left. -/
structure LoopEnd where
  recvd_bytes : Int
  last_err : Int
  /-- the packets given to the response interpreter -/
  fed : List (Option Pkt)
  ourfa : ourfa_t
  incoming : List (Int × Pkt)
  trace : List Event

/-- The loop `while ((recvd_bytes = ourfa_recv_packet(ourfa, &pkt_out)) > 0)`
of `ourfa_call`; `none` when the turns of the model are used up. -/
def recv_loop (env : CallEnv) (resp_ctx : RespCtx) :
    Nat → ourfa_t → Option Pkt → List (Int × Pkt) → Int → List (Option Pkt) → List Event →
      Option LoopEnd
  | 0, _, _, _, _, _, _ => none
  | fuel + 1, ourfa, pkt_out, incoming, last_err, fed, trace =>
    let r := ourfa_recv_packet env (some ourfa) pkt_out incoming
    let ourfa1 := r.ourfa.getD ourfa
    if r.res0 > 0 then
      let feed := decide (last_err = 1)
      let last_err1 := if feed then env.load_resp_pkt resp_ctx fed r.pkt else last_err
      let fed1 := if feed then fed ++ [r.pkt] else fed
      let trace1 := trace ++ r.trace ++ (if feed then [.load_resp_pkt r.pkt] else [])
      if env.pkt_has_termination r.pkt then
        some ⟨r.res0, last_err1, fed1, ourfa1, r.incoming, trace1⟩
      else recv_loop env resp_ctx fuel ourfa1 r.pkt r.incoming last_err1 fed1 trace1
    else some ⟨r.res0, last_err, fed, ourfa1, r.incoming, trace ++ r.trace⟩

/-- What `ourfa_call` leaves. -/
structure CallResult where
  /-- the value returned -/
  ret : Int
  /-- the context afterwards -/
  ourfa : Option ourfa_t
  /-- what was stored in `*out`, if anything was -/
  out : Option (Option Hash)
  /-- what the connection has still to deliver -/
  incoming : List (Int × Pkt)
  /-- the calls made to the collaborators -/
  trace : List Event

/-- The part of `ourfa_call` from "Recv and parse answer" on. -/
def call_receive (env : CallEnv) (ourfa : ourfa_t) (xmlapi : XmlApi) (func : String)
    (out : Bool) (incoming : List (Int × Pkt)) (trace : List Event) : Option CallResult :=
  match env.load_resp_pkt_start xmlapi func with
  | none =>
    let e := set_err ourfa ("Cannot init response context: " ++ env.xmlapi_last_err_str xmlapi)
    some ⟨0, some e.2, if out then some none else none, incoming,
          trace ++ [.load_resp_pkt_start]⟩
  | some resp_ctx =>
    match recv_loop env resp_ctx (incoming.length + 1) ourfa none incoming 1 []
        (trace ++ [.load_resp_pkt_start]) with
    | none => none
    | some l =>
      let res_h := env.load_resp_pkt_end resp_ctx l.fed
      let trace1 := l.trace ++ [.load_resp_pkt_end]
      if l.recvd_bytes ≤ 0 then some ⟨-1, some l.ourfa, none, l.incoming, trace1⟩
      else
        match res_h with
        | none =>
          let e := set_err l.ourfa ("Unable to parse packet: " ++ env.xmlapi_last_err_str xmlapi)
          some ⟨e.1, some e.2, none, l.incoming, trace1⟩
        | some h =>
          if l.last_err < 0 then
            let e := set_err l.ourfa
              ("Unable to parse packet: " ++ env.xmlapi_last_err_str xmlapi)
            some ⟨-1, some e.2, none, l.incoming, trace1⟩
          else if out then some ⟨0, some l.ourfa, some (some h), l.incoming, trace1⟩
          else some ⟨0, some l.ourfa, none, l.incoming, trace1 ++ [.hash_free h]⟩

/-- The function `ourfa_call`; `in_` is the parameter hash, `out` tells whether
the caller gave a place for the result, `incoming` is what the connection has
to deliver.  The releases of packets and contexts and the dumps to the debug
stream are left out.  The result is `none` when the turns of the model's
receive loop are used up. -/
def ourfa_call (env : CallEnv) (ourfa : Option ourfa_t) (func : Option String)
    (in_ : Option Hash) (out : Bool) (incoming : List (Int × Pkt)) : Option CallResult :=
  match ourfa, func with
  | none, _ => some ⟨-1, none, none, incoming, []⟩
  | some o, none => some ⟨-1, some o, none, incoming, []⟩
  | some o, some func =>
    let o : ourfa_t := { o with err_msg := "" }
    match o.xmlapi with
    | none =>
      let e := set_err o "XML api not loaded"
      some ⟨e.1, some e.2, none, incoming, []⟩
    | some xmlapi =>
      match env.xmlapictx_new xmlapi func with
      | none =>
        let e := set_err o (env.xmlapi_last_err_str xmlapi)
        some ⟨e.1, some e.2, none, incoming, [.xmlapictx_new func]⟩
      | some ctx =>
        let req : Int × Option Pkt × List Event :=
          if ourfa_xmlapictx_have_input_parameters ctx ≠ 0 then
            ((env.xmlapictx_get_req_pkt ctx in_).1, (env.xmlapictx_get_req_pkt ctx in_).2,
             [.xmlapictx_new func, .xmlapictx_get_req_pkt])
          else (0, none, [.xmlapictx_new func])
        if req.1 ≠ 0 then
          some ⟨-1, some (set_err o (env.xmlapictx_last_err_str ctx)).2, none, incoming, req.2.2⟩
        else
          let trace := req.2.2 ++ [.conn_start_func_call (ourfa_xmlapictx_func_id ctx)]
          if env.conn_start_func_call o.conn (ourfa_xmlapictx_func_id ctx) ≠ 0 then
            some ⟨-1, some o, none, incoming, trace⟩
          else
            match req.2.1 with
            | none => call_receive env o xmlapi func out incoming trace
            | some pkt_in =>
              if (env.pkt_add_attrs pkt_in).1 ≠ 0 then
                let e := set_err o "Cannot add termination attribute to output packet"
                some ⟨e.1, some e.2, none, incoming, trace ++ [.pkt_add_attrs]⟩
              else
                let s := ourfa_send_packet env (some o) (env.pkt_add_attrs pkt_in).2
                if s.1 ≤ 0 then
                  some ⟨-1, s.2.1, none, incoming, trace ++ [.pkt_add_attrs] ++ s.2.2⟩
                else
                  call_receive env (s.2.1.getD o) xmlapi func out incoming
                    (trace ++ [.pkt_add_attrs] ++ s.2.2)

/-- The function `ourfa_new` when the allocation succeeds; the two constants
are those of `ourfa.h`. -/
def ourfa_new (OURFA_PROTO_VERSION OURFA_LOGIN_USER : Nat) : ourfa_t :=
  { proto := OURFA_PROTO_VERSION, login := none, pass := none, server_port := none,
    login_type := OURFA_LOGIN_USER, ssl := 0, xmlapi := none, conn := none, err_msg := "",
    timeout := 5, debug_stream := none }

/-- Collaborators that resolve the function in the table, build no packet,
start every call, and cannot make a response interpreter. -/
def env_no_resp_ctx : CallEnv :=
  { xmlapictx_new := fun xmlapi func => (ourfa_xmlapi_func xmlapi func).map CallCtx.mk,
    xmlapi_last_err_str := fun _ => "no memory",
    xmlapictx_get_req_pkt := fun _ _ => (0, none),
    xmlapictx_last_err_str := fun _ => "",
    conn_start_func_call := fun _ _ => 0,
    pkt_add_attrs := fun p => (0, p),
    conn_send_packet := fun _ _ => 1,
    conn_last_err_str := fun _ => "",
    load_resp_pkt_start := fun _ _ => none,
    load_resp_pkt := fun _ _ _ => 0,
    pkt_has_termination := fun _ => true,
    load_resp_pkt_end := fun _ _ => none }

/-- A context with the schema `ping_api` and an open connection. -/
def ping_ourfa : ourfa_t :=
  { ourfa_new 0 0 with xmlapi := some ping_api, conn := some ⟨0⟩ }


/-! ## `ourfa_set_conf` -/

/-- Modelled from the spec: what `ourfa_set_conf` uses that is outside the
sources: whether each `strdup` succeeds, the string of `strerror(errno)`, the
test `ourfa_is_valid_login_type` of `ourfa.h`, and the call
`ourfa_xmlapi_new(api_xml_dir, api_xml_file, ctx->err_msg, sizeof(ctx->err_msg))`
as the container it returns (`none` is `NULL`) and the string it leaves in the
buffer `err_msg`, given the string the buffer held. -/
structure ConfEnv where
  strdup_login_ok : Bool
  strdup_pass_ok : Bool
  strdup_server_port_ok : Bool
  strerror : String
  is_valid_login_type : Nat → Bool
  xmlapi_new : Option String → Option String → String → Option XmlApi × String

/-- The conversion of an `int` to `unsigned` (32 bits). -/
def int_to_unsigned (v : Int) : Nat :=
  (v % 2 ^ 32).toNat

/-- The function `ourfa_set_conf`: the value returned and the context
afterwards.  A `none` argument is a `NULL` pointer.  The releases of strings
are left out. -/
def ourfa_set_conf (env : ConfEnv) (ctx : Option ourfa_t)
    (login pass server_port : Option String) (login_type ssl : Option Nat)
    (api_xml_dir api_xml_file : Option String) (timeout : Option Int) :
    Int × Option ourfa_t :=
  match ctx with
  | none => (-1, none)
  | some c =>
    if c.conn.isSome then
      let e := set_err c "Can not set configuration when online.  Disconnect first"
      (e.1, some e.2)
    else
      let c0 : ourfa_t := { c with err_msg := "" }
      if login.isSome ∧ env.strdup_login_ok = false then
        (-1, some (set_err c0 ("Malloc failed (login) " ++ env.strerror)).2)
      else if pass.isSome ∧ env.strdup_pass_ok = false then
        (-1, some (set_err c0 ("Malloc failed (pass) " ++ env.strerror)).2)
      else if server_port.isSome ∧ env.strdup_server_port_ok = false then
        (-1, some (set_err c0 ("Malloc failed (server_port) " ++ env.strerror)).2)
      else
        let bad_type : Option Nat :=
          match login_type with
          | some t => if env.is_valid_login_type t then none else some t
          | none => none
        match bad_type with
        | some t =>
          (-1, some (set_err c0
            ("Invalid login type " ++ toString (long_to_int (t : Int)))).2)
        | none =>
          let x := env.xmlapi_new api_xml_dir api_xml_file c0.err_msg
          let c1 : ourfa_t := { c0 with err_msg := String.mk (x.2.data.take 499) }
          match x.1 with
          | none => (-1, some c1)
          | some xmlapi =>
            (0, some { c1 with
              login := if login.isSome then login else c1.login,
              pass := if pass.isSome then pass else c1.pass,
              server_port := if server_port.isSome then server_port else c1.server_port,
              login_type := match login_type with
                            | some t => t
                            | none => c1.login_type,
              ssl := match ssl with
                     | some s => s
                     | none => c1.ssl,
              xmlapi := some xmlapi,
              timeout := match timeout with
                         | some t => int_to_unsigned t
                         | none => c1.timeout })

/-- Collaborators of `ourfa_set_conf` for which every allocation succeeds, the
login types 0, 1 and 2 are valid, and the container made is empty. -/
def conf_env : ConfEnv :=
  { strdup_login_ok := true, strdup_pass_ok := true, strdup_server_port_ok := true,
    strerror := "Cannot allocate memory",
    is_valid_login_type := fun t => decide (t < 3),
    xmlapi_new := fun _ _ m => (some (ourfa_xmlapi_new id), m) }


/-! ## The receive loop of `ourfa_call`, packet by packet -/

/-- One turn of the receive loop on the interpreter's side: from the last
result and the packets fed so far to the same after the packet `p` was
received. -/
def feed_step (env : CallEnv) (resp_ctx : RespCtx) (st : Int × List (Option Pkt)) (p : Pkt) :
    Int × List (Option Pkt) :=
  if st.1 = 1 then (env.load_resp_pkt resp_ctx st.2 (some p), st.2 ++ [some p]) else st

/-- The interpreter's last result and the packets fed to it when the packets
`pkts` were received one after the other by a loop that started with
`last_err = 1` and nothing fed. -/
def feed (env : CallEnv) (resp_ctx : RespCtx) (pkts : List Pkt) : Int × List (Option Pkt) :=
  pkts.foldl (feed_step env resp_ctx) (1, [])

/-- The calls the receive loop makes while the packets `pkts` are received. -/
def loop_events (env : CallEnv) (resp_ctx : RespCtx) :
    Int × List (Option Pkt) → List Pkt → List Event
  | _, [] => []
  | st, p :: ps =>
    [Event.conn_recv_packet] ++ (if st.1 = 1 then [Event.load_resp_pkt (some p)] else [])
      ++ loop_events env resp_ctx (feed_step env resp_ctx st p) ps

/-- The packets given to `ourfa_xmlapictx_load_resp_pkt` in a sequence of
calls. -/
def fed_packets (trace : List Event) : List (Option Pkt) :=
  trace.filterMap (fun e =>
    match e with
    | .load_resp_pkt p => some p
    | _ => none)

/-- A call of `ourfa_conn_send_packet`. -/
def is_send_event : Event → Bool
  | .conn_send_packet _ => true
  | _ => false

/-- A call that builds the request: `ourfa_xmlapictx_get_req_pkt` or
`ourfa_pkt_add_attrs`. -/
def is_build_event : Event → Bool
  | .xmlapictx_get_req_pkt => true
  | .pkt_add_attrs => true
  | _ => false

/-- The call `ourfa_call(ourfa, func, in_, ...)` gets as far as "Recv and parse
answer": the context has the schema `xmlapi`, the function is resolved to
`ctx`, the request, if the function has input, is built, completed and sent,
and the call is started on the connection.  (A request interpreter that
answers 0 and stores no packet sends nothing.) -/
def CallStarted (env : CallEnv) (ourfa : ourfa_t) (func : String) (in_ : Option Hash)
    (xmlapi : XmlApi) (ctx : CallCtx) : Prop :=
  ourfa.xmlapi = some xmlapi ∧ env.xmlapictx_new xmlapi func = some ctx ∧
  (ourfa_xmlapictx_have_input_parameters ctx = 0
    ∨ (∃ pkt_in conn, env.xmlapictx_get_req_pkt ctx in_ = (0, some pkt_in) ∧
        (env.pkt_add_attrs pkt_in).1 = 0 ∧ ourfa.conn = some conn ∧
        0 < env.conn_send_packet conn (env.pkt_add_attrs pkt_in).2)
    ∨ env.xmlapictx_get_req_pkt ctx in_ = (0, none)) ∧
  env.conn_start_func_call ourfa.conn (ourfa_xmlapictx_func_id ctx) = 0

/-- What the connection delivers is the packets `pre`, each with a positive
result and without the termination attribute, then the packet `p` with the
positive result `n` and the termination attribute, then `post`. -/
def TerminatedAt (env : CallEnv) (incoming pre : List (Int × Pkt)) (n : Int) (p : Pkt)
    (post : List (Int × Pkt)) : Prop :=
  incoming = pre ++ (n, p) :: post ∧
  (∀ e ∈ pre, 0 < e.1 ∧ env.pkt_has_termination (some e.2) = false) ∧
  0 < n ∧ env.pkt_has_termination (some p) = true

/-- The function `echo`, with one input parameter. -/
def echo_func : Func :=
  { name := "echo", id := 2,
    in_ := [{ type := .ROOT, parent := none, next := none, children := some 1, n := .empty },
            { type := .INTEGER, parent := some 0, next := none, children := none,
              n := .n_val (some "x") none none }],
    out := [root_node] }

/-- A schema with the functions `ping` (no input) and `echo` (one input
parameter). -/
def echo_api : XmlApi :=
  { file := some DEFAULT_API_XML_FILE,
    func_by_name := some [("ping", ping_func), ("echo", echo_func)], printf_err := id }

/-- A context with the schema `echo_api` and an open connection. -/
def echo_ourfa : ourfa_t :=
  { ourfa_new 0 0 with xmlapi := some echo_api, conn := some ⟨0⟩ }

/-- A context with the schema `echo_api` and no connection. -/
def offline_ourfa : ourfa_t :=
  { ourfa_new 0 0 with xmlapi := some echo_api }

/-- Collaborators that resolve the function in the table, build the request
packet 1 (or fail to, when `req_ok` is false), start a call on an open
connection only, send every packet, and make a response interpreter that
answers `answer` to every packet and ends with a hash; the packet 4 is the one
with the termination attribute. -/
def call_env (req_ok : Bool) (answer : Int) : CallEnv :=
  { xmlapictx_new := fun xmlapi func => (ourfa_xmlapi_func xmlapi func).map CallCtx.mk,
    xmlapi_last_err_str := fun _ => "error",
    xmlapictx_get_req_pkt := fun _ _ => if req_ok then (0, some ⟨1⟩) else (-1, none),
    xmlapictx_last_err_str := fun _ => "no such parameter",
    conn_start_func_call := fun conn _ => if conn.isSome then 0 else -1,
    pkt_add_attrs := fun p => (0, p),
    conn_send_packet := fun _ _ => 1,
    conn_last_err_str := fun _ => "timeout",
    load_resp_pkt_start := fun _ _ => some ⟨0⟩,
    load_resp_pkt := fun _ _ _ => answer,
    pkt_has_termination := fun p => decide (p = some ⟨4⟩),
    load_resp_pkt_end := fun _ fed => some ⟨fed.length⟩ }


/-- A call that belongs to the request: building it or sending it. -/
def is_request_event (e : Event) : Bool :=
  is_send_event e || is_build_event e

/-! ## Sample inputs for the id of a function and for the cleanup -/

/-- The document `<urfa><function name="f" id="4294967297"/></urfa>`. -/
def big_id_doc : XmlNode :=
  .element "urfa" [] (function_element "f" "4294967297" .nil) .nil

/-- The body `<input><for name="i" from="0" count="n"><integer/></for></input>`:
the first element inside the `for` has no `name`. -/
def for_bad_first : XmlNode :=
  .element "input" []
    (.element "for" [("name", "i"), ("from", "0"), ("count", "n")]
      (.element "integer" [] .nil .nil) .nil) .nil

/-- The body `<input><if variable="a" value="b" condition="eq"><call/></if></input>`:
the first element inside the `if` is a `call`. -/
def if_bad_first : XmlNode :=
  .element "input" []
    (.element "if" [("variable", "a"), ("value", "b"), ("condition", "eq")]
      (.element "call" [] .nil .nil) .nil) .nil

/-- The document whose one function has the input `for_bad_first`. -/
def for_bad_first_doc : XmlNode :=
  .element "urfa" []
    (.element "function" [("name", "f"), ("id", "1")] for_bad_first .nil) .nil


/-! ## Theorems: names and kinds -/

theorem char_eq_of_toNat_eq {a b : Char} (h : a.toNat = b.toNat) : a = b := by
  apply Char.ext
  apply UInt32.ext
  exact h

theorem casemap_sub_eq_zero_iff (a b : Char) :
    casemap a - casemap b = 0 ↔ sameLetter a b := by
  unfold casemap sameLetter
  constructor
  · intro h
    by_cases hab : a.toNat = b.toNat
    · exact Or.inl (char_eq_of_toNat_eq hab)
    · right
      split at h <;> split at h <;> omega
  · rintro (h | h | h)
    · subst h; simp
    · split <;> split <;> omega
    · split <;> split <;> omega

theorem xmlStrcasecmp_eq_zero_of (s t : List Char) (h : List.Forall₂ sameLetter s t) :
    xmlStrcasecmp s t = 0 := by
  induction h with
  | nil => rfl
  | cons hab _ ih =>
    simp only [xmlStrcasecmp]
    rw [if_neg (by simpa using (casemap_sub_eq_zero_iff _ _).2 hab)]
    exact ih

/-- In the other direction the strings must be C strings: no NUL inside. -/
theorem forall₂_of_xmlStrcasecmp_eq_zero (s t : List Char)
    (ht : ∀ c ∈ t, c.toNat ≠ 0) (hs : ∀ c ∈ s, c.toNat ≠ 0)
    (h : xmlStrcasecmp s t = 0) : List.Forall₂ sameLetter s t := by
  induction s generalizing t with
  | nil =>
    cases t with
    | nil => exact List.Forall₂.nil
    | cons b bs =>
      exfalso
      have hb := ht b (List.mem_cons_self _ _)
      simp only [xmlStrcasecmp, casemap] at h
      split at h <;> omega
  | cons a as ih =>
    cases t with
    | nil =>
      exfalso
      have ha := hs a (List.mem_cons_self _ _)
      simp only [xmlStrcasecmp, casemap] at h
      split at h <;> omega
    | cons b bs =>
      simp only [xmlStrcasecmp] at h
      by_cases hz : casemap a - casemap b = 0
      · rw [if_neg (by simpa using hz)] at h
        exact List.Forall₂.cons ((casemap_sub_eq_zero_iff _ _).1 hz)
          (ih bs (fun c hc => ht c (List.mem_cons_of_mem _ hc))
            (fun c hc => hs c (List.mem_cons_of_mem _ hc)) h)
      · rw [if_pos (by simpa using hz)] at h
        exact absurd h hz

theorem casemap_eq_of_sameLetter {a b : Char} (h : sameLetter a b) : casemap a = casemap b := by
  have := (casemap_sub_eq_zero_iff a b).2 h
  omega

theorem xmlStrcasecmp_congr_left {s s' : List Char} (h : List.Forall₂ sameLetter s s')
    (t : List Char) : xmlStrcasecmp s t = xmlStrcasecmp s' t := by
  induction h generalizing t with
  | nil => rfl
  | cons hab _ ih =>
    cases t with
    | nil => simp only [xmlStrcasecmp, casemap_eq_of_sameLetter hab]
    | cons b bs => simp only [xmlStrcasecmp, casemap_eq_of_sameLetter hab, ih bs]

theorem node_type_by_name_loop_congr {s s' : String} (h : eqIgnoreCase s s')
    (T : List (NodeType × String)) :
    node_type_by_name_loop s T = node_type_by_name_loop s' T := by
  induction T with
  | nil => rfl
  | cons e T ih =>
    obtain ⟨k, n⟩ := e
    simp only [node_type_by_name_loop, xmlStrcasecmp_congr_left h, ih]

theorem node_type_by_name_loop_unknown (s : String) (T : List (NodeType × String))
    (h : ∀ e ∈ T, xmlStrcasecmp s.data e.2.data ≠ 0) :
    node_type_by_name_loop s T = .UNKNOWN := by
  induction T with
  | nil => rfl
  | cons e T ih =>
    obtain ⟨k, n⟩ := e
    simp only [node_type_by_name_loop]
    rw [if_neg (h (k, n) (List.mem_cons_self _ _))]
    exact ih (fun e he => h e (List.mem_cons_of_mem _ he))

theorem node_name_by_type_loop_unknown (code : NodeType → Int) (i : Int)
    (T : List (NodeType × String)) (h : ∀ e ∈ T, code e.1 ≠ i) :
    node_name_by_type_loop code i T = "UNKNOWN" := by
  induction T with
  | nil => rfl
  | cons e T ih =>
    obtain ⟨k, n⟩ := e
    simp only [node_name_by_type_loop]
    rw [if_neg (fun hc => h (k, n) (List.mem_cons_self _ _) hc.symm)]
    exact ih (fun e he => h e (List.mem_cons_of_mem _ he))

theorem node_types_lookup (k : NodeType) (n : String) (h : (k, n) ∈ node_types) :
    ourfa_xmlapi_node_type_by_name n = k := by
  simp only [node_types, List.mem_cons, Prod.mk.injEq, List.mem_singleton, List.not_mem_nil,
    or_false] at h
  rcases h with h | h | h | h | h | h | h | h | h | h | h | h | h | h | h | h <;>
    (obtain ⟨rfl, rfl⟩ := h; decide)

theorem node_types_name (code : NodeType → Int) (hc : Function.Injective code)
    (k : NodeType) (n : String) (h : (k, n) ∈ node_types) :
    ourfa_xmlapi_node_name_by_type code (code k) = n := by
  simp only [node_types, List.mem_cons, Prod.mk.injEq, List.mem_singleton, List.not_mem_nil,
    or_false] at h
  rcases h with h | h | h | h | h | h | h | h | h | h | h | h | h | h | h | h <;>
    (obtain ⟨rfl, rfl⟩ := h
     simp [ourfa_xmlapi_node_name_by_type, node_name_by_type_loop, node_types, hc.eq_iff])

theorem ord_injective : Function.Injective NodeType.ord := by
  intro a b h
  cases a <;> cases b <;> first | rfl | (simp [NodeType.ord] at h)

/-- C7: for every table name `n` and every letter-case variant `n'` of it,
the name of the kind of `n'` is the table's spelling of `n` (whatever distinct
integers the kinds are). -/
theorem name_by_type_of_type_by_name (code : NodeType → Int) (hc : Function.Injective code)
    (k : NodeType) (n n' : String) (hmem : (k, n) ∈ node_types) (hcase : eqIgnoreCase n' n) :
    ourfa_xmlapi_node_name_by_type code (code (ourfa_xmlapi_node_type_by_name n')) = n := by
  have h1 : ourfa_xmlapi_node_type_by_name n' = k := by
    unfold ourfa_xmlapi_node_type_by_name
    rw [node_type_by_name_loop_congr hcase]
    exact node_types_lookup k n hmem
  rw [h1]
  exact node_types_name code hc k n hmem

/-- C7 at the name "rOot": the table's spelling "ROOT" comes back. -/
theorem name_by_type_of_type_by_name_witness :
    (NodeType.ROOT, "ROOT") ∈ node_types ∧ eqIgnoreCase "rOot" "ROOT" ∧
    ourfa_xmlapi_node_name_by_type NodeType.ord
      (NodeType.ord (ourfa_xmlapi_node_type_by_name "rOot")) = "ROOT" := by
  have hm : (NodeType.ROOT, "ROOT") ∈ node_types := by decide
  have he : eqIgnoreCase "rOot" "ROOT" := by
    unfold eqIgnoreCase
    refine List.Forall₂.cons ?_ (List.Forall₂.cons ?_ (List.Forall₂.cons ?_
      (List.Forall₂.cons ?_ List.Forall₂.nil))) <;> unfold sameLetter <;> decide
  exact ⟨hm, he, name_by_type_of_type_by_name NodeType.ord ord_injective _ _ _ hm he⟩

theorem node_types_no_nul (e : NodeType × String) (h : e ∈ node_types) :
    ∀ c ∈ e.2.data, c.toNat ≠ 0 := by
  simp only [node_types, List.mem_cons, List.mem_singleton, List.not_mem_nil, or_false] at h
  rcases h with h | h | h | h | h | h | h | h | h | h | h | h | h | h | h | h <;>
    (subst h; decide)

theorem node_types_not_unknown (e : NodeType × String) (h : e ∈ node_types) :
    e.1 ≠ .UNKNOWN := by
  simp only [node_types, List.mem_cons, List.mem_singleton, List.not_mem_nil, or_false] at h
  rcases h with h | h | h | h | h | h | h | h | h | h | h | h | h | h | h | h <;>
    (subst h; decide)

/-- C8: `ourfa_xmlapi_node_type_by_name s` is the kind of the table entry whose
name equals the C string `s` ignoring ASCII case, and it is `UNKNOWN` exactly
when no table name equals `s` ignoring case. -/
theorem node_type_by_name_spec (s : String) (hs : ∀ c ∈ s.data, c.toNat ≠ 0) :
    (∀ k n, (k, n) ∈ node_types → eqIgnoreCase s n → ourfa_xmlapi_node_type_by_name s = k) ∧
    (ourfa_xmlapi_node_type_by_name s = .UNKNOWN ↔
      ∀ k n, (k, n) ∈ node_types → ¬ eqIgnoreCase s n) := by
  have h1 : ∀ k n, (k, n) ∈ node_types → eqIgnoreCase s n →
      ourfa_xmlapi_node_type_by_name s = k := by
    intro k n hmem hcase
    unfold ourfa_xmlapi_node_type_by_name
    rw [node_type_by_name_loop_congr hcase]
    exact node_types_lookup k n hmem
  refine ⟨h1, ?_, ?_⟩
  · intro hu k n hmem hcase
    exact node_types_not_unknown (k, n) hmem ((h1 k n hmem hcase).symm.trans hu)
  · intro hno
    apply node_type_by_name_loop_unknown
    intro e he hz
    exact hno e.1 e.2 he
      (forall₂_of_xmlStrcasecmp_eq_zero _ _ (node_types_no_nul e he) hs hz)

/-- C8 at the string "Ip_Address". -/
theorem node_type_by_name_spec_witness :
    (∀ c ∈ "Ip_Address".data, c.toNat ≠ 0) ∧
    (∀ k n, (k, n) ∈ node_types → eqIgnoreCase "Ip_Address" n →
      ourfa_xmlapi_node_type_by_name "Ip_Address" = k) ∧
    (ourfa_xmlapi_node_type_by_name "Ip_Address" = .UNKNOWN ↔
      ∀ k n, (k, n) ∈ node_types → ¬ eqIgnoreCase "Ip_Address" n) :=
  ⟨by decide, node_type_by_name_spec "Ip_Address" (by decide)⟩

/-- C9: on the kinds of the table, `ourfa_xmlapi_node_name_by_type` is inverted
by `ourfa_xmlapi_node_type_by_name`; on every integer that is not the value of
a table kind, the value of `UNKNOWN` included, it answers "UNKNOWN". -/
theorem node_name_by_type_spec (code : NodeType → Int) (hc : Function.Injective code) :
    (∀ k n, (k, n) ∈ node_types →
      ourfa_xmlapi_node_type_by_name (ourfa_xmlapi_node_name_by_type code (code k)) = k) ∧
    (∀ i : Int, (∀ k n, (k, n) ∈ node_types → code k ≠ i) →
      ourfa_xmlapi_node_name_by_type code i = "UNKNOWN") ∧
    ourfa_xmlapi_node_name_by_type code (code .UNKNOWN) = "UNKNOWN" := by
  have h2 : ∀ i : Int, (∀ k n, (k, n) ∈ node_types → code k ≠ i) →
      ourfa_xmlapi_node_name_by_type code i = "UNKNOWN" := by
    intro i hi
    exact node_name_by_type_loop_unknown code i node_types (fun e he => hi e.1 e.2 he)
  refine ⟨?_, h2, ?_⟩
  · intro k n hmem
    rw [node_types_name code hc k n hmem]
    exact node_types_lookup k n hmem
  · apply h2
    intro k n hmem heq
    exact node_types_not_unknown (k, n) hmem (hc heq)

/-- C9 with the numbering `NodeType.ord`, at the kind FOR and at the integer 99. -/
theorem node_name_by_type_spec_witness :
    Function.Injective NodeType.ord ∧
    ourfa_xmlapi_node_type_by_name
      (ourfa_xmlapi_node_name_by_type NodeType.ord (NodeType.ord .FOR)) = .FOR ∧
    ourfa_xmlapi_node_name_by_type NodeType.ord 99 = "UNKNOWN" :=
  ⟨ord_injective,
   (node_name_by_type_spec NodeType.ord ord_injective).1 .FOR "for" (by decide),
   (node_name_by_type_spec NodeType.ord ord_injective).2.1 99 (by
      intro k n _; cases k <;> decide)⟩

/-! ## Theorems: the arena -/

@[simp]
theorem length_set_children (A : List FuncNode) (i : Nat) (v : Option Nat) :
    (set_children A i v).length = A.length := by
  unfold set_children; split <;> simp

@[simp]
theorem length_set_next (A : List FuncNode) (i : Nat) (v : Option Nat) :
    (set_next A i v).length = A.length := by
  unfold set_next; split <;> simp

theorem getElem?_set_children_ne (A : List FuncNode) (i k : Nat) (v : Option Nat) (h : k ≠ i) :
    (set_children A i v)[k]? = A[k]? := by
  unfold set_children; split
  · rfl
  · rw [List.getElem?_set]; simp [Ne.symm h]

theorem getElem?_set_next_ne (A : List FuncNode) (i k : Nat) (v : Option Nat) (h : k ≠ i) :
    (set_next A i v)[k]? = A[k]? := by
  unfold set_next; split
  · rfl
  · rw [List.getElem?_set]; simp [Ne.symm h]

theorem getElem?_set_children_self (A : List FuncNode) (i : Nat) (v : Option Nat) (nd : FuncNode)
    (h : A[i]? = some nd) : (set_children A i v)[i]? = some { nd with children := v } := by
  unfold set_children
  have hlt : i < A.length := by
    by_contra hc
    rw [List.getElem?_eq_none (by omega)] at h
    cases h
  rw [h]; simp [List.getElem?_set, hlt]

theorem getElem?_set_next_self (A : List FuncNode) (i : Nat) (v : Option Nat) (nd : FuncNode)
    (h : A[i]? = some nd) : (set_next A i v)[i]? = some { nd with next := v } := by
  unfold set_next
  have hlt : i < A.length := by
    by_contra hc
    rw [List.getElem?_eq_none (by omega)] at h
    cases h
  rw [h]; simp [List.getElem?_set, hlt]

theorem lt_length_of_getElem? {A : List FuncNode} {i : Nat} {nd : FuncNode}
    (h : A[i]? = some nd) : i < A.length := by
  by_contra hc
  rw [List.getElem?_eq_none (by omega)] at h
  cases h

theorem Rep.frame {A B : List FuncNode} {lo hi : Nat} {p : Option Nat} {ts : List Tree}
    (h : Rep A lo hi p ts) (hAB : ∀ k, lo ≤ k → k < hi → B[k]? = A[k]?) : Rep B lo hi p ts := by
  induction h with
  | nil lo hi => exact Rep.nil lo hi
  | cons lo hi i nd cs ts hlo hhi hnd _ _ ihc ihn =>
    refine Rep.cons lo hi i nd cs ts hlo hhi ?_ ?_ ?_
    · rw [hAB i hlo hhi]; exact hnd
    · exact ihc (fun k hk1 hk2 => hAB k (by omega) hk2)
    · exact ihn (fun k hk1 hk2 => hAB k (by omega) hk2)

theorem Rep.mono {A : List FuncNode} {lo hi : Nat} {p : Option Nat} {ts : List Tree}
    (h : Rep A lo hi p ts) {lo' hi' : Nat} (hlo : lo' ≤ lo) (hhi : hi ≤ hi') :
    Rep A lo' hi' p ts := by
  induction h generalizing lo' hi' with
  | nil lo hi => exact Rep.nil lo' hi'
  | cons lo hi i nd cs ts h1 h2 hnd _ _ ihc ihn =>
    exact Rep.cons lo' hi' i nd cs ts (by omega) (by omega) hnd
      (ihc (le_refl _) hhi) (ihn (le_refl _) hhi)

theorem Rep.read {A : List FuncNode} {lo hi : Nat} {p : Option Nat} {ts : List Tree}
    (h : Rep A lo hi p ts) : ∀ fuel, hi - lo < fuel → read_tree A fuel p = some ts := by
  induction h with
  | nil lo hi =>
    intro fuel hf
    cases fuel with
    | zero => omega
    | succ f => rfl
  | cons lo hi i nd cs ts h1 h2 hnd _ _ ihc ihn =>
    intro fuel hf
    cases fuel with
    | zero => omega
    | succ f =>
      simp only [read_tree, hnd]
      rw [ihc f (by omega), ihn f (by omega)]

theorem count_for_terminates {A : List FuncNode} (hA : Linked A) :
    ∀ fuel start i, 0 < fuel → (∀ s, start = some s → s < A.length ∧ A.length - s < fuel) →
      ∃ r, count_for A fuel start i = some r := by
  intro fuel
  induction fuel with
  | zero => intro _ _ h; omega
  | succ f ih =>
    intro start i _ hs
    cases start with
    | none => exact ⟨i, rfl⟩
    | some s =>
      obtain ⟨hs1, hs2⟩ := hs s rfl
      obtain ⟨nd, hnd⟩ : ∃ nd, A[s]? = some nd := ⟨A[s], List.getElem?_eq_getElem hs1⟩
      simp only [count_for, hnd]
      apply ih
      · omega
      · intro j hj
        have := ((hA s nd hnd).2.1 j hj)
        omega

theorem find_for_terminates {A : List FuncNode} (hA : Linked A) :
    ∀ fuel cur, 0 < fuel → (∀ s, cur = some s → s < A.length ∧ s + 1 < fuel) →
      ∃ r, find_for A fuel cur = some r := by
  intro fuel
  induction fuel with
  | zero => intro _ h; omega
  | succ f ih =>
    intro cur _ hs
    cases cur with
    | none => exact ⟨false, rfl⟩
    | some s =>
      obtain ⟨hs1, hs2⟩ := hs s rfl
      obtain ⟨nd, hnd⟩ : ∃ nd, A[s]? = some nd := ⟨A[s], List.getElem?_eq_getElem hs1⟩
      simp only [find_for, hnd]
      split
      · exact ⟨false, rfl⟩
      · split
        · exact ⟨true, rfl⟩
        · apply ih
          · omega
          · intro j hj
            have := ((hA s nd hnd).1 j hj)
            omega

theorem free_func_def_terminates {A : List FuncNode} (hA : Linked A) :
    ∀ fuel d, 0 < fuel → (∀ s, d = some s → A.length - s < fuel) →
      ∃ r, free_func_def A fuel d = some r := by
  intro fuel
  induction fuel with
  | zero => intro _ h; omega
  | succ f ih =>
    intro d _ hs
    cases d with
    | none => exact ⟨true, rfl⟩
    | some s =>
      have hs2 := hs s rfl
      simp only [free_func_def]
      cases hnd : A[s]? with
      | none => exact ⟨false, rfl⟩
      | some nd =>
        have hlt := lt_length_of_getElem? hnd
        have hnext : ∃ r, free_func_def A f nd.next = some r := by
          apply ih
          · omega
          · intro j hj
            have := ((hA s nd hnd).2.1 j hj)
            omega
        simp only []
        cases hch : nd.children with
        | none => simpa using hnext
        | some ch =>
          by_cases hcs : ch = s
          · simp [hcs]
          · simp only [hcs, if_false]
            have hbelow : ∃ r, free_func_def A f (some ch) = some r := by
              apply ih
              · omega
              · intro j hj
                cases hj
                have := ((hA s nd hnd).2.2 ch hch)
                omega
            obtain ⟨r, hr⟩ := hbelow
            rw [hr]
            cases r with
            | true => simpa using hnext
            | false => exact ⟨false, rfl⟩

theorem get_xml_attributes_spec (err_f : ErrF) (hid : ∀ k, err_f k = k)
    (attrs : List (String × String)) (tbl : List (String × Bool)) :
    ((get_xml_attributes err_f attrs tbl).1 = OURFA_OK
      ∧ (get_xml_attributes err_f attrs tbl).2 = tbl.map (fun e => xmlGetProp attrs e.1)
      ∧ ∀ e ∈ tbl, e.2 = true → (xmlGetProp attrs e.1).isSome)
    ∨ ((get_xml_attributes err_f attrs tbl).1 = OURFA_ERROR_OTHER
      ∧ ∃ e ∈ tbl, e.2 = true ∧ xmlGetProp attrs e.1 = none) := by
  induction tbl with
  | nil => left; simp [get_xml_attributes]
  | cons e tbl ih =>
    obtain ⟨name, required⟩ := e
    simp only [get_xml_attributes]
    cases hp : xmlGetProp attrs name with
    | some src =>
      simp only []
      rcases ih with ⟨h1, h2, h3⟩ | ⟨h1, e, he, h2, h3⟩
      · left
        refine ⟨h1, by simp [h2, hp], ?_⟩
        intro e he hr
        rcases List.mem_cons.1 he with rfl | he
        · simp [hp]
        · exact h3 e he hr
      · right
        exact ⟨h1, e, List.mem_cons_of_mem _ he, h2, h3⟩
    | none =>
      simp only []
      cases required with
      | true =>
        right
        simp only [if_true, hid]
        exact ⟨trivial, (name, true), List.mem_cons_self _ _, rfl, hp⟩
      | false =>
        simp only [Bool.false_eq_true, if_false]
        rcases ih with ⟨h1, h2, h3⟩ | ⟨h1, e, he, h2, h3⟩
        · left
          refine ⟨h1, by simp [h2, hp], ?_⟩
          intro e he hr
          rcases List.mem_cons.1 he with rfl | he
          · simp at hr
          · exact h3 e he hr
        · right
          exact ⟨h1, e, List.mem_cons_of_mem _ he, h2, h3⟩

theorem other_ne_ok : OURFA_ERROR_OTHER ≠ OURFA_OK := by decide

theorem val_attributes_spec (err_f : ErrF) (hid : ∀ k, err_f k = k)
    (attrs : List (String × String)) :
    (get_xml_attributes err_f attrs val_attributes).1 = OURFA_OK →
      ∃ v, attr_at (get_xml_attributes err_f attrs val_attributes).2 0 = some v := by
  intro hr
  rcases get_xml_attributes_spec err_f hid attrs val_attributes with ⟨_, h2, h3⟩ | ⟨h1, _⟩
  · rw [h2]
    have := h3 ("name", true) (by simp [val_attributes]) rfl
    obtain ⟨v, hv⟩ := Option.isSome_iff_exists.1 this
    exact ⟨v, by simpa [val_attributes, attr_at] using hv⟩
  · rw [h1] at hr; exact absurd hr other_ne_ok

theorem if_attributes_spec (err_f : ErrF) (hid : ∀ k, err_f k = k)
    (attrs : List (String × String)) :
    (get_xml_attributes err_f attrs if_attributes).1 = OURFA_OK →
      ∃ v w c, attr_at (get_xml_attributes err_f attrs if_attributes).2 0 = some v
        ∧ attr_at (get_xml_attributes err_f attrs if_attributes).2 1 = some w
        ∧ attr_at (get_xml_attributes err_f attrs if_attributes).2 2 = some c := by
  intro hr
  rcases get_xml_attributes_spec err_f hid attrs if_attributes with ⟨_, h2, h3⟩ | ⟨h1, _⟩
  · rw [h2]
    obtain ⟨v, hv⟩ := Option.isSome_iff_exists.1
      (h3 ("variable", true) (by simp [if_attributes]) rfl)
    obtain ⟨w, hw⟩ := Option.isSome_iff_exists.1
      (h3 ("value", true) (by simp [if_attributes]) rfl)
    obtain ⟨c, hc⟩ := Option.isSome_iff_exists.1
      (h3 ("condition", true) (by simp [if_attributes]) rfl)
    exact ⟨v, w, c, by simpa [if_attributes, attr_at] using hv,
      by simpa [if_attributes, attr_at] using hw, by simpa [if_attributes, attr_at] using hc⟩
  · rw [h1] at hr; exact absurd hr other_ne_ok

theorem for_attributes_spec (err_f : ErrF) (hid : ∀ k, err_f k = k)
    (attrs : List (String × String)) :
    (get_xml_attributes err_f attrs for_attributes).1 = OURFA_OK →
      ∃ v w c, attr_at (get_xml_attributes err_f attrs for_attributes).2 0 = some v
        ∧ attr_at (get_xml_attributes err_f attrs for_attributes).2 1 = some w
        ∧ attr_at (get_xml_attributes err_f attrs for_attributes).2 2 = some c := by
  intro hr
  rcases get_xml_attributes_spec err_f hid attrs for_attributes with ⟨_, h2, h3⟩ | ⟨h1, _⟩
  · rw [h2]
    obtain ⟨v, hv⟩ := Option.isSome_iff_exists.1
      (h3 ("name", true) (by simp [for_attributes]) rfl)
    obtain ⟨w, hw⟩ := Option.isSome_iff_exists.1
      (h3 ("from", true) (by simp [for_attributes]) rfl)
    obtain ⟨c, hc⟩ := Option.isSome_iff_exists.1
      (h3 ("count", true) (by simp [for_attributes]) rfl)
    exact ⟨v, w, c, by simpa [for_attributes, attr_at] using hv,
      by simpa [for_attributes, attr_at] using hw, by simpa [for_attributes, attr_at] using hc⟩
  · rw [h1] at hr; exact absurd hr other_ne_ok

theorem error_attributes_spec (err_f : ErrF) (hid : ∀ k, err_f k = k)
    (attrs : List (String × String)) :
    (get_xml_attributes err_f attrs error_attributes).1 = OURFA_OK →
      ∃ v, attr_at (get_xml_attributes err_f attrs error_attributes).2 0 = some v := by
  intro hr
  rcases get_xml_attributes_spec err_f hid attrs error_attributes with ⟨_, h2, h3⟩ | ⟨h1, _⟩
  · rw [h2]
    have := h3 ("code", true) (by simp [error_attributes]) rfl
    obtain ⟨v, hv⟩ := Option.isSome_iff_exists.1 this
    exact ⟨v, by simpa [error_attributes, attr_at] using hv⟩
  · rw [h1] at hr; exact absurd hr other_ne_ok

theorem make_node_spec (err_f : ErrF) (hid : ∀ k, err_f k = k) (name : String)
    (attrs : List (String × String)) (ast : Ast) (hL : Linked ast.nodes)
    (hv : ValidCur ast.nodes ast.cur_node) :
    ∃ r node, make_node err_f name attrs ast = .done r node ∧ MadeOk ast name r node := by
  unfold make_node MadeOk
  simp only []
  generalize ourfa_xmlapi_node_type_by_name name = type
  have hleaf : ∀ t : NodeType, (t = .INTEGER ∨ t = .STRING ∨ t = .LONG ∨ t = .DOUBLE ∨ t = .IP) →
      ((get_xml_attributes err_f attrs val_attributes).1 = OURFA_OK →
        NodeOk { type := t, parent := none, next := none, children := none,
                 n := .n_val (attr_at (get_xml_attributes err_f attrs val_attributes).2 0)
                   (attr_at (get_xml_attributes err_f attrs val_attributes).2 1)
                   (attr_at (get_xml_attributes err_f attrs val_attributes).2 2) }) := by
    intro t ht hr
    obtain ⟨v, hv⟩ := val_attributes_spec err_f hid attrs hr
    rw [hv]
    rcases ht with rfl | rfl | rfl | rfl | rfl <;> exact ⟨v, _, _, rfl⟩
  cases type
  case INTEGER =>
    exact ⟨_, _, rfl, rfl, rfl, rfl, fun hr => ⟨hleaf _ (by simp) hr, by simp⟩⟩
  case STRING =>
    exact ⟨_, _, rfl, rfl, rfl, rfl, fun hr => ⟨hleaf _ (by simp) hr, by simp⟩⟩
  case LONG =>
    exact ⟨_, _, rfl, rfl, rfl, rfl, fun hr => ⟨hleaf _ (by simp) hr, by simp⟩⟩
  case DOUBLE =>
    exact ⟨_, _, rfl, rfl, rfl, rfl, fun hr => ⟨hleaf _ (by simp) hr, by simp⟩⟩
  case IP =>
    exact ⟨_, _, rfl, rfl, rfl, rfl, fun hr => ⟨hleaf _ (by simp) hr, by simp⟩⟩
  case IF =>
    simp only []
    by_cases hr : (get_xml_attributes err_f attrs if_attributes).1 = OURFA_OK
    · obtain ⟨v, w, c, hv, hw, hc⟩ := if_attributes_spec err_f hid attrs hr
      simp only [hr, ne_eq, not_true_eq_false, if_false, hc, hv, hw]
      by_cases he : is_eq c
      · simp only [he, if_true]
        exact ⟨_, _, rfl, rfl, rfl, rfl, fun _ => ⟨⟨v, w, _, rfl⟩, by simp⟩⟩
      · by_cases hn : is_ne c
        · simp only [he, hn, if_true, Bool.false_eq_true, if_false]
          exact ⟨_, _, rfl, rfl, rfl, rfl, fun _ => ⟨⟨v, w, _, rfl⟩, by simp⟩⟩
        · simp only [he, hn, Bool.false_eq_true, if_false, hid]
          exact ⟨_, _, rfl, rfl, rfl, rfl, fun h => absurd h other_ne_ok⟩
    · simp only [ne_eq, hr, not_false_eq_true, if_true]
      exact ⟨_, _, rfl, rfl, rfl, rfl, fun h => absurd h hr⟩
  case SET =>
    simp only []
    by_cases hr : (get_xml_attributes err_f attrs set_attributes).1 = OURFA_OK
    · simp only [hr, if_true]
      split
      · rw [hid]; exact ⟨_, _, rfl, rfl, rfl, rfl, fun h => absurd h other_ne_ok⟩
      · split
        · rw [hid]; exact ⟨_, _, rfl, rfl, rfl, rfl, fun h => absurd h other_ne_ok⟩
        · rename_i h1 h2
          refine ⟨_, _, rfl, rfl, rfl, rfl, fun _ => ⟨⟨_, _, _, _, _, rfl, h1, ?_⟩, by simp⟩⟩
          by_contra hc
          apply h2
          simp only [not_or, Bool.not_eq_true, Option.not_isSome, Option.isNone_iff_eq_none] at hc
          simp [hc.1, hc.2]
    · simp only [hr, if_false]
      exact ⟨_, _, rfl, rfl, rfl, rfl, fun h => absurd h hr⟩
  case FOR =>
    simp only []
    by_cases hr : (get_xml_attributes err_f attrs for_attributes).1 = OURFA_OK
    · obtain ⟨v, w, c, hv1, hw, hc⟩ := for_attributes_spec err_f hid attrs hr
      simp only [hr, if_true, hv1, hw, hc]
      have hi : ∃ i, (match ast.cur_node with
          | none => some 1
          | some cur =>
            match ast.nodes[cur]? with
            | none => none
            | some c =>
              match c.parent with
              | none => some 1
              | some p =>
                match ast.nodes[p]? with
                | none => none
                | some pn => count_for ast.nodes (ast.nodes.length + 1) pn.children 1) = some i := by
        cases hcur : ast.cur_node with
        | none => exact ⟨1, rfl⟩
        | some cur =>
          obtain ⟨_, hlt⟩ := hv cur hcur
          simp only [List.getElem?_eq_getElem hlt]
          cases hp : (ast.nodes[cur]).parent with
          | none => exact ⟨1, rfl⟩
          | some p =>
            have hpl := (hL cur _ (List.getElem?_eq_getElem hlt)).1 p hp
            have hplt : p < ast.nodes.length := by omega
            simp only [List.getElem?_eq_getElem hplt]
            apply count_for_terminates hL
            · omega
            · intro s hs
              have := (hL p _ (List.getElem?_eq_getElem hplt)).2.2 s hs
              omega
      obtain ⟨i, hi⟩ := hi
      rw [hi]
      exact ⟨_, _, rfl, rfl, rfl, rfl, fun _ => ⟨⟨v, w, c, _, rfl⟩, by simp⟩⟩
    · simp only [hr, if_false]
      exact ⟨_, _, rfl, rfl, rfl, rfl, fun h => absurd h hr⟩
  case BREAK =>
    simp only []
    obtain ⟨b, hb⟩ := find_for_terminates hL (ast.nodes.length + 1) ast.cur_node (by omega)
      (fun s hs => by have := hv s hs; omega)
    rw [hb]
    cases b with
    | true => exact ⟨_, _, rfl, rfl, rfl, rfl, fun _ => ⟨trivial, by simp⟩⟩
    | false =>
      simp only [Bool.false_eq_true, if_false, hid]
      exact ⟨_, _, rfl, rfl, rfl, rfl, fun h => absurd h other_ne_ok⟩
  case ERROR =>
    simp only []
    by_cases hr : (get_xml_attributes err_f attrs error_attributes).1 = OURFA_OK
    · obtain ⟨v, hv1⟩ := error_attributes_spec err_f hid attrs hr
      simp only [hr, if_true, hv1]
      split
      · rw [hid]; exact ⟨_, _, rfl, rfl, rfl, rfl, fun h => absurd h other_ne_ok⟩
      · exact ⟨_, _, rfl, rfl, rfl, rfl, fun _ => ⟨⟨_, _, _, rfl⟩, by simp⟩⟩
    · simp only [hr, if_false]
      exact ⟨_, _, rfl, rfl, rfl, rfl, fun h => absurd h hr⟩
  all_goals
    simp only [hid]
    exact ⟨_, _, rfl, rfl, rfl, rfl, fun h => absurd h other_ne_ok⟩

theorem add_node_eq (A : List FuncNode) (c : Option Nat) (node : FuncNode) :
    add_node { nodes := A, cur_node := c } node =
      (attach A c).map (fun LP =>
        { nodes := LP.1 ++ [{ node with parent := LP.2 }], cur_node := some A.length }) := by
  unfold add_node attach
  cases c with
  | none =>
    simp only []
    cases A[0]? <;> rfl
  | some cur =>
    simp only []
    cases A[cur]? with
    | none => rfl
    | some nd =>
      simp only []
      split <;> rfl

theorem linked_push_relinked {A L : List FuncNode} {k : Nat} (hA : Linked A)
    (hR : Relinked A L k) (node : FuncNode) (hp : ∀ p, node.parent = some p → p < A.length)
    (hn : node.next = none) (hc : node.children = none ∨ node.children = some A.length) :
    Linked (L ++ [node]) := by
  obtain ⟨hlen, hne, nd, hnd, hk⟩ := hR
  have hklt := lt_length_of_getElem? hnd
  intro i x hx
  have hlen' : (L ++ [node]).length = A.length + 1 := by simp [hlen]
  rw [hlen']
  have hi : i < A.length + 1 := by
    have := lt_length_of_getElem? hx
    omega
  by_cases hiA : i < A.length
  · rw [List.getElem?_append_left (by omega)] at hx
    by_cases hik : i = k
    · subst hik
      have h0 := hA i nd hnd
      rcases hk with hk | hk
      · rw [hk] at hx; cases hx
        refine ⟨h0.1, fun j hj => ?_, fun j hj => ?_⟩
        · have := h0.2.1 j hj; omega
        · simp at hj; omega
      · rw [hk] at hx; cases hx
        refine ⟨h0.1, fun j hj => ?_, fun j hj => ?_⟩
        · simp at hj; omega
        · have := h0.2.2 j hj; omega
    · rw [hne i hik] at hx
      have h0 := hA i x hx
      refine ⟨h0.1, fun j hj => ?_, fun j hj => ?_⟩
      · have := h0.2.1 j hj; omega
      · have := h0.2.2 j hj; omega
  · have hiA' : i = A.length := by omega
    subst hiA'
    rw [List.getElem?_append_right (by omega)] at hx
    simp [hlen] at hx
    subst hx
    refine ⟨hp, fun j hj => ?_, fun j hj => ?_⟩
    · rw [hn] at hj; cases hj
    · rcases hc with hc | hc
      · rw [hc] at hj; cases hj
      · rw [hc] at hj; cases hj; omega

theorem attach_spec {A : List FuncNode} {c : Option Nat} (hI : Inv A) (hv : ValidCur A c) :
    ∃ L P k, attach A c = some (L, P) ∧ Relinked A L k ∧ (∀ p, P = some p → p < A.length) ∧
      (k = 0 → ∃ nd, A[0]? = some nd ∧ L[0]? = some { nd with children := some A.length }) := by
  obtain ⟨hL, ⟨r, hr, _⟩, _⟩ := hI
  have h0 := lt_length_of_getElem? hr
  unfold attach
  cases c with
  | none =>
    simp only [hr]
    refine ⟨_, _, 0, rfl, ⟨by simp, fun j hj => getElem?_set_children_ne _ _ _ _ hj, r, hr,
      Or.inl (getElem?_set_children_self _ _ _ _ hr)⟩, ?_,
      fun _ => ⟨r, rfl, getElem?_set_children_self _ _ _ _ hr⟩⟩
    intro p hp; cases hp; exact h0
  | some cur =>
    obtain ⟨hpos, hlt⟩ := hv cur rfl
    have hnd : A[cur]? = some A[cur] := List.getElem?_eq_getElem hlt
    simp only [hnd]
    split
    · refine ⟨_, _, cur, rfl, ⟨by simp, fun j hj => getElem?_set_children_ne _ _ _ _ hj, _, hnd,
        Or.inl (getElem?_set_children_self _ _ _ _ hnd)⟩, ?_, fun h => (by omega)⟩
      intro p hp; cases hp; exact hlt
    · refine ⟨_, _, cur, rfl, ⟨by simp, fun j hj => getElem?_set_next_ne _ _ _ _ hj, _, hnd,
        Or.inr (getElem?_set_next_self _ _ _ _ hnd)⟩, ?_, fun h => (by omega)⟩
      intro p hp
      have := (hL cur _ hnd).1 p hp
      omega

theorem inv_push_relinked {A L : List FuncNode} {k : Nat} (hI : Inv A) (hR : Relinked A L k)
    (hk : k = 0 → ∃ nd, A[0]? = some nd ∧ L[0]? = some { nd with children := some A.length })
    (node : FuncNode) (hp : ∀ p, node.parent = some p → p < A.length)
    (hn : node.next = none) (hc : node.children = none ∨ node.children = some A.length)
    (hok : NodeOk node) : Inv (L ++ [node]) := by
  obtain ⟨hL, ⟨r, hr, hr1, hr2, hr3⟩, hN⟩ := hI
  have h0 := lt_length_of_getElem? hr
  refine ⟨linked_push_relinked hL hR node hp hn hc, ?_, ?_⟩
  · obtain ⟨hlen, hne, nd, hnd, hkk⟩ := hR
    rw [List.getElem?_append_left (by omega)]
    by_cases hk0 : k = 0
    · obtain ⟨nd0, h1, h2⟩ := hk hk0
      rw [hr] at h1; cases h1
      exact ⟨_, h2, hr1, hr2, hr3⟩
    · rw [hne 0 (Ne.symm hk0)]
      exact ⟨r, hr, hr1, hr2, hr3⟩
  · obtain ⟨hlen, hne, nd, hnd, hkk⟩ := hR
    intro i x hx hi
    by_cases hiA : i < A.length
    · rw [List.getElem?_append_left (by omega)] at hx
      by_cases hik : i = k
      · subst hik
        have := hN i nd hnd hi
        rcases hkk with hkk | hkk <;> (rw [hkk] at hx; cases hx; exact this)
      · rw [hne i hik] at hx
        exact hN i x hx hi
    · have := lt_length_of_getElem? hx
      have hiA' : i = A.length := by simp [hlen] at this; omega
      subst hiA'
      rw [List.getElem?_append_right (by omega)] at hx
      simp [hlen] at hx
      subst hx
      exact hok

theorem inv_set_children_none {A : List FuncNode} (hI : Inv A) (k : Nat) :
    Inv (set_children A k none) := by
  obtain ⟨hL, ⟨r, hr, hr1, hr2, hr3⟩, hN⟩ := hI
  refine ⟨?_, ?_, ?_⟩
  · intro i x hx
    rw [length_set_children]
    by_cases hik : i = k
    · subst hik
      obtain ⟨nd, hnd⟩ : ∃ nd, A[i]? = some nd := by
        have := lt_length_of_getElem? hx
        rw [length_set_children] at this
        exact ⟨_, List.getElem?_eq_getElem this⟩
      rw [getElem?_set_children_self _ _ _ _ hnd] at hx
      cases hx
      have h0 := hL i nd hnd
      exact ⟨h0.1, h0.2.1, fun j hj => by cases hj⟩
    · rw [getElem?_set_children_ne _ _ _ _ hik] at hx
      exact hL i x hx
  · by_cases hk0 : k = 0
    · subst hk0
      rw [getElem?_set_children_self _ _ _ _ hr]
      exact ⟨_, rfl, hr1, hr2, hr3⟩
    · rw [getElem?_set_children_ne _ _ _ _ (Ne.symm hk0)]
      exact ⟨r, hr, hr1, hr2, hr3⟩
  · intro i x hx hi
    by_cases hik : i = k
    · subst hik
      obtain ⟨nd, hnd⟩ : ∃ nd, A[i]? = some nd := by
        have := lt_length_of_getElem? hx
        rw [length_set_children] at this
        exact ⟨_, List.getElem?_eq_getElem this⟩
      rw [getElem?_set_children_self _ _ _ _ hnd] at hx
      cases hx
      exact hN i nd hnd hi
    · rw [getElem?_set_children_ne _ _ _ _ hik] at hx
      exact hN i x hx hi

theorem walk_succ (err_f : ErrF) (fuel : Nat) (x : XmlNode) (ps : List XmlNode) (ast : Ast) :
    walk err_f (fuel + 1) x ps ast = run err_f fuel (step err_f x ps ast) := by
  simp only [walk]
  cases step err_f x ps ast <;> rfl

theorem move_up_cons (p : XmlNode) (ps : List XmlNode) (ast : Ast) (cur : Nat) (c : FuncNode)
    (h1 : ast.cur_node = some cur) (h2 : ast.nodes[cur]? = some c) :
    move_up (p :: ps) ast =
      next_node p.next ps
        (if c.children = some cur then clear_children ast else { ast with cur_node := c.parent }) := by
  simp only [move_up, h1, h2, next_node]

theorem step_failed (err_f : ErrF) (name : String) (attrs : List (String × String))
    (children next : XmlNode) (ps : List XmlNode) (ast : Ast) (r : Int) (node : FuncNode)
    (h1 : make_node err_f name attrs ast = .done r node) (h2 : r ≠ OURFA_OK) :
    step err_f (.element name attrs children next) ps ast = .failed ast := by
  simp only [step, h1, h2, ne_eq, not_false_eq_true, if_true]

theorem step_leaf (err_f : ErrF) (name : String) (attrs : List (String × String))
    (children next : XmlNode) (ps : List XmlNode) (ast ast1 : Ast) (node : FuncNode)
    (h1 : make_node err_f name attrs ast = .done OURFA_OK node)
    (h2 : add_node ast node = some ast1) (h3 : ¬ (node.type = .IF ∨ node.type = .FOR)) :
    step err_f (.element name attrs children next) ps ast = next_node next ps ast1 := by
  simp only [step, h1, h2, ne_eq, not_true_eq_false, if_false, h3]

theorem step_empty (err_f : ErrF) (name : String) (attrs : List (String × String))
    (next : XmlNode) (ps : List XmlNode) (ast ast1 : Ast) (node : FuncNode)
    (h1 : make_node err_f name attrs ast = .done OURFA_OK node)
    (h2 : add_node ast node = some ast1) (h3 : node.type = .IF ∨ node.type = .FOR) :
    step err_f (.element name attrs .nil next) ps ast
      = next_node next ps (clear_children ast1) := by
  simp only [step, h1, h2, ne_eq, not_true_eq_false, if_false, h3, if_true]

theorem step_descend (err_f : ErrF) (name : String) (attrs : List (String × String))
    (children next : XmlNode) (ps : List XmlNode) (ast ast1 : Ast) (node : FuncNode)
    (h1 : make_node err_f name attrs ast = .done OURFA_OK node)
    (h2 : add_node ast node = some ast1) (h3 : node.type = .IF ∨ node.type = .FOR)
    (h4 : children ≠ .nil) :
    step err_f (.element name attrs children next) ps ast
      = next_node children (.element name attrs children next :: ps) ast1 := by
  simp only [step, h1, h2, ne_eq, not_true_eq_false, if_false, h3, if_true]
  cases children with
  | nil => exact absurd rfl h4
  | element _ _ _ _ => rfl
  | other _ => rfl

theorem next_node_of_ne_nil (x : XmlNode) (ps : List XmlNode) (ast : Ast) (h : x ≠ .nil) :
    next_node x ps ast = .at x ps ast := by
  cases x with
  | nil => exact absurd rfl h
  | element _ _ _ _ => rfl
  | other _ => rfl

theorem post_of_mid {A L A3 A' : List FuncNode} {c c' P : Option Nat} {t : NodeType}
    {cs : List Tree} {xs next : XmlNode}
    (hat : attach A c = some (L, P))
    (hmid : Mid L P A.length t cs A3) (hpost : Post A3 (some A.length) next A' c')
    (hspec : spec_build xs = Tree.node t cs :: spec_build next) : Post A c xs A' c' := by
  obtain ⟨hI3, hn3, hlow, nd3, hnd3, ht, hp, hnx, hch, hrep⟩ := hmid
  obtain ⟨hI', hV', hlen, hempty, hnonempty⟩ := hpost
  refine ⟨hI', hV', by omega, fun h => ?_, fun _ => ?_⟩
  · rw [hspec] at h; cases h
  · rw [hspec]
    by_cases hnext : spec_build next = []
    · obtain ⟨rfl, rfl⟩ := hempty hnext
      refine ⟨L, P, A.length, nd3, hat, hlow, ?_, rfl, le_refl _, hnd3, hp, hnx, hch⟩
      rw [hnext, ← ht]
      refine Rep.cons _ _ _ nd3 cs [] (le_refl _) hn3 hnd3 hrep ?_
      rw [hnx]; exact Rep.nil _ _
    · obtain ⟨L3, P3, l, ndl, hat3, hlow3, hrep3, hc', hl, hndl, hpl, hnl, hcl⟩ :=
        hnonempty hnext
      have hat3' : attach A3 (some A.length)
          = some (set_next A3 A.length (some A3.length), nd3.parent) := by
        unfold attach
        simp only [hnd3]
        rw [if_neg (fun h => hch h.1)]
      rw [hat3'] at hat3
      cases hat3
      have hAn : A'[A.length]? = some { nd3 with next := some A3.length } := by
        rw [hlow3 _ hn3]
        exact getElem?_set_next_self _ _ _ _ hnd3
      refine ⟨L, P, l, ndl, hat, fun k hk => ?_, ?_, hc', by omega, hndl, by rw [hpl, hp],
        hnl, hcl⟩
      · rw [hlow3 k (by omega), getElem?_set_next_ne _ _ _ _ (by omega)]
        exact hlow k hk
      · have := Rep.cons A.length A'.length A.length { nd3 with next := some A3.length } cs
          (spec_build next) (le_refl _) (by omega) hAn ?_ ?_
        · rw [← ht]; exact this
        · apply Rep.mono (Rep.frame hrep ?_) (le_refl _) hlen
          intro k hk1 hk2
          rw [hlow3 k hk2, getElem?_set_next_ne _ _ _ _ (by omega)]
        · exact Rep.mono hrep3 (by omega) (le_refl _)

theorem getElem?_push_self (L : List FuncNode) (x : FuncNode) :
    (L ++ [x])[L.length]? = some x := by
  rw [List.getElem?_append_right (le_refl _)]; simp

theorem mid_empty {L : List FuncNode} {P : Option Nat} {node : FuncNode}
    (hI1 : Inv (L ++ [node])) (hp : node.parent = P) (hn : node.next = none) :
    Mid L P L.length node.type [] (set_children (L ++ [node]) L.length none) := by
  have hself := getElem?_push_self L node
  refine ⟨inv_set_children_none hI1 _, by simp, fun k hk => ?_, { node with children := none },
    getElem?_set_children_self _ _ _ _ hself, rfl, hp, hn, by simp, Rep.nil _ _⟩
  rw [getElem?_set_children_ne _ _ _ _ (by omega), List.getElem?_append_left hk]

theorem mid_leaf {L : List FuncNode} {P : Option Nat} {node : FuncNode}
    (hI1 : Inv (L ++ [node])) (hp : node.parent = P) (hn : node.next = none)
    (hc : node.children = none) :
    Mid L P L.length node.type [] (L ++ [node]) := by
  refine ⟨hI1, by simp, fun k hk => List.getElem?_append_left hk, node,
    getElem?_push_self L node, rfl, hp, hn, by simp [hc], ?_⟩
  rw [hc]; exact Rep.nil _ _

theorem mid_children {L A2 : List FuncNode} {P c2 : Option Nat} {node : FuncNode}
    {children : XmlNode}
    (hp : node.parent = P) (hn : node.next = none)
    (hc : node.children = some L.length) (ht : node.type = .IF ∨ node.type = .FOR)
    (hpost : Post (L ++ [node]) (some L.length) children A2 c2)
    (hb : spec_build children ≠ []) :
    ∃ l ndl, c2 = some l ∧ A2[l]? = some ndl ∧ ndl.children ≠ some l ∧
      ndl.parent = some L.length ∧
      Mid L P L.length node.type (spec_build children) A2 := by
  obtain ⟨hI2, hV2, hlen2, _, hnonemp⟩ := hpost
  obtain ⟨L1, P1, l, ndl, hat1, hlow1, hrep1, hc2, hl, hndl, hpl, hnl, hcl⟩ := hnonemp hb
  have hself := getElem?_push_self L node
  have hat1' : attach (L ++ [node]) (some L.length)
      = some (set_children (L ++ [node]) L.length (some (L ++ [node]).length), some L.length) := by
    unfold attach
    simp only [hself]
    rw [if_pos ⟨hc, ht.symm⟩]
  rw [hat1'] at hat1
  cases hat1
  have hlen1 : (L ++ [node]).length = L.length + 1 := by simp
  refine ⟨l, ndl, hc2, hndl, hcl, hpl, hI2, by omega, fun k hk => ?_,
    { node with children := some (L ++ [node]).length }, ?_, rfl, hp, hn, ?_, ?_⟩
  · rw [hlow1 k (by omega), getElem?_set_children_ne _ _ _ _ (by omega),
      List.getElem?_append_left hk]
  · rw [hlow1 _ (by omega)]
    exact getElem?_set_children_self _ _ _ _ hself
  · simp
  · rw [hlen1] at hrep1 ⊢
    exact hrep1

/-! ## Theorems: the walk -/

theorem clear_children_mk (N : List FuncNode) (k : Nat) :
    clear_children { nodes := N, cur_node := some k }
      = { nodes := set_children N k none, cur_node := some k } := rfl

theorem big_step (err_f : ErrF) (hid : ∀ k, err_f k = k) :
    ∀ (xs : XmlNode) (ps : List XmlNode) (A : List FuncNode) (c : Option Nat) (m fuel : Nat),
      Inv A → ValidCur A c → m + xs.size ≤ fuel →
      (∃ Af, run err_f fuel (next_node xs ps { nodes := A, cur_node := c }) = .failed Af
          ∧ Inv Af) ∨
      (∃ fuel' A' c', m ≤ fuel' ∧
          run err_f fuel (next_node xs ps { nodes := A, cur_node := c })
            = run err_f fuel' (next_node .nil ps { nodes := A', cur_node := c' })
          ∧ Post A c xs A' c' ∧ AllMade err_f xs) := by
  intro xs
  induction xs with
  | nil =>
    intro ps A c m fuel hI hV hf
    right
    refine ⟨fuel, A, c, by omega, rfl, ⟨hI, hV, le_refl _, fun _ => ⟨rfl, rfl⟩,
      fun h => absurd rfl h⟩, fun _ _ h => h.elim⟩
  | other next ih =>
    intro ps A c m fuel hI hV hf
    have hsz : (XmlNode.other next).size = 1 + next.size := rfl
    obtain ⟨f, rfl⟩ : ∃ f, fuel = f + 1 := ⟨fuel - 1, by omega⟩
    have h1 : run err_f (f + 1) (next_node (.other next) ps { nodes := A, cur_node := c })
        = run err_f f (next_node next ps { nodes := A, cur_node := c }) := by
      show walk err_f (f + 1) _ _ _ = _
      rw [walk_succ]; rfl
    rw [h1]
    rcases ih ps A c m f hI hV (by omega) with h | ⟨f', A', c', h2, h3, h4, h5⟩
    · exact Or.inl h
    · exact Or.inr ⟨f', A', c', h2, h3, h4, h5⟩
  | element name attrs children next ihc ihn =>
    intro ps A c m fuel hI hV hf
    have hsz : (XmlNode.element name attrs children next).size
        = 1 + children.size + next.size := rfl
    obtain ⟨f, rfl⟩ : ∃ f, fuel = f + 1 := ⟨fuel - 1, by omega⟩
    have h1 : run err_f (f + 1)
          (next_node (.element name attrs children next) ps { nodes := A, cur_node := c })
        = run err_f f (step err_f (.element name attrs children next) ps
            { nodes := A, cur_node := c }) := by
      show walk err_f (f + 1) _ _ _ = _
      rw [walk_succ]
    rw [h1]
    obtain ⟨r, node, hmk, htype, hnn, hnp, hok⟩ :=
      make_node_spec err_f hid name attrs { nodes := A, cur_node := c } hI.1 hV
    by_cases hr : r = OURFA_OK
    swap
    · left
      rw [step_failed err_f name attrs children next ps _ r node hmk hr]
      exact ⟨A, rfl, hI⟩
    subst hr
    obtain ⟨hnok, hnch⟩ := hok rfl
    obtain ⟨L, P, k, hat, hR, hP, hk0⟩ := attach_spec hI hV
    have hLlen : L.length = A.length := hR.1
    have hApos : 0 < A.length := by
      obtain ⟨_, ⟨r, hr, _⟩, _⟩ := hI
      exact lt_length_of_getElem? hr
    have hadd : add_node { nodes := A, cur_node := c } node
        = some { nodes := L ++ [{ node with parent := P }], cur_node := some A.length } := by
      rw [add_node_eq, hat]; rfl
    have hI1 : Inv (L ++ [{ node with parent := P }]) := by
      refine inv_push_relinked hI hR hk0 _ hP hnn ?_ hnok
      simp only [hnch]
      split
      · exact Or.inr rfl
      · exact Or.inl rfl
    -- the state after the element and what is below it
    have hmid : (∃ Af, run err_f f (step err_f (.element name attrs children next) ps
            { nodes := A, cur_node := c }) = .failed Af ∧ Inv Af) ∨
        ∃ f3 A3, m + next.size ≤ f3 ∧
          run err_f f (step err_f (.element name attrs children next) ps
              { nodes := A, cur_node := c })
            = run err_f f3 (next_node next ps { nodes := A3, cur_node := some A.length }) ∧
          Mid L P A.length node.type
            (if node.type = .FOR ∨ node.type = .IF then spec_build children else []) A3 ∧
          (∀ name1 attrs1, (node.type = .FOR ∨ node.type = .IF) →
            Visited name1 attrs1 children →
            ∃ ast nd, make_node err_f name1 attrs1 ast = .done OURFA_OK nd) := by
      by_cases ht : node.type = .IF ∨ node.type = .FOR
      · have ht' : node.type = .FOR ∨ node.type = .IF := ht.symm
        rw [if_pos ht] at hnch
        rw [if_pos ht']
        by_cases hch : children = .nil
        · subst hch
          right
          rw [step_empty err_f name attrs next ps _ _ node hmk hadd ht, clear_children_mk]
          refine ⟨f, set_children (L ++ [{ node with parent := P }]) A.length none, by omega, rfl,
            ?_, fun _ _ _ h => h.elim⟩
          have := @mid_empty L P { node with parent := P } hI1 rfl hnn
          rw [hLlen] at this
          exact this
        · rw [step_descend err_f name attrs children next ps _ _ node hmk hadd ht hch]
          have hV1 : ValidCur (L ++ [{ node with parent := P }]) (some A.length) := by
            intro x hx; cases hx; simp [hLlen]; exact hApos
          rcases ihc (.element name attrs children next :: ps) _ (some A.length)
              (m + next.size) f hI1 hV1 (by omega) with
            ⟨Af, h2, h3⟩ | ⟨f2, A2, c2, hf2, hrun, hpost, hvis⟩
          · exact Or.inl ⟨Af, h2, h3⟩
          · right
            rw [hrun]
            by_cases hb : spec_build children = []
            · obtain ⟨rfl, rfl⟩ := hpost.2.2.2.1 hb
              have hself : (L ++ [{ node with parent := P }])[A.length]?
                  = some { node with parent := P } := by
                rw [← hLlen]; exact getElem?_push_self _ _
              have hmu : next_node .nil (.element name attrs children next :: ps)
                    { nodes := L ++ [{ node with parent := P }], cur_node := some A.length }
                  = next_node next ps
                      { nodes := set_children (L ++ [{ node with parent := P }]) A.length none,
                        cur_node := some A.length } := by
                show move_up _ _ = _
                rw [move_up_cons _ _ _ A.length _ rfl hself]
                simp only [hnch, if_true]
                rfl
              rw [hmu]
              refine ⟨f2, _, hf2, rfl, ?_, fun n1 a1 _ h => hvis n1 a1 h⟩
              have := @mid_empty L P { node with parent := P } hI1 rfl hnn
              rw [hLlen, hb] at *
              rw [hb]
              exact this
            · have hnch' : ({ node with parent := P } : FuncNode).children = some L.length := by
                rw [hLlen]; exact hnch
              have hpost' : Post (L ++ [{ node with parent := P }]) (some L.length) children
                  A2 c2 := by rw [hLlen]; exact hpost
              obtain ⟨l, ndl, hc2, hndl, hcl, hpl, hm⟩ :=
                @mid_children L A2 P c2 { node with parent := P } children rfl hnn hnch' ht
                  hpost' hb
              subst hc2
              have hmu : next_node .nil (.element name attrs children next :: ps)
                    { nodes := A2, cur_node := some l }
                  = next_node next ps { nodes := A2, cur_node := some A.length } := by
                show move_up _ _ = _
                rw [move_up_cons _ _ _ l ndl rfl hndl]
                rw [if_neg hcl]
                simp only [hpl, hLlen]
                rfl
              rw [hmu]
              refine ⟨f2, A2, hf2, rfl, ?_, fun n1 a1 _ h => hvis n1 a1 h⟩
              rw [hLlen] at hm
              exact hm
      · have ht' : ¬ (node.type = .FOR ∨ node.type = .IF) := fun h => ht h.symm
        rw [if_neg ht] at hnch
        rw [if_neg ht']
        right
        rw [step_leaf err_f name attrs children next ps _ _ node hmk hadd ht]
        refine ⟨f, _, by omega, rfl, ?_, fun _ _ h _ => absurd h ht'⟩
        have := @mid_leaf L P { node with parent := P } hI1 rfl hnn hnch
        rw [hLlen] at this
        exact this
    rcases hmid with h | ⟨f3, A3, hf3, hrun3, hm, hvisc⟩
    · exact Or.inl h
    · rw [hrun3]
      have hV3 : ValidCur A3 (some A.length) := by
        intro x hx; cases hx; exact ⟨hApos, hm.2.1⟩
      rcases ihn ps A3 (some A.length) m f3 hm.1 hV3 (by omega) with
        h | ⟨f', A', c', hf', hrun', hpost', hvisn⟩
      · exact Or.inl h
      · right
        refine ⟨f', A', c', hf', hrun', ?_, ?_⟩
        · apply post_of_mid hat hm hpost'
          simp only [spec_build, htype]
        · intro n1 a1 hv1
          simp only [Visited] at hv1
          rcases hv1 with ⟨rfl, rfl⟩ | ⟨ht1, hv1⟩ | hv1
          · exact ⟨_, _, hmk⟩
          · exact hvisc n1 a1 (by rw [htype]; exact ht1) hv1
          · exact hvisn n1 a1 hv1

theorem inv_root : Inv [root_node] := by
  refine ⟨?_, ⟨root_node, rfl, rfl, rfl, rfl⟩, ?_⟩
  · intro i nd h
    cases i with
    | zero =>
      simp at h; subst h
      exact ⟨fun p hp => (by cases hp), fun j hj => (by cases hj), fun j hj => (by cases hj)⟩
    | succ i => simp at h
  · intro i nd h hi
    cases i with
    | zero => omega
    | succ i => simp at h

/-- With a callback that keeps the kind, `load_func_def` returns a tree that
is the recursive definition, or returns `NULL`, or stops on an assertion. -/
theorem load_func_def_cases (err_f : ErrF) (hid : ∀ k, err_f k = k) (xml_root : XmlNode) :
    (∃ nodes r, load_func_def err_f xml_root = .tree nodes ∧ Inv nodes ∧ nodes[0]? = some r ∧
        Rep nodes 1 nodes.length r.children (spec_build xml_root.children) ∧
        AllMade err_f xml_root.children)
    ∨ load_func_def err_f xml_root = .null ∨ load_func_def err_f xml_root = .abort := by
  by_cases hch : xml_root.children = .nil
  · left
    refine ⟨[root_node], root_node, ?_, inv_root, rfl, ?_, ?_⟩
    · unfold load_func_def; rw [hch]
    · rw [hch]; exact Rep.nil _ _
    · rw [hch]; exact fun _ _ h => h.elim
  · have hdef : load_func_def err_f xml_root =
        match run err_f xml_root.children.size
            (next_node xml_root.children [] { nodes := [root_node], cur_node := none }) with
        | .finished nodes => .tree nodes
        | .failed nodes =>
          match free_func_def nodes (nodes.length + 1) (some 0) with
          | some true => .null
          | some false => .abort
          | none => .out_of_fuel
        | .abort => .abort
        | .out_of_fuel => .out_of_fuel := by
      unfold load_func_def
      rw [next_node_of_ne_nil _ _ _ hch]
      cases h : xml_root.children with
      | nil => exact absurd h hch
      | element _ _ _ _ => rfl
      | other _ => rfl
    rw [hdef]
    rcases big_step err_f hid xml_root.children [] [root_node] none 0 xml_root.children.size
        inv_root (fun k hk => by cases hk) (by omega) with
      ⟨Af, h1, h2⟩ | ⟨f', A', c', _, hrun, hpost, hvis⟩
    · right
      rw [h1]
      obtain ⟨b, hb⟩ := free_func_def_terminates h2.1 (Af.length + 1) (some 0) (by omega)
        (fun s hs => by cases hs; omega)
      simp only [hb]
      cases b
      · exact Or.inr rfl
      · exact Or.inl rfl
    · left
      rw [hrun]
      obtain ⟨hI', _, hlen, hemp, hnonemp⟩ := hpost
      by_cases hb : spec_build xml_root.children = []
      · obtain ⟨rfl, rfl⟩ := hemp hb
        refine ⟨[root_node], root_node, rfl, hI', rfl, ?_, hvis⟩
        rw [hb]; exact Rep.nil _ _
      · obtain ⟨L, P, l, ndl, hat, hlow, hrep, _⟩ := hnonemp hb
        have hat' : attach [root_node] none
            = some (set_children [root_node] 0 (some 1), some 0) := rfl
        rw [hat'] at hat
        cases hat
        have h0 : A'[0]? = some { root_node with children := some 1 } := by
          rw [hlow 0 (by simp)]; rfl
        exact ⟨A', _, rfl, hI', h0, hrep, hvis⟩

theorem keys_update (t : FuncTable) (n : String) (f : Func) (k : String) :
    k ∈ (xmlHashUpdateEntry t n f).map (fun e => e.1) ↔ k = n ∨ k ∈ t.map (fun e => e.1) := by
  induction t with
  | nil => simp [xmlHashUpdateEntry]
  | cons e t ih =>
    obtain ⟨k0, v0⟩ := e
    simp only [xmlHashUpdateEntry]
    split
    · rename_i h; subst h; simp
    · simp only [List.map_cons, List.mem_cons, ih]
      constructor
      · rintro (h | h | h)
        · exact Or.inr (Or.inl h)
        · exact Or.inl h
        · exact Or.inr (Or.inr h)
      · rintro (h | h | h)
        · exact Or.inr (Or.inl h)
        · exact Or.inl h
        · exact Or.inr (Or.inr h)

theorem nodupKeys_update (t : FuncTable) (n : String) (f : Func) (h : NodupKeys t) :
    NodupKeys (xmlHashUpdateEntry t n f) := by
  induction t with
  | nil => simp [xmlHashUpdateEntry, NodupKeys]
  | cons e t ih =>
    obtain ⟨k0, v0⟩ := e
    simp only [NodupKeys, List.map_cons, List.nodup_cons] at h
    simp only [xmlHashUpdateEntry]
    split
    · rename_i hk; subst hk
      simpa [NodupKeys] using h
    · rename_i hk
      simp only [NodupKeys, List.map_cons, List.nodup_cons]
      refine ⟨?_, ih h.2⟩
      intro hmem
      rcases (keys_update t n f k0).1 hmem with h1 | h1
      · exact hk h1
      · exact h.1 h1

theorem lookup_iff_mem (t : FuncTable) (h : NodupKeys t) (n : String) (f : Func) :
    xmlHashLookup t n = some f ↔ (n, f) ∈ t := by
  induction t with
  | nil => simp [xmlHashLookup]
  | cons e t ih =>
    obtain ⟨k0, v0⟩ := e
    simp only [NodupKeys, List.map_cons, List.nodup_cons] at h
    simp only [xmlHashLookup]
    split
    · rename_i hk; subst hk
      constructor
      · intro h1; cases h1; exact List.mem_cons_self _ _
      · intro h1
        rcases List.mem_cons.1 h1 with h2 | h2
        · cases h2; rfl
        · exact absurd (List.mem_map_of_mem (fun e => e.1) h2) h.1
    · rename_i hk
      rw [ih h.2]
      constructor
      · exact fun h1 => List.mem_cons_of_mem _ h1
      · intro h1
        rcases List.mem_cons.1 h1 with h2 | h2
        · cases h2; exact absurd rfl hk
        · exact h2

theorem load_functions_preserves (P : FuncTable → Prop)
    (hP : ∀ t n f, P t → P (xmlHashUpdateEntry t n f)) (err_f : ErrF) :
    ∀ (xs : XmlNode) (t : FuncTable) (e : Bool) (t' : FuncTable),
      P t → load_functions err_f xs t e = .done t' → P t' := by
  intro xs
  induction xs with
  | nil => intro t e t' h1 h2; simp only [load_functions] at h2; cases h2; exact h1
  | other next ih => intro t e t' h1 h2; exact ih t e t' h1 h2
  | element name attrs children next _ ih =>
    intro t e t' h1 h2
    simp only [load_functions] at h2
    split at h2
    · exact ih _ _ _ h1 h2
    · split at h2
      · exact ih _ _ _ h1 h2
      · split at h2
        · exact ih _ _ _ h1 h2
        · split at h2
          · exact ih _ _ _ h1 h2
          · split at h2
            · exact ih _ _ _ h1 h2
            · split at h2
              · exact ih _ _ _ h1 h2
              · cases h2
              · cases h2
              · split at h2
                · exact ih _ _ _ h1 h2
                · cases h2
                · cases h2
                · exact ih _ _ _ (hP _ _ _ h1) h2

/-! ## Theorems: the claims about the builder and the table -/

/-- C1 (code bug): for the body `<for .../><break/>` the build succeeds, and
the BREAK node (node 2) is a child of the root after the FOR node: no node on
its parent chain is a FOR. -/
theorem break_after_sibling_for_accepted :
    ∃ nodes nd, load_func_def id break_after_for = .tree nodes ∧ nodes[2]? = some nd ∧
      nd.type = .BREAK ∧ nd.parent = some 0 ∧
      has_for_ancestor nodes nodes.length nd.parent = false :=
  ⟨[{ type := .ROOT, parent := none, next := none, children := some 1, n := .empty },
    { type := .FOR, parent := some 0, next := some 2, children := none,
      n := .n_for (some "i") (some "0") (some "n") (some "array-1") },
    { type := .BREAK, parent := some 0, next := none, children := none, n := .empty }],
   { type := .BREAK, parent := some 0, next := none, children := none, n := .empty },
   by decide, by decide, by decide, by decide, by decide⟩

/-- C2 (code bug): in `<for><for/></for>` the inner FOR (node 2) is the first
FOR among the children of its parent (node 1), and its `array_name` is
"array-2". -/
theorem first_inner_for_named_array_2 :
    ∃ nodes nd par, load_func_def id for_in_for = .tree nodes ∧ nodes[2]? = some nd ∧
      nd.type = .FOR ∧ nd.parent = some 1 ∧ nodes[1]? = some par ∧
      for_siblings_before nodes 2 nodes.length par.children = 0 ∧
      nd.n = .n_for (some "j") (some "0") (some "m") (some "array-2") :=
  ⟨[{ type := .ROOT, parent := none, next := none, children := some 1, n := .empty },
    { type := .FOR, parent := some 0, next := none, children := some 2,
      n := .n_for (some "i") (some "0") (some "n") (some "array-1") },
    { type := .FOR, parent := some 1, next := none, children := none,
      n := .n_for (some "j") (some "0") (some "m") (some "array-2") }],
   { type := .FOR, parent := some 1, next := none, children := none,
      n := .n_for (some "j") (some "0") (some "m") (some "array-2") },
   { type := .FOR, parent := some 0, next := none, children := some 2,
      n := .n_for (some "i") (some "0") (some "n") (some "array-1") },
   by decide, by decide, by decide, by decide, by decide, by decide, by decide⟩

/-- C3, as stated, fails: with a callback that answers `OURFA_OK`, the body
`<if condition="zz"><integer/></if>` builds, and the tree read back has the
integer after the IF node, not below it as in the recursive definition. -/
theorem override_breaks_refinement :
    ∃ nodes root, load_func_def err_f_ok if_wrong_condition = .tree nodes ∧
      nodes[0]? = some root ∧
      read_tree nodes nodes.length root.children ≠
        some (spec_build if_wrong_condition.children) := by
  refine ⟨[{ type := .ROOT, parent := none, next := none, children := some 1, n := .empty },
    { type := .IF, parent := some 0, next := some 2, children := none,
      n := .n_if (some "a") (some "b") none },
    { type := .INTEGER, parent := some 0, next := none, children := none,
      n := .n_val (some "x") none none }], _, by decide, rfl, ?_⟩
  intro h
  have h1 : read_tree
      [{ type := .ROOT, parent := none, next := none, children := some 1, n := .empty },
       { type := .IF, parent := some 0, next := some 2, children := none,
         n := .n_if (some "a") (some "b") none },
       { type := .INTEGER, parent := some 0, next := none, children := none,
         n := .n_val (some "x") none none }] 3 (some 1)
      = some [Tree.node .IF [], Tree.node .INTEGER []] := by rfl
  have h2 : spec_build if_wrong_condition.children
      = [Tree.node .IF [Tree.node .INTEGER []]] := by rfl
  simp only [List.length] at h
  rw [h2] at h
  erw [h1] at h
  simp at h

/-- C3 (amended): with an error callback that returns the kind it is given,
`load_func_def` always ends (tree, `NULL`, or stopped by an assertion), and
whenever it returns a tree, node 0 is the ROOT and the tree read back from its
`children` is the recursive definition `spec_build` of the body. -/
theorem load_func_def_refines (err_f : ErrF) (hid : ∀ k, err_f k = k) (xml_root : XmlNode) :
    load_func_def err_f xml_root ≠ .out_of_fuel ∧
    ∀ nodes, load_func_def err_f xml_root = .tree nodes →
      ∃ root, nodes[0]? = some root ∧ root.type = .ROOT ∧ root.parent = none ∧
        root.next = none ∧
        read_tree nodes nodes.length root.children = some (spec_build xml_root.children) := by
  rcases load_func_def_cases err_f hid xml_root with
    ⟨nodes, r, h1, hI, h0, hrep, _⟩ | h | h
  · refine ⟨?_, ?_⟩
    · rw [h1]; intro h; cases h
    · intro nodes' h'
      rw [h1] at h'
      cases h'
      obtain ⟨_, ⟨r', hr', ht, hp, hn⟩, _⟩ := hI
      rw [h0] at hr'
      cases hr'
      refine ⟨r, h0, ht, hp, hn, ?_⟩
      apply hrep.read
      have := lt_length_of_getElem? h0
      omega
  · refine ⟨?_, ?_⟩
    · rw [h]; intro h; cases h
    · intro nodes h'; rw [h] at h'; cases h'
  · refine ⟨?_, ?_⟩
    · rw [h]; intro h; cases h
    · intro nodes h'; rw [h] at h'; cases h'

/-- C3 (amended) at `sample_body`, which builds `sample_nodes`. -/
theorem load_func_def_refines_witness :
    (∀ k, (id : ErrF) k = k) ∧ load_func_def id sample_body = .tree sample_nodes ∧
    ∃ root, sample_nodes[0]? = some root ∧ root.type = .ROOT ∧ root.parent = none ∧
      root.next = none ∧
      read_tree sample_nodes sample_nodes.length root.children
        = some (spec_build sample_body.children) :=
  ⟨fun _ => rfl, by decide,
   (load_func_def_refines id (fun _ => rfl) sample_body).2 sample_nodes (by decide)⟩

theorem get_xml_attributes_missing (err_f : ErrF) (hid : ∀ k, err_f k = k)
    (attrs : List (String × String)) (tbl : List (String × Bool)) (e : String × Bool)
    (he : e ∈ tbl) (hreq : e.2 = true) (hnone : xmlGetProp attrs e.1 = none) :
    (get_xml_attributes err_f attrs tbl).1 ≠ OURFA_OK := by
  rcases get_xml_attributes_spec err_f hid attrs tbl with ⟨_, _, h3⟩ | ⟨h1, _⟩
  · have := h3 e he hreq
    rw [hnone] at this
    cases this
  · rw [h1]; exact other_ne_ok

theorem make_node_missing (err_f : ErrF) (hid : ∀ k, err_f k = k) (name : String)
    (attrs : List (String × String)) (h : MissingRequired name attrs) (ast : Ast)
    (node : FuncNode) : make_node err_f name attrs ast ≠ .done OURFA_OK node := by
  unfold MissingRequired at h
  unfold make_node
  simp only []
  generalize ourfa_xmlapi_node_type_by_name name = t at h
  have hval : xmlGetProp attrs "name" = none →
      (get_xml_attributes err_f attrs val_attributes).1 ≠ OURFA_OK := fun hn =>
    get_xml_attributes_missing err_f hid attrs _ ("name", true) (by simp [val_attributes]) rfl hn
  cases t <;> simp only [] at h ⊢
  case INTEGER => intro hc; injection hc with h1 _; exact hval h h1
  case STRING => intro hc; injection hc with h1 _; exact hval h h1
  case LONG => intro hc; injection hc with h1 _; exact hval h h1
  case DOUBLE => intro hc; injection hc with h1 _; exact hval h h1
  case IP => intro hc; injection hc with h1 _; exact hval h h1
  case IF =>
    have hr : (get_xml_attributes err_f attrs if_attributes).1 ≠ OURFA_OK := by
      rcases h with h | h | h
      · exact get_xml_attributes_missing err_f hid attrs _ ("variable", true)
          (by simp [if_attributes]) rfl h
      · exact get_xml_attributes_missing err_f hid attrs _ ("value", true)
          (by simp [if_attributes]) rfl h
      · exact get_xml_attributes_missing err_f hid attrs _ ("condition", true)
          (by simp [if_attributes]) rfl h
    rw [if_pos hr]
    intro hc; injection hc with h1 _; exact hr h1
  case FOR =>
    have hr : (get_xml_attributes err_f attrs for_attributes).1 ≠ OURFA_OK := by
      rcases h with h | h | h
      · exact get_xml_attributes_missing err_f hid attrs _ ("name", true)
          (by simp [for_attributes]) rfl h
      · exact get_xml_attributes_missing err_f hid attrs _ ("from", true)
          (by simp [for_attributes]) rfl h
      · exact get_xml_attributes_missing err_f hid attrs _ ("count", true)
          (by simp [for_attributes]) rfl h
    rw [if_neg hr]
    intro hc; injection hc with h1 _; exact hr h1
  case ERROR =>
    have hr : (get_xml_attributes err_f attrs error_attributes).1 ≠ OURFA_OK :=
      get_xml_attributes_missing err_f hid attrs _ ("code", true)
        (by simp [error_attributes]) rfl h
    rw [if_neg hr]
    intro hc; injection hc with h1 _; exact hr h1

theorem fieldsPresent_of_nodeOk (nd : FuncNode) (h : NodeOk nd) : FieldsPresent nd := by
  unfold NodeOk at h
  unfold FieldsPresent
  cases ht : nd.type <;> rw [ht] at h <;> simp only [] at h ⊢
  case IF => exact h
  case FOR => obtain ⟨a, b, c, d, h⟩ := h; exact ⟨a, b, c, _, h⟩
  case ERROR => exact h
  all_goals exact h

/-- C6: with an error callback that returns the kind it is given, a body in
which the walk meets a leaf element without `name`, an `if` without
`variable`, `value` or `condition`, a `for` without `name`, `from` or `count`,
or an `error` without `code` yields no tree: `load_func_def` returns `NULL` or
is stopped by the assertion of its cleanup.  Hence in every tree returned
those fields are present in every node. -/
theorem missing_attribute_fails (err_f : ErrF) (hid : ∀ k, err_f k = k) (xml_root : XmlNode) :
    (∀ name attrs, Visited name attrs xml_root.children → MissingRequired name attrs →
      load_func_def err_f xml_root = .null ∨ load_func_def err_f xml_root = .abort) ∧
    (∀ nodes, load_func_def err_f xml_root = .tree nodes → ∀ nd ∈ nodes, FieldsPresent nd) := by
  rcases load_func_def_cases err_f hid xml_root with
    ⟨nodes, r, h1, hI, h0, _, hall⟩ | h | h
  · refine ⟨?_, ?_⟩
    · intro name attrs hv hm
      obtain ⟨ast, node, hmk⟩ := hall name attrs hv
      exact absurd hmk (make_node_missing err_f hid name attrs hm ast node)
    · intro nodes' h' nd hnd
      rw [h1] at h'; cases h'
      obtain ⟨i, hi⟩ := List.mem_iff_getElem?.1 hnd
      obtain ⟨_, ⟨r', hr', ht, _⟩, hok⟩ := hI
      by_cases hi0 : i = 0
      · subst hi0
        rw [hr'] at hi; cases hi
        unfold FieldsPresent; rw [ht]; trivial
      · exact fieldsPresent_of_nodeOk nd (hok i nd hi (by omega))
  · exact ⟨fun _ _ _ _ => Or.inl h, fun nodes h' => by rw [h] at h'; cases h'⟩
  · exact ⟨fun _ _ _ _ => Or.inr h, fun nodes h' => by rw [h] at h'; cases h'⟩

/-- C6 (amended) at a body whose second element is an `integer` without `name`. -/
theorem missing_attribute_fails_witness :
    (∀ k, (id : ErrF) k = k) ∧ Visited "integer" [] integer_without_name.children ∧
    MissingRequired "integer" [] ∧
    (load_func_def id integer_without_name = .null
      ∨ load_func_def id integer_without_name = .abort) ∧
    (∀ nd ∈ sample_nodes, FieldsPresent nd) :=
  ⟨fun _ => rfl, Or.inr (Or.inr (Or.inl ⟨rfl, rfl⟩)), rfl,
   (missing_attribute_fails id (fun _ => rfl) integer_without_name).1 "integer" []
     (Or.inr (Or.inr (Or.inl ⟨rfl, rfl⟩))) rfl,
   (missing_attribute_fails id (fun _ => rfl) sample_body).2 sample_nodes (by decide)⟩

theorem make_node_set_violation (err_f : ErrF) (hid : ∀ k, err_f k = k) (name : String)
    (attrs : List (String × String)) (h : SetViolation name attrs) (ast : Ast)
    (node : FuncNode) : make_node err_f name attrs ast ≠ .done OURFA_OK node := by
  obtain ⟨ht, hv⟩ := h
  unfold make_node
  simp only [ht]
  rcases get_xml_attributes_spec err_f hid attrs set_attributes with ⟨h1, h2, _⟩ | ⟨_, e, he, hr, _⟩
  · rw [h1, h2]
    simp only [if_true, set_attributes, List.map, attr_at, List.getD_cons_zero,
      List.getD_cons_succ]
    rcases hv with ⟨hs, hvl⟩ | ⟨hs, hd⟩
    · rw [if_pos ⟨hs, hvl⟩, hid]
      intro hc; injection hc with h3 _; exact other_ne_ok h3
    · by_cases hb : (xmlGetProp attrs "src").isSome = true ∧ (xmlGetProp attrs "value").isSome = true
      · rw [if_pos hb, hid]
        intro hc; injection hc with h3 _; exact other_ne_ok h3
      · rw [if_neg hb, if_pos (by simp [hs, hd]), hid]
        intro hc; injection hc with h3 _; exact other_ne_ok h3
  · simp [set_attributes] at he
    rcases he with rfl | rfl | rfl | rfl | rfl <;> simp at hr

theorem setOk_of_nodeOk (nd : FuncNode) (h : NodeOk nd) : SetOk nd := by
  intro ht
  unfold NodeOk at h
  rw [ht] at h
  exact h

theorem load_func_def_tree_or_fails (err_f : ErrF) (hid : ∀ k, err_f k = k)
    (xml_root : XmlNode) :
    (∃ nodes, load_func_def err_f xml_root = .tree nodes) ∨
    load_func_def err_f xml_root = .null ∨ load_func_def err_f xml_root = .abort := by
  rcases load_func_def_cases err_f hid xml_root with ⟨nodes, _, h1, _⟩ | h | h
  · exact Or.inl ⟨nodes, h1⟩
  · exact Or.inr (Or.inl h)
  · exact Or.inr (Or.inr h)

theorem load_functions_skips (err_f : ErrF) (hid : ∀ k, err_f k = k)
    (fname : String) (fattrs : List (String × String)) (fchildren next : XmlNode)
    (table : FuncTable) (erange : Bool)
    (hfail : (load_func_def err_f (find_in_out fchildren (.nil, .nil)).1 = .null
        ∨ load_func_def err_f (find_in_out fchildren (.nil, .nil)).1 = .abort)
      ∨ (load_func_def err_f (find_in_out fchildren (.nil, .nil)).2 = .null
        ∨ load_func_def err_f (find_in_out fchildren (.nil, .nil)).2 = .abort)) :
    load_functions err_f (.element fname fattrs fchildren next) table erange = .abort
      ∨ ∃ erange1, load_functions err_f (.element fname fattrs fchildren next) table erange
          = load_functions err_f next table erange1 := by
  simp only [load_functions]
  split
  · exact Or.inr ⟨_, rfl⟩
  · split
    · exact Or.inr ⟨_, rfl⟩
    · split
      · exact Or.inr ⟨_, rfl⟩
      · split
        · exact Or.inr ⟨_, rfl⟩
        · split
          · exact Or.inr ⟨_, rfl⟩
          · rcases load_func_def_tree_or_fails err_f hid (find_in_out fchildren (.nil, .nil)).1
              with ⟨n1, h1⟩ | h1 | h1
            · rw [h1]
              simp only []
              rcases hfail with hf | hf
              · rw [h1] at hf; rcases hf with hf | hf <;> cases hf
              · rcases hf with hf | hf
                · rw [hf]; exact Or.inr ⟨_, rfl⟩
                · rw [hf]; exact Or.inl rfl
            · rw [h1]; exact Or.inr ⟨_, rfl⟩
            · rw [h1]; exact Or.inl rfl

/-- C4, as stated, fails twice: a violating `set` below a leaf element is not
walked, so the body builds (callback that keeps the kind); and with a callback
that answers `OURFA_OK` a `set` with both `src` and `value` becomes a node of
a tree that is returned. -/
theorem bad_set_can_build :
    (Contains "set" [("src", "a"), ("value", "b")] set_below_leaf.children ∧
      SetViolation "set" [("src", "a"), ("value", "b")] ∧
      ∃ nodes, load_func_def id set_below_leaf = .tree nodes) ∧
    (∃ nodes nd, load_func_def err_f_ok set_src_and_value = .tree nodes ∧ nd ∈ nodes ∧
      nd.type = .SET ∧ nd.n = .n_set (some "a") none none none (some "b")) := by
  refine ⟨⟨Or.inr (Or.inl (Or.inl ⟨rfl, rfl⟩)), ⟨by decide, Or.inl ⟨rfl, rfl⟩⟩,
    [{ type := .ROOT, parent := none, next := none, children := some 1, n := .empty },
     { type := .INTEGER, parent := some 0, next := none, children := none,
       n := .n_val (some "x") none none }], by decide⟩,
    [{ type := .ROOT, parent := none, next := none, children := some 1, n := .empty },
     { type := .SET, parent := some 0, next := none, children := none,
       n := .n_set (some "a") none none none (some "b") }],
    { type := .SET, parent := some 0, next := none, children := none,
       n := .n_set (some "a") none none none (some "b") }, by decide, by decide, rfl, rfl⟩

/-- C4 (amended): with an error callback that returns the kind it is given,
every SET node of a tree returned by `load_func_def` has not both `src` and
`value` and has `src` or `dst`; a body in which the walk meets a `set` element
violating either condition yields no tree (`NULL`, or the cleanup assertion
stops the process); and a function element whose `input` or `output` body is
such a body adds nothing to the table: the loop goes on to the next element
with the table it had, unless the process was stopped. -/
theorem set_checked (err_f : ErrF) (hid : ∀ k, err_f k = k) :
    (∀ xml_root nodes, load_func_def err_f xml_root = .tree nodes → ∀ nd ∈ nodes, SetOk nd) ∧
    (∀ xml_root name attrs, Visited name attrs xml_root.children → SetViolation name attrs →
      load_func_def err_f xml_root = .null ∨ load_func_def err_f xml_root = .abort) ∧
    (∀ fname fattrs fchildren next table erange name attrs,
      (Visited name attrs (find_in_out fchildren (.nil, .nil)).1.children
        ∨ Visited name attrs (find_in_out fchildren (.nil, .nil)).2.children) →
      SetViolation name attrs →
      load_functions err_f (.element fname fattrs fchildren next) table erange = .abort
        ∨ ∃ erange1, load_functions err_f (.element fname fattrs fchildren next) table erange
            = load_functions err_f next table erange1) := by
  have h2 : ∀ xml_root name attrs, Visited name attrs xml_root.children →
      SetViolation name attrs →
      load_func_def err_f xml_root = .null ∨ load_func_def err_f xml_root = .abort := by
    intro xml_root name attrs hv hs
    rcases load_func_def_cases err_f hid xml_root with ⟨nodes, r, h1, hI, h0, _, hall⟩ | h | h
    · obtain ⟨ast, node, hmk⟩ := hall name attrs hv
      exact absurd hmk (make_node_set_violation err_f hid name attrs hs ast node)
    · exact Or.inl h
    · exact Or.inr h
  refine ⟨?_, h2, ?_⟩
  · intro xml_root nodes h nd hnd
    rcases load_func_def_cases err_f hid xml_root with ⟨nodes', r, h1, hI, h0, _, _⟩ | h' | h'
    · rw [h1] at h; cases h
      obtain ⟨i, hi⟩ := List.mem_iff_getElem?.1 hnd
      obtain ⟨_, ⟨r', hr', ht, _⟩, hok⟩ := hI
      by_cases hi0 : i = 0
      · subst hi0
        rw [hr'] at hi; cases hi
        intro hset; rw [ht] at hset; cases hset
      · exact setOk_of_nodeOk nd (hok i nd hi (by omega))
    · rw [h'] at h; cases h
    · rw [h'] at h; cases h
  · intro fname fattrs fchildren next table erange name attrs hv hs
    apply load_functions_skips err_f hid
    rcases hv with hv | hv
    · exact Or.inl (h2 _ name attrs hv hs)
    · exact Or.inr (h2 _ name attrs hv hs)

/-- C4 (amended) at `sample_body`, at the body `<set src="a" value="b"/>` and at a
function element with that body as input. -/
theorem set_checked_witness :
    (∀ k, (id : ErrF) k = k) ∧
    (∀ nd ∈ sample_nodes, SetOk nd) ∧
    Visited "set" [("src", "a"), ("value", "b")] set_src_and_value.children ∧
    SetViolation "set" [("src", "a"), ("value", "b")] ∧
    (load_func_def id set_src_and_value = .null ∨ load_func_def id set_src_and_value = .abort) ∧
    (load_functions id function_with_bad_set [] false = .abort
      ∨ ∃ erange1, load_functions id function_with_bad_set [] false
          = load_functions id .nil [] erange1) :=
  ⟨fun _ => rfl,
   (set_checked id (fun _ => rfl)).1 sample_body sample_nodes (by decide),
   Or.inl ⟨rfl, rfl⟩, ⟨by decide, Or.inl ⟨rfl, rfl⟩⟩,
   (set_checked id (fun _ => rfl)).2.1 set_src_and_value _ _ (Or.inl ⟨rfl, rfl⟩)
     ⟨by decide, Or.inl ⟨rfl, rfl⟩⟩,
   (set_checked id (fun _ => rfl)).2.2 "function" [("name", "f"), ("id", "7")]
     set_src_and_value .nil [] false "set" [("src", "a"), ("value", "b")]
     (Or.inl (Or.inl ⟨rfl, rfl⟩)) ⟨by decide, Or.inl ⟨rfl, rfl⟩⟩⟩

theorem sameLetter_iff (x l u : Char) (hl : l.toNat = u.toNat + 32)
    (hu : 65 ≤ u.toNat ∧ u.toNat ≤ 90) : sameLetter x l ↔ x = l ∨ x = u := by
  unfold sameLetter
  constructor
  · rintro (h | ⟨h1, h2, h3⟩ | ⟨h1, h2, h3⟩)
    · exact Or.inl h
    · exact Or.inr (char_eq_of_toNat_eq (by omega))
    · omega
  · rintro (h | h)
    · exact Or.inl h
    · subst h; exact Or.inr (Or.inl ⟨hu.1, hu.2, hl⟩)

theorem is_eq_iff (c : String) : is_eq c = true ↔ eqIgnoreCase c "eq" := by
  obtain ⟨l⟩ := c
  unfold is_eq char_at eqIgnoreCase
  match l with
  | [] => simp
  | [x] => simp
  | [x, y] =>
    simp only [List.getElem?_cons_zero, List.getElem?_cons_succ, List.getElem?_nil,
      Bool.and_eq_true, Bool.or_eq_true, decide_eq_true_eq, Option.some.injEq, and_true]
    rw [List.forall₂_cons, List.forall₂_cons,
      sameLetter_iff x 'e' 'E' (by decide) (by decide),
      sameLetter_iff y 'q' 'Q' (by decide) (by decide)]
    simp
  | x :: y :: z :: rest =>
    simp only [List.getElem?_cons_zero, List.getElem?_cons_succ,
      Bool.and_eq_true, Bool.or_eq_true, decide_eq_true_eq, Option.some.injEq]
    constructor
    · rintro ⟨_, h⟩; simp at h
    · intro h
      rw [List.forall₂_cons, List.forall₂_cons] at h
      exact absurd h.2.2 (by simp)

theorem is_ne_iff (c : String) : is_ne c = true ↔ eqIgnoreCase c "ne" := by
  obtain ⟨l⟩ := c
  unfold is_ne char_at eqIgnoreCase
  match l with
  | [] => simp
  | [x] => simp
  | [x, y] =>
    simp only [List.getElem?_cons_zero, List.getElem?_cons_succ, List.getElem?_nil,
      Bool.and_eq_true, Bool.or_eq_true, decide_eq_true_eq, Option.some.injEq, and_true]
    rw [List.forall₂_cons, List.forall₂_cons,
      sameLetter_iff x 'n' 'N' (by decide) (by decide),
      sameLetter_iff y 'e' 'E' (by decide) (by decide)]
    simp
  | x :: y :: z :: rest =>
    simp only [List.getElem?_cons_zero, List.getElem?_cons_succ,
      Bool.and_eq_true, Bool.or_eq_true, decide_eq_true_eq, Option.some.injEq]
    constructor
    · rintro ⟨_, h⟩; simp at h
    · intro h
      rw [List.forall₂_cons, List.forall₂_cons] at h
      exact absurd h.2.2 (by simp)

theorem if_attributes_eval (err_f : ErrF) (attrs : List (String × String)) (v w c : String)
    (hv : xmlGetProp attrs "variable" = some v) (hw : xmlGetProp attrs "value" = some w)
    (hc : xmlGetProp attrs "condition" = some c) :
    get_xml_attributes err_f attrs if_attributes = (OURFA_OK, [some v, some w, some c]) := by
  simp [get_xml_attributes, if_attributes, hv, hw, hc]

theorem load_single_if (err_f : ErrF) (rname : String) (rattrs : List (String × String))
    (rnext : XmlNode) (name : String) (attrs : List (String × String)) (v w c : String)
    (ht : ourfa_xmlapi_node_type_by_name name = .IF)
    (hv : xmlGetProp attrs "variable" = some v) (hw : xmlGetProp attrs "value" = some w)
    (hc : xmlGetProp attrs "condition" = some c) :
    load_func_def err_f (.element rname rattrs (.element name attrs .nil .nil) rnext) =
      if is_eq c then .tree (if_tree v w .EQ)
      else if is_ne c then .tree (if_tree v w .NE)
      else if err_f OURFA_ERROR_OTHER ≠ OURFA_OK then .null
      else .tree
        [{ type := .ROOT, parent := none, next := none, children := some 1, n := .empty },
         { type := .IF, parent := some 0, next := none, children := none,
           n := .n_if (some v) (some w) none }] := by
  have hmk : make_node err_f name attrs { nodes := [root_node], cur_node := none } =
      if is_eq c then
        .done OURFA_OK { type := .IF, parent := none, next := none, children := some 1,
                         n := .n_if (some v) (some w) (some .EQ) }
      else if is_ne c then
        .done OURFA_OK { type := .IF, parent := none, next := none, children := some 1,
                         n := .n_if (some v) (some w) (some .NE) }
      else .done (err_f OURFA_ERROR_OTHER)
        { type := .IF, parent := none, next := none, children := none,
          n := .n_if (some v) (some w) none } := by
    unfold make_node
    simp only [ht, if_attributes_eval err_f attrs v w c hv hw hc, attr_at]
    simp only [List.getD_cons_zero, List.getD_cons_succ, ne_eq, not_true_eq_false, if_false,
      List.length_singleton]
  unfold load_func_def
  simp only [XmlNode.children, XmlNode.size]
  rw [walk_succ]
  simp only [step, hmk]
  by_cases h1 : is_eq c = true
  · simp only [h1, if_true]
    rfl
  · by_cases h2 : is_ne c = true
    · simp only [h1, h2, if_true, Bool.false_eq_true, if_false]
      rfl
    · simp only [h1, h2, Bool.false_eq_true, if_false]
      by_cases h3 : err_f OURFA_ERROR_OTHER = OURFA_OK
      · simp only [h3, ne_eq, not_true_eq_false, if_false]
        rfl
      · simp only [h3, ne_eq, not_false_eq_true, if_true]
        rfl

theorem make_node_bad_condition (err_f : ErrF) (hid : ∀ k, err_f k = k) (name : String)
    (attrs : List (String × String)) (c : String)
    (ht : ourfa_xmlapi_node_type_by_name name = .IF)
    (hc : xmlGetProp attrs "condition" = some c) (h1 : is_eq c = false) (h2 : is_ne c = false)
    (ast : Ast) (node : FuncNode) : make_node err_f name attrs ast ≠ .done OURFA_OK node := by
  unfold make_node
  simp only [ht]
  rcases get_xml_attributes_spec err_f hid attrs if_attributes with ⟨h3, h4, _⟩ | ⟨h3, _⟩
  · rw [h3, h4]
    simp only [ne_eq, not_true_eq_false, if_false, if_attributes, List.map, attr_at,
      List.getD_cons_zero, List.getD_cons_succ, hc, h1, h2, Bool.false_eq_true, hid]
    intro hcon; injection hcon with h5 _; exact other_ne_ok h5
  · rw [if_pos (by rw [h3]; exact other_ne_ok), h3]
    intro hcon; injection hcon with h5 _; exact other_ne_ok h5

theorem zz_not_eq : ¬ eqIgnoreCase "zz" "eq" := by
  intro h
  have := (is_eq_iff "zz").2 h
  revert this; decide

theorem zz_not_ne : ¬ eqIgnoreCase "zz" "ne" := by
  intro h
  have := (is_ne_iff "zz").2 h
  revert this; decide

/-- C5, as stated, fails: with a callback that answers `OURFA_OK`, the body
with the one element `<if variable="a" value="b" condition="zz"/>` builds. -/
theorem wrong_condition_can_build :
    ¬ eqIgnoreCase "zz" "eq" ∧ ¬ eqIgnoreCase "zz" "ne" ∧
    ∃ nodes, load_func_def err_f_ok if_zz_body = .tree nodes :=
  ⟨zz_not_eq, zz_not_ne,
   [{ type := .ROOT, parent := none, next := none, children := some 1, n := .empty },
    { type := .IF, parent := some 0, next := none, children := none,
      n := .n_if (some "a") (some "b") none }], by decide⟩

/-- C5 (amended): with an error callback that returns the kind it is given, a
body that is one `if` element with `variable`, `value` and `condition`
attributes and no children builds the IF node with condition EQ when the
condition equals "eq" ignoring case, with NE when it equals "ne" ignoring
case, and fails with `NULL` for every other string; in any body, an `if` the
walk meets with another condition yields no tree; and the condition of every
IF node of a tree returned is EQ or NE. -/
theorem if_condition_checked (err_f : ErrF) (hid : ∀ k, err_f k = k) :
    (∀ rname rattrs rnext name attrs v w c,
      ourfa_xmlapi_node_type_by_name name = .IF →
      xmlGetProp attrs "variable" = some v → xmlGetProp attrs "value" = some w →
      xmlGetProp attrs "condition" = some c →
      (eqIgnoreCase c "eq" →
        load_func_def err_f (.element rname rattrs (.element name attrs .nil .nil) rnext)
          = .tree (if_tree v w .EQ)) ∧
      (eqIgnoreCase c "ne" →
        load_func_def err_f (.element rname rattrs (.element name attrs .nil .nil) rnext)
          = .tree (if_tree v w .NE)) ∧
      (¬ eqIgnoreCase c "eq" → ¬ eqIgnoreCase c "ne" →
        load_func_def err_f (.element rname rattrs (.element name attrs .nil .nil) rnext)
          = .null)) ∧
    (∀ xml_root name attrs c, Visited name attrs xml_root.children →
      ourfa_xmlapi_node_type_by_name name = .IF → xmlGetProp attrs "condition" = some c →
      ¬ eqIgnoreCase c "eq" → ¬ eqIgnoreCase c "ne" →
      load_func_def err_f xml_root = .null ∨ load_func_def err_f xml_root = .abort) ∧
    (∀ xml_root nodes, load_func_def err_f xml_root = .tree nodes → ∀ nd ∈ nodes,
      nd.type = .IF → ∃ v w c, nd.n = .n_if (some v) (some w) (some c)) := by
  refine ⟨?_, ?_, ?_⟩
  · intro rname rattrs rnext name attrs v w c ht hv hw hc
    rw [load_single_if err_f rname rattrs rnext name attrs v w c ht hv hw hc]
    refine ⟨fun h => ?_, fun h => ?_, fun h1 h2 => ?_⟩
    · rw [if_pos ((is_eq_iff c).2 h)]
    · have hne : ¬ is_eq c = true := by
        intro he
        have h' := (is_eq_iff c).1 he
        unfold eqIgnoreCase at h h'
        cases hd : c.data with
        | nil => rw [hd] at h; cases h
        | cons x xs =>
          rw [hd] at h h'
          rw [show ("ne" : String).data = ['n', 'e'] from rfl] at h
          rw [show ("eq" : String).data = ['e', 'q'] from rfl] at h'
          rw [List.forall₂_cons] at h h'
          have hn := (sameLetter_iff x 'n' 'N' (by decide) (by decide)).1 h.1
          have he' := (sameLetter_iff x 'e' 'E' (by decide) (by decide)).1 h'.1
          rcases hn with rfl | rfl <;> rcases he' with h0 | h0 <;> revert h0 <;> decide
      rw [if_neg hne, if_pos ((is_ne_iff c).2 h)]
    · rw [if_neg (fun he => h1 ((is_eq_iff c).1 he)), if_neg (fun he => h2 ((is_ne_iff c).1 he)),
        hid, if_pos other_ne_ok]
  · intro xml_root name attrs c hv ht hc h1 h2
    rcases load_func_def_cases err_f hid xml_root with ⟨nodes, r, _, _, _, _, hall⟩ | h | h
    · obtain ⟨ast, node, hmk⟩ := hall name attrs hv
      refine absurd hmk (make_node_bad_condition err_f hid name attrs c ht hc ?_ ?_ ast node)
      · cases he : is_eq c
        · rfl
        · exact absurd ((is_eq_iff c).1 he) h1
      · cases he : is_ne c
        · rfl
        · exact absurd ((is_ne_iff c).1 he) h2
    · exact Or.inl h
    · exact Or.inr h
  · intro xml_root nodes h nd hnd ht
    rcases load_func_def_cases err_f hid xml_root with ⟨nodes', r, h1, hI, h0, _, _⟩ | h' | h'
    · rw [h1] at h; cases h
      obtain ⟨i, hi⟩ := List.mem_iff_getElem?.1 hnd
      obtain ⟨_, ⟨r', hr', hrt, _⟩, hok⟩ := hI
      by_cases hi0 : i = 0
      · subst hi0
        rw [hr'] at hi; cases hi
        rw [hrt] at ht; cases ht
      · have := hok i nd hi (by omega)
        unfold NodeOk at this
        rw [ht] at this
        exact this
    · rw [h'] at h; cases h
    · rw [h'] at h; cases h

/-- C5 (amended) at the conditions "Eq" and "zz". -/
theorem if_condition_checked_witness :
    (∀ k, (id : ErrF) k = k) ∧ ourfa_xmlapi_node_type_by_name "if" = .IF ∧
    eqIgnoreCase "Eq" "eq" ∧ load_func_def id if_eq_body = .tree (if_tree "a" "b" .EQ) ∧
    load_func_def id if_zz_body = .null :=
  ⟨fun _ => rfl, by decide, (is_eq_iff "Eq").1 (by decide),
   ((if_condition_checked id (fun _ => rfl)).1 "input" [] .nil "if"
      [("variable", "a"), ("value", "b"), ("condition", "Eq")] "a" "b" "Eq"
      (by decide) rfl rfl rfl).1 ((is_eq_iff "Eq").1 (by decide)),
   ((if_condition_checked id (fun _ => rfl)).1 "input" [] .nil "if"
      [("variable", "a"), ("value", "b"), ("condition", "zz")] "a" "b" "zz"
      (by decide) rfl rfl rfl).2.2 zz_not_eq zz_not_ne⟩

/-- C6, as stated, fails: a leaf element without `name` below another leaf
element is in the body, and the body builds (the callback keeps the kind). -/
theorem unnamed_leaf_below_leaf_builds :
    Contains "string" [] leaf_below_leaf.children ∧ MissingRequired "string" [] ∧
    ∃ nodes, load_func_def id leaf_below_leaf = .tree nodes :=
  ⟨Or.inr (Or.inl (Or.inl ⟨rfl, rfl⟩)), rfl,
   [{ type := .ROOT, parent := none, next := none, children := some 1, n := .empty },
    { type := .INTEGER, parent := some 0, next := none, children := none,
      n := .n_val (some "x") none none }], by decide⟩

theorem load_file_end_table (res : Int) (api api' : XmlApi) (r : Int)
    (h : load_file_end res api = .returned r api') (t : FuncTable)
    (ht : api'.func_by_name = some t) : api.func_by_name = some t := by
  unfold load_file_end at h
  split at h
  · cases h; cases ht
  · cases h; exact ht

theorem load_file_table_nodup (xmlReadFile : String → Option XmlNode) (erange : Bool)
    (api0 : XmlApi) (file : Option String) (res : Int) (api' : XmlApi)
    (hfresh : api0.file = none)
    (h : ourfa_xmlapi_load_file xmlReadFile erange api0 file = .returned res api')
    (t : FuncTable) (ht : api'.func_by_name = some t) : NodupKeys t := by
  have hnil : NodupKeys [] := by simp [NodupKeys]
  unfold ourfa_xmlapi_load_file at h
  rw [hfresh] at h
  simp only [] at h
  split at h
  · have := load_file_end_table _ _ _ _ h t ht
    simp only [] at this
    -- the table of a container with no file is not read: it is released
    unfold load_file_end at h
    rw [if_pos other_ne_ok] at h
    cases h; cases ht
  · split at h
    · split at h
      · have := load_file_end_table _ _ _ _ h t ht
        cases this; exact hnil
      · split at h
        · rename_i table hl
          have := load_file_end_table _ _ _ _ h t ht
          cases this
          exact load_functions_preserves NodupKeys
            (fun t n f ht => nodupKeys_update t n f ht) _ _ _ _ _ hnil hl
        · cases h
        · cases h
    · have := load_file_end_table _ _ _ _ h t ht
      cases this; exact hnil

/-- C10, as stated, fails: after loading `<function name="ping" id="1"/>` the
lookup of "ping" returns the function and the lookup of "PING", which equals
"ping" ignoring case, returns nothing. -/
theorem lookup_is_case_sensitive :
    ourfa_xmlapi_load_file (fun _ => some ping_doc) false (ourfa_xmlapi_new id) none
      = .returned OURFA_OK ping_api ∧
    ourfa_xmlapi_func ping_api "ping" = some ping_func ∧
    eqIgnoreCase "PING" "ping" ∧ ourfa_xmlapi_func ping_api "PING" = none := by
  refine ⟨by rfl, by decide, ?_, by decide⟩
  unfold eqIgnoreCase
  refine List.Forall₂.cons ?_ (List.Forall₂.cons ?_ (List.Forall₂.cons ?_
    (List.Forall₂.cons ?_ List.Forall₂.nil))) <;> unfold sameLetter <;> decide

/-- C10 (amended): function lookup matches names exactly.  After a load into
a container that held no file, `ourfa_xmlapi_func` returns a function for a
name exactly when the table has that function under that very name. -/
theorem lookup_exact (xmlReadFile : String → Option XmlNode) (erange : Bool)
    (api0 : XmlApi) (file : Option String) (res : Int) (api' : XmlApi)
    (hfresh : api0.file = none)
    (h : ourfa_xmlapi_load_file xmlReadFile erange api0 file = .returned res api')
    (t : FuncTable) (ht : api'.func_by_name = some t) (n : String) (f : Func) :
    ourfa_xmlapi_func api' n = some f ↔ (n, f) ∈ t := by
  unfold ourfa_xmlapi_func
  rw [ht]
  exact lookup_iff_mem t (load_file_table_nodup xmlReadFile erange api0 file res api' hfresh h t ht)
    n f

/-- C10 (amended) at the document with the one function `ping`. -/
theorem lookup_exact_witness :
    (ourfa_xmlapi_new id).file = none ∧
    ourfa_xmlapi_load_file (fun _ => some ping_doc) false (ourfa_xmlapi_new id) none
      = .returned OURFA_OK ping_api ∧
    ping_api.func_by_name = some [("ping", ping_func)] ∧
    (ourfa_xmlapi_func ping_api "ping" = some ping_func ↔
      ("ping", ping_func) ∈ [("ping", ping_func)]) :=
  ⟨rfl, by rfl, rfl,
   lookup_exact (fun _ => some ping_doc) false (ourfa_xmlapi_new id) none OURFA_OK ping_api
     rfl (by rfl) [("ping", ping_func)] rfl "ping" ping_func⟩


/-! ## Theorems: the walk with any callback -/

theorem make_node_general (err_f : ErrF) (name : String) (attrs : List (String × String))
    (ast : Ast) (hG : GInv ast) :
    make_node err_f name attrs ast = .abort ∨
    ∃ r node, make_node err_f name attrs ast = .done r node ∧ node.next = none ∧
      node.type = ourfa_xmlapi_node_type_by_name name ∧
      (node.children = none ∨ node.children = some ast.nodes.length) := by
  obtain ⟨hL, hV, _⟩ := hG
  unfold make_node
  simp only []
  generalize ourfa_xmlapi_node_type_by_name name = type
  cases type
  case INTEGER => exact Or.inr ⟨_, _, rfl, rfl, rfl, Or.inl rfl⟩
  case STRING => exact Or.inr ⟨_, _, rfl, rfl, rfl, Or.inl rfl⟩
  case LONG => exact Or.inr ⟨_, _, rfl, rfl, rfl, Or.inl rfl⟩
  case DOUBLE => exact Or.inr ⟨_, _, rfl, rfl, rfl, Or.inl rfl⟩
  case IP => exact Or.inr ⟨_, _, rfl, rfl, rfl, Or.inl rfl⟩
  case IF =>
    simp only []
    split
    · exact Or.inr ⟨_, _, rfl, rfl, rfl, Or.inl rfl⟩
    · split
      · exact Or.inl rfl
      · split
        · exact Or.inr ⟨_, _, rfl, rfl, rfl, Or.inr rfl⟩
        · split
          · exact Or.inr ⟨_, _, rfl, rfl, rfl, Or.inr rfl⟩
          · exact Or.inr ⟨_, _, rfl, rfl, rfl, Or.inl rfl⟩
  case SET =>
    simp only []
    split
    · split
      · exact Or.inr ⟨_, _, rfl, rfl, rfl, Or.inl rfl⟩
      · split
        · exact Or.inr ⟨_, _, rfl, rfl, rfl, Or.inl rfl⟩
        · exact Or.inr ⟨_, _, rfl, rfl, rfl, Or.inl rfl⟩
    · exact Or.inr ⟨_, _, rfl, rfl, rfl, Or.inl rfl⟩
  case FOR =>
    simp only []
    split
    · have hi : ∃ i, (match ast.cur_node with
          | none => some 1
          | some cur =>
            match ast.nodes[cur]? with
            | none => none
            | some c =>
              match c.parent with
              | none => some 1
              | some p =>
                match ast.nodes[p]? with
                | none => none
                | some pn => count_for ast.nodes (ast.nodes.length + 1) pn.children 1) = some i := by
        cases hcur : ast.cur_node with
        | none => exact ⟨1, rfl⟩
        | some cur =>
          have hlt := hV cur hcur
          simp only [List.getElem?_eq_getElem hlt]
          cases hp : (ast.nodes[cur]).parent with
          | none => exact ⟨1, rfl⟩
          | some p =>
            have hpl := (hL cur _ (List.getElem?_eq_getElem hlt)).1 p hp
            have hplt : p < ast.nodes.length := by omega
            simp only [List.getElem?_eq_getElem hplt]
            apply count_for_terminates hL
            · omega
            · intro s hs
              have := (hL p _ (List.getElem?_eq_getElem hplt)).2.2 s hs
              omega
      obtain ⟨i, hi⟩ := hi
      rw [hi]
      exact Or.inr ⟨_, _, rfl, rfl, rfl, Or.inr rfl⟩
    · exact Or.inr ⟨_, _, rfl, rfl, rfl, Or.inr rfl⟩
  case BREAK =>
    simp only []
    obtain ⟨b, hb⟩ := find_for_terminates hL (ast.nodes.length + 1) ast.cur_node (by omega)
      (fun s hs => by have := hV s hs; omega)
    rw [hb]
    cases b with
    | true => exact Or.inr ⟨_, _, rfl, rfl, rfl, Or.inl rfl⟩
    | false => exact Or.inr ⟨_, _, rfl, rfl, rfl, Or.inl rfl⟩
  case ERROR =>
    simp only []
    split
    · split
      · exact Or.inl rfl
      · split
        · exact Or.inr ⟨_, _, rfl, rfl, rfl, Or.inl rfl⟩
        · exact Or.inr ⟨_, _, rfl, rfl, rfl, Or.inl rfl⟩
    · exact Or.inr ⟨_, _, rfl, rfl, rfl, Or.inl rfl⟩
  all_goals exact Or.inr ⟨_, _, rfl, rfl, rfl, Or.inl rfl⟩


theorem linked_set_children_none {A : List FuncNode} (hL : Linked A) (k : Nat) :
    Linked (set_children A k none) := by
  intro i x hx
  rw [length_set_children]
  by_cases hik : i = k
  · subst hik
    obtain ⟨nd, hnd⟩ : ∃ nd, A[i]? = some nd := by
      have := lt_length_of_getElem? hx
      rw [length_set_children] at this
      exact ⟨_, List.getElem?_eq_getElem this⟩
    rw [getElem?_set_children_self _ _ _ _ hnd] at hx
    cases hx
    have h0 := hL i nd hnd
    exact ⟨h0.1, h0.2.1, fun j hj => (by cases hj)⟩
  · rw [getElem?_set_children_ne _ _ _ _ hik] at hx
    exact hL i x hx

theorem ginv_add_node (A : List FuncNode) (c : Option Nat) (node : FuncNode)
    (hG : GInv { nodes := A, cur_node := c }) (hn : node.next = none)
    (hc : node.children = none ∨ node.children = some A.length) :
    ∃ L P, add_node { nodes := A, cur_node := c } node
        = some { nodes := L ++ [{ node with parent := P }], cur_node := some A.length } ∧
      L.length = A.length ∧
      GInv { nodes := L ++ [{ node with parent := P }], cur_node := some A.length } ∧
      RootChild (L ++ [{ node with parent := P }]) := by
  obtain ⟨hL, hV, r, hr, hrt, hr0, hrn⟩ := hG
  simp only [] at hL hV hr hrn
  have h0 := lt_length_of_getElem? hr
  rw [add_node_eq]
  have key : ∀ L P k, attach A c = some (L, P) → Relinked A L k →
      (∀ p, P = some p → p < A.length) →
      (∃ r1 j, L[0]? = some r1 ∧ r1.type = .ROOT ∧ r1.children = some j ∧ j ≠ 0) →
      ∃ L P, (attach A c).map (fun LP =>
          ({ nodes := LP.1 ++ [{ node with parent := LP.2 }], cur_node := some A.length } : Ast))
        = some { nodes := L ++ [{ node with parent := P }], cur_node := some A.length } ∧
      L.length = A.length ∧
      GInv { nodes := L ++ [{ node with parent := P }], cur_node := some A.length } ∧
      RootChild (L ++ [{ node with parent := P }]) := by
    intro L P k hat hR hP ⟨r1, j, hr1, hr1t, hr1c, hj⟩
    have hlen : L.length = A.length := hR.1
    have h0' : (L ++ [{ node with parent := P }])[0]? = some r1 := by
      rw [List.getElem?_append_left (by omega)]; exact hr1
    refine ⟨L, P, by rw [hat]; rfl, hlen, ⟨?_, ?_, r1, h0', hr1t, ?_, ?_⟩, r1, j, h0', hr1t, hr1c⟩
    · exact linked_push_relinked hL hR _ hP hn hc
    · intro k hk; cases hk; simp [hlen]
    · rw [hr1c]; intro h; cases h; exact hj rfl
    · intro h; rw [hr1c] at h; cases h
  cases c with
  | none =>
    have hat : attach A none = some (set_children A 0 (some A.length), some 0) := by
      unfold attach; simp only [hr]
    refine key _ _ 0 hat ⟨by simp, fun j hj => getElem?_set_children_ne _ _ _ _ hj, r, hr,
      Or.inl (getElem?_set_children_self _ _ _ _ hr)⟩ ?_ ?_
    · intro p hp; cases hp; exact h0
    · exact ⟨_, A.length, getElem?_set_children_self _ _ _ _ hr, hrt, rfl, by omega⟩
  | some cur =>
    have hlt := hV cur rfl
    have hnd : A[cur]? = some A[cur] := List.getElem?_eq_getElem hlt
    have hrc : ∃ j, r.children = some j ∧ j ≠ 0 := by
      cases hch : r.children with
      | none => have := hrn hch; cases this
      | some j => exact ⟨j, rfl, fun h => hr0 (by rw [hch, h])⟩
    obtain ⟨j, hj1, hj2⟩ := hrc
    by_cases hmode : A[cur].children = some cur ∧ (A[cur].type = .FOR ∨ A[cur].type = .IF)
    · have hat : attach A (some cur) = some (set_children A cur (some A.length), some cur) := by
        unfold attach; simp only [hnd]; rw [if_pos hmode]
      have hcur0 : cur ≠ 0 := by
        intro h; subst h
        rw [hr] at hnd; cases hnd
        rcases hmode.2 with h | h <;> (rw [hrt] at h; cases h)
      refine key _ _ cur hat ⟨by simp, fun j hj => getElem?_set_children_ne _ _ _ _ hj, _, hnd,
        Or.inl (getElem?_set_children_self _ _ _ _ hnd)⟩ ?_ ?_
      · intro p hp; cases hp; exact hlt
      · exact ⟨r, j, by rw [getElem?_set_children_ne _ _ _ _ (Ne.symm hcur0)]; exact hr, hrt,
          hj1, hj2⟩
    · have hat : attach A (some cur)
          = some (set_next A cur (some A.length), A[cur].parent) := by
        unfold attach; simp only [hnd]; rw [if_neg hmode]
      refine key _ _ cur hat ⟨by simp, fun j hj => getElem?_set_next_ne _ _ _ _ hj, _, hnd,
        Or.inr (getElem?_set_next_self _ _ _ _ hnd)⟩ ?_ ?_
      · intro p hp
        have := (hL cur _ hnd).1 p hp
        omega
      · by_cases hcur0 : cur = 0
        · subst hcur0
          rw [hr] at hnd; cases hnd
          exact ⟨_, j, getElem?_set_next_self _ _ _ _ hr, hrt, hj1, hj2⟩
        · exact ⟨r, j, by rw [getElem?_set_next_ne _ _ _ _ (Ne.symm hcur0)]; exact hr, hrt,
            hj1, hj2⟩

theorem ginv_clear_children (ast : Ast) (k : Nat) (hG : GInv ast) (hcur : ast.cur_node = some k)
    (hk : ∀ r, ast.nodes[0]? = some r → k = 0 → False) :
    GInv (clear_children ast) ∧ (RootChild ast.nodes → RootChild (clear_children ast).nodes) := by
  obtain ⟨hL, hV, r, hr, hrt, hr0, hrn⟩ := hG
  have hk0 : k ≠ 0 := fun h => hk r hr h
  have hcc : clear_children ast = { ast with nodes := set_children ast.nodes k none } := by
    unfold clear_children; rw [hcur]
  rw [hcc]
  have h0 : (set_children ast.nodes k none)[0]? = some r := by
    rw [getElem?_set_children_ne _ _ _ _ (Ne.symm hk0)]; exact hr
  refine ⟨⟨linked_set_children_none hL k, ?_, r, h0, hrt, hr0, hrn⟩, ?_⟩
  · intro j hj; simp only [length_set_children]; exact hV j hj
  · rintro ⟨r1, j, h1, h2, h3⟩
    rw [hr] at h1; cases h1
    exact ⟨_, j, h0, h2, h3⟩

theorem ginv_move_up_fix (ast : Ast) (cur : Nat) (c : FuncNode) (hG : GInv ast)
    (hcur : ast.cur_node = some cur) (hc : ast.nodes[cur]? = some c) :
    GInv (if c.children = some cur then clear_children ast else { ast with cur_node := c.parent })
    ∧ (RootChild ast.nodes → RootChild
        (if c.children = some cur then clear_children ast
          else { ast with cur_node := c.parent }).nodes) := by
  by_cases hs : c.children = some cur
  · rw [if_pos hs]
    apply ginv_clear_children ast cur hG hcur
    intro r hr h0
    subst h0
    obtain ⟨_, _, r', hr', _, hr0, _⟩ := hG
    rw [hr] at hr'; cases hr'
    rw [hc] at hr; cases hr
    exact hr0 hs
  · rw [if_neg hs]
    obtain ⟨hL, hV, r, hr, hrt, hr0, hrn⟩ := hG
    refine ⟨⟨hL, ?_, r, hr, hrt, hr0, ?_⟩, fun h => h⟩
    · intro k hk
      have h1 := (hL cur c hc).1 k hk
      have h2 := hV cur hcur
      show k < ast.nodes.length
      omega
    · intro h
      have := hrn h
      rw [hcur] at this; cases this


theorem StepGood.weaken {b1 b2 : Nat} {K1 K2 : Prop} {s : Step} (h : StepGood b1 K1 s)
    (hb : b1 ≤ b2) (hK : K2 → K1) : StepGood b2 K2 s := by
  cases s with
  | «at» x ps ast =>
    obtain ⟨h1, h2, h3, h4⟩ := h
    exact ⟨h1, h2, by omega, fun k => h4 (hK k)⟩
  | finished ast => exact ⟨h.1, fun k => h.2 (hK k)⟩
  | failed ast => exact h
  | abort => trivial
  | out_of_fuel => exact h

theorem size_pos_of_ne_nil {x : XmlNode} (h : x ≠ .nil) : 0 < x.size := by
  cases x with
  | nil => exact absurd rfl h
  | element _ _ _ _ => simp only [XmlNode.size]; omega
  | other _ => simp only [XmlNode.size]; omega

theorem move_up_general : ∀ (ps : List XmlNode) (ast : Ast), GInv ast →
    StepGood (stack_size ps) (RootChild ast.nodes) (move_up ps ast) := by
  intro ps
  induction ps with
  | nil => intro ast hG; exact ⟨hG, fun h => h⟩
  | cons p ps ih =>
    intro ast hG
    cases hcur : ast.cur_node with
    | none => simp only [move_up, hcur]; trivial
    | some cur =>
      have hlt := hG.2.1 cur hcur
      have hc : ast.nodes[cur]? = some ast.nodes[cur] := List.getElem?_eq_getElem hlt
      rw [move_up_cons p ps ast cur _ hcur hc]
      obtain ⟨hG1, hK1⟩ := ginv_move_up_fix ast cur _ hG hcur hc
      by_cases hnx : p.next = .nil
      · rw [hnx]
        show StepGood _ _ (move_up ps _)
        exact (ih _ hG1).weaken (by simp [stack_size]) hK1
      · rw [next_node_of_ne_nil _ _ _ hnx]
        exact ⟨hG1, hnx, by simp [stack_size], hK1⟩

theorem next_node_general (nxt : XmlNode) (ps : List XmlNode) (ast : Ast) (hG : GInv ast) :
    StepGood (nxt.size + stack_size ps) (RootChild ast.nodes) (next_node nxt ps ast) := by
  by_cases hnx : nxt = .nil
  · subst hnx
    show StepGood _ _ (move_up ps ast)
    exact (move_up_general ps ast hG).weaken (by omega) (fun h => h)
  · rw [next_node_of_ne_nil _ _ _ hnx]
    exact ⟨hG, hnx, le_refl _, fun h => h⟩

theorem step_general (err_f : ErrF) (name : String) (attrs : List (String × String))
    (children next : XmlNode) (ps : List XmlNode) (ast : Ast) (hG : GInv ast) :
    StepGood (children.size + next.size + stack_size ps) True
      (step err_f (.element name attrs children next) ps ast) := by
  rcases make_node_general err_f name attrs ast hG with hmk | ⟨r, node, hmk, hnn, _, hnc⟩
  · simp only [step, hmk]; trivial
  · by_cases hr : r = OURFA_OK
    swap
    · rw [step_failed err_f name attrs children next ps ast r node hmk hr]
      exact hG
    subst hr
    obtain ⟨L, P, hadd, hlen, hG1, hK1⟩ := ginv_add_node ast.nodes ast.cur_node node hG hnn hnc
    have hadd' : add_node ast node
        = some { nodes := L ++ [{ node with parent := P }], cur_node := some ast.nodes.length } :=
      hadd
    by_cases ht : node.type = .IF ∨ node.type = .FOR
    · by_cases hch : children = .nil
      · subst hch
        rw [step_empty err_f name attrs next ps ast _ node hmk hadd' ht]
        have hpos : 0 < ast.nodes.length := by
          obtain ⟨_, _, r, hr, _⟩ := hG
          exact lt_length_of_getElem? hr
        obtain ⟨hG2, hK2⟩ := ginv_clear_children _ ast.nodes.length hG1 rfl
          (fun _ _ h => by omega)
        exact (next_node_general next ps _ hG2).weaken (by simp [XmlNode.size])
          (fun _ => hK2 hK1)
      · rw [step_descend err_f name attrs children next ps ast _ node hmk hadd' ht hch,
          next_node_of_ne_nil _ _ _ hch]
        exact ⟨hG1, hch, by simp [stack_size, XmlNode.next]; omega, fun _ => hK1⟩
    · rw [step_leaf err_f name attrs children next ps ast _ node hmk hadd' ht]
      exact (next_node_general next ps _ hG1).weaken (by omega) (fun _ => hK1)

theorem walk_general (err_f : ErrF) : ∀ (fuel : Nat) (x : XmlNode) (ps : List XmlNode) (ast : Ast),
    GInv ast → x ≠ .nil → x.size + stack_size ps ≤ fuel →
    (RootChild ast.nodes ∨ (ps = [] ∧ HasElement x)) →
    WalkGood (walk err_f fuel x ps ast) := by
  intro fuel
  induction fuel with
  | zero =>
    intro x ps ast _ hx hf _
    have := size_pos_of_ne_nil hx
    omega
  | succ f ih =>
    intro x ps ast hG hx hf hK
    rw [walk_succ]
    have hfin : ∀ s, StepGood f True s → WalkGood (run err_f f s) := by
      intro s hs
      cases s with
      | «at» x1 ps1 ast1 =>
        obtain ⟨h1, h2, h3, h4⟩ := hs
        exact ih x1 ps1 ast1 h1 h2 h3 (Or.inl (h4 trivial))
      | finished ast1 => exact hs.2 trivial
      | failed ast1 => exact hs.1
      | abort => trivial
      | out_of_fuel => exact hs
    cases x with
    | nil => exact absurd rfl hx
    | element name attrs children next =>
      apply hfin
      exact (step_general err_f name attrs children next ps ast hG).weaken
        (by simp only [XmlNode.size] at hf; omega) (fun h => h)
    | other next =>
      simp only [XmlNode.size] at hf
      rcases hK with hK | ⟨hps, hel⟩
      · apply hfin
        exact (next_node_general next ps ast hG).weaken (by omega) (fun _ => hK)
      · subst hps
        have hnx : next ≠ .nil := by
          intro h; subst h; exact hel
        show WalkGood (run err_f f (next_node next [] ast))
        rw [next_node_of_ne_nil _ _ _ hnx]
        exact ih next [] ast hG hnx (by simp [stack_size] at hf ⊢; omega) (Or.inr ⟨rfl, hel⟩)

theorem walk_no_element (err_f : ErrF) : ∀ (x : XmlNode) (fuel : Nat) (ast : Ast),
    ¬ HasElement x → x ≠ .nil → x.size ≤ fuel →
    walk err_f fuel x [] ast = .finished ast.nodes := by
  intro x
  induction x with
  | nil => intro fuel ast _ hx _; exact absurd rfl hx
  | element name attrs children next _ _ => intro fuel ast h _ _; exact absurd trivial h
  | other next ih =>
    intro fuel ast h _ hf
    simp only [XmlNode.size] at hf
    obtain ⟨f, rfl⟩ : ∃ f, fuel = f + 1 := ⟨fuel - 1, by omega⟩
    rw [walk_succ]
    show run err_f f (next_node next [] ast) = _
    by_cases hnx : next = .nil
    · subst hnx; rfl
    · rw [next_node_of_ne_nil _ _ _ hnx]
      exact ih f ast h hnx (by omega)

theorem ginv_root : GInv { nodes := [root_node], cur_node := none } :=
  ⟨inv_root.1, fun k hk => (by cases hk), root_node, rfl, rfl, fun h => (by cases h), fun _ => rfl⟩

/-- Whatever the callback answers, `load_func_def` ends, and a tree it returns
has a root with a child exactly when the body has an element child; without
one the tree is the root alone. -/
theorem load_func_def_general (err_f : ErrF) (xml_root : XmlNode) :
    load_func_def err_f xml_root ≠ .out_of_fuel ∧
    (¬ HasElement xml_root.children → load_func_def err_f xml_root = .tree [root_node]) ∧
    (HasElement xml_root.children → ∀ nodes, load_func_def err_f xml_root = .tree nodes →
      RootChild nodes) := by
  by_cases hch : xml_root.children = .nil
  · have h : load_func_def err_f xml_root = .tree [root_node] := by
      unfold load_func_def; rw [hch]
    refine ⟨(by rw [h]; intro h; cases h), fun _ => h, fun hel => ?_⟩
    rw [hch] at hel; exact hel.elim
  · have hdef : load_func_def err_f xml_root =
        match walk err_f xml_root.children.size xml_root.children []
            { nodes := [root_node], cur_node := none } with
        | .finished nodes => .tree nodes
        | .failed nodes =>
          match free_func_def nodes (nodes.length + 1) (some 0) with
          | some true => .null
          | some false => .abort
          | none => .out_of_fuel
        | .abort => .abort
        | .out_of_fuel => .out_of_fuel := by
      unfold load_func_def
      cases h : xml_root.children with
      | nil => exact absurd h hch
      | element _ _ _ _ => rfl
      | other _ => rfl
    by_cases hel : HasElement xml_root.children
    · have hw := walk_general err_f xml_root.children.size xml_root.children []
        { nodes := [root_node], cur_node := none } ginv_root hch (by simp [stack_size])
        (Or.inr ⟨rfl, hel⟩)
      rw [hdef]
      cases hwalk : walk err_f xml_root.children.size xml_root.children []
          { nodes := [root_node], cur_node := none } with
      | finished nodes =>
        rw [hwalk] at hw
        refine ⟨fun h => (by cases h), fun h => absurd hel h, fun _ nodes' h => ?_⟩
        cases h; exact hw
      | failed nodes =>
        rw [hwalk] at hw
        obtain ⟨b, hb⟩ := free_func_def_terminates hw (nodes.length + 1) (some 0) (by omega)
          (fun s hs => by cases hs; omega)
        simp only [hb]
        cases b <;>
          exact ⟨fun h => (by cases h), fun h => absurd hel h, fun _ nodes' h => (by cases h)⟩
      | abort => exact ⟨fun h => (by cases h), fun h => absurd hel h, fun _ nodes' h => (by cases h)⟩
      | out_of_fuel => rw [hwalk] at hw; exact hw.elim
    · have hw := walk_no_element err_f xml_root.children xml_root.children.size
        { nodes := [root_node], cur_node := none } hel hch (le_refl _)
      rw [hdef, hw]
      exact ⟨fun h => (by cases h), fun _ => rfl, fun h => absurd h hel⟩



/-! ## Theorems: the claims about `ourfa_xmlapi_load_file` -/

/-- C13 (code bug): the document `<urfa><function name="" id="1"/></urfa>`
loads with result OK and the lookup of the empty name returns the function. -/
theorem empty_name_is_stored :
    ourfa_xmlapi_load_file (fun _ => some empty_name_doc) false (ourfa_xmlapi_new id) none
      = .returned OURFA_OK
          { file := some DEFAULT_API_XML_FILE, func_by_name := some [("", bare_func "" 1)],
            printf_err := id } ∧
    ourfa_xmlapi_func
      { file := some DEFAULT_API_XML_FILE, func_by_name := some [("", bare_func "" 1)],
        printf_err := id } "" = some (bare_func "" 1) :=
  ⟨by rfl, by decide⟩

/-- C11 (code bug): in the list `f` (id 1), `g` (id out of the range of
`long`), `f` (id 2), the last element named `f` is well formed (alone it is
stored with id 2), yet the table keeps the first `f`, with id 1: `errno` is
still `ERANGE` when the last element's id is checked. -/
theorem stale_erange_keeps_first :
    load_functions id (function_element "f" "2" .nil) [] false = .done [("f", bare_func "f" 2)] ∧
    load_functions id stale_erange_functions [] false = .done [("f", bare_func "f" 1)] :=
  ⟨by decide, by decide⟩

theorem load_file_end_ne_ok (res : Int) (api api' : XmlApi) (r : Int)
    (h : load_file_end res api = .returned r api') (hr : r ≠ OURFA_OK) :
    api'.file = none ∧ api'.func_by_name = none := by
  unfold load_file_end at h
  split at h
  · cases h; exact ⟨rfl, rfl⟩
  · rename_i hres
    cases h
    exact absurd (not_not.1 hres) hr

/-- C16: when `ourfa_xmlapi_load_file`, called on a container without a file
name, returns a result other than OK (whichever allocation failed, whatever
the document and the callback), the container has no file name and no table
afterwards: every lookup returns nothing, and the next load is not refused as
"already loaded" but runs as on a new container. -/
theorem failed_load_releases (sys : Sys) (xmlReadFile : String → Option XmlNode)
    (erange : Bool) (xmlapi : XmlApi) (file : Option String) (res : Int) (xmlapi1 : XmlApi)
    (hfresh : xmlapi.file = none)
    (h : ourfa_xmlapi_load_file_sys sys xmlReadFile erange xmlapi file = .returned res xmlapi1)
    (hres : res ≠ OURFA_OK) :
    xmlapi1.file = none ∧ xmlapi1.func_by_name = none ∧
    (∀ name, ourfa_xmlapi_func xmlapi1 name = none) ∧
    (∀ sys2 xmlReadFile2 erange2 file2,
      ourfa_xmlapi_load_file_sys sys2 xmlReadFile2 erange2 xmlapi1 file2
        = ourfa_xmlapi_load_file_sys sys2 xmlReadFile2 erange2
            { file := none, func_by_name := none, printf_err := xmlapi1.printf_err } file2) := by
  have key : xmlapi1.file = none ∧ xmlapi1.func_by_name = none := by
    unfold ourfa_xmlapi_load_file_sys at h
    rw [hfresh] at h
    simp only [] at h
    split at h
    · exact load_file_end_ne_ok _ _ _ _ h hres
    · split at h
      · exact load_file_end_ne_ok _ _ _ _ h hres
      · split at h
        · exact load_file_end_ne_ok _ _ _ _ h hres
        · split at h
          · split at h
            · exact load_file_end_ne_ok _ _ _ _ h hres
            · split at h
              · exact load_file_end_ne_ok _ _ _ _ h hres
              · exact load_file_end_ne_ok _ _ _ _ h hres
              · cases h
              · cases h
          · exact load_file_end_ne_ok _ _ _ _ h hres
  refine ⟨key.1, key.2, fun name => ?_, fun sys2 X2 e2 f2 => ?_⟩
  · unfold ourfa_xmlapi_func; rw [key.2]
  · obtain ⟨f, t, p⟩ := xmlapi1
    simp only [] at key
    obtain ⟨rfl, rfl⟩ := key
    rfl

/-- C16 at an unreadable document and at a failed `strdup`. -/
theorem failed_load_releases_witness :
    (ourfa_xmlapi_new id).file = none ∧
    ourfa_xmlapi_load_file_sys Sys.ok (fun _ => none) false (ourfa_xmlapi_new id) (some "api.xml")
      = .returned OURFA_ERROR_OTHER (ourfa_xmlapi_new id) ∧
    OURFA_ERROR_OTHER ≠ OURFA_OK ∧
    (ourfa_xmlapi_new id).file = none ∧ (ourfa_xmlapi_new id).func_by_name = none ∧
    (∀ name, ourfa_xmlapi_func (ourfa_xmlapi_new id) name = none) :=
  ⟨rfl, by rfl, by decide,
   (failed_load_releases Sys.ok (fun _ => none) false (ourfa_xmlapi_new id) (some "api.xml")
      OURFA_ERROR_OTHER (ourfa_xmlapi_new id) rfl (by rfl) (by decide)).1,
   (failed_load_releases Sys.ok (fun _ => none) false (ourfa_xmlapi_new id) (some "api.xml")
      OURFA_ERROR_OTHER (ourfa_xmlapi_new id) rfl (by rfl) (by decide)).2.1,
   (failed_load_releases Sys.ok (fun _ => none) false (ourfa_xmlapi_new id) (some "api.xml")
      OURFA_ERROR_OTHER (ourfa_xmlapi_new id) rfl (by rfl) (by decide)).2.2.1⟩



theorem load_functions_sys_ok (err_f : ErrF) : ∀ (xs : XmlNode) (i : Nat) (table : FuncTable)
    (erange : Bool),
    load_functions_sys Sys.ok err_f xs i table erange =
      match load_functions err_f xs table erange with
      | .done t => .done t
      | .abort => .abort
      | .out_of_fuel => .out_of_fuel := by
  intro xs
  induction xs with
  | nil => intro i table erange; rfl
  | other next ih => intro i table erange; exact ih (i + 1) table erange
  | element name attrs children next _ ih =>
    intro i table erange
    simp only [load_functions_sys, load_functions, Sys.ok, Bool.true_eq_false, if_false]
    split
    · exact ih _ _ _
    · split
      · exact ih _ _ _
      · split
        · exact ih _ _ _
        · split
          · exact ih _ _ _
          · split
            · exact ih _ _ _
            · split
              · exact ih _ _ _
              · rfl
              · rfl
              · split
                · exact ih _ _ _
                · rfl
                · rfl
                · exact ih _ _ _

/-- When no allocation fails, the loader with allocations that can fail is
`ourfa_xmlapi_load_file`. -/
theorem load_file_sys_ok (xmlReadFile : String → Option XmlNode) (erange : Bool)
    (xmlapi : XmlApi) (file : Option String) :
    ourfa_xmlapi_load_file_sys Sys.ok xmlReadFile erange xmlapi file
      = ourfa_xmlapi_load_file xmlReadFile erange xmlapi file := by
  unfold ourfa_xmlapi_load_file_sys ourfa_xmlapi_load_file
  cases xmlapi.file with
  | some _ => rfl
  | none =>
    have h1 : Sys.ok.strdup_ok = true := rfl
    have h2 : Sys.ok.hash_create_ok = true := rfl
    simp only [h1, h2, Bool.true_eq_false, if_false]
    split
    · rfl
    · split
      · split
        · rfl
        · rw [load_functions_sys_ok]
          cases load_functions _ _ _ _ <;> rfl
      · rfl

/-- C15: when the container already has a file name, `ourfa_xmlapi_load_file`
with any path returns what the callback answers to OTHER, which is OTHER for a
callback that returns the kind it is given, and the container is the one it
was: same file name, same table, same functions. -/
theorem second_load_refused (xmlReadFile : String → Option XmlNode) (erange : Bool)
    (xmlapi : XmlApi) (file : Option String) (loaded : String)
    (hloaded : xmlapi.file = some loaded)
    (hid : ∀ k, xmlapi.printf_err k = k) :
    ourfa_xmlapi_load_file xmlReadFile erange xmlapi file
      = .returned OURFA_ERROR_OTHER xmlapi ∧
    ∀ sys, ourfa_xmlapi_load_file_sys sys xmlReadFile erange xmlapi file
      = .returned OURFA_ERROR_OTHER xmlapi := by
  constructor
  · unfold ourfa_xmlapi_load_file; rw [hloaded]; simp only [hid]
  · intro sys
    unfold ourfa_xmlapi_load_file_sys; rw [hloaded]; simp only [hid]

/-- C15 at the container that holds the function `ping`. -/
theorem second_load_refused_witness :
    ping_api.file = some DEFAULT_API_XML_FILE ∧ (∀ k, ping_api.printf_err k = k) ∧
    ourfa_xmlapi_load_file (fun _ => some empty_name_doc) false ping_api (some "other.xml")
      = .returned OURFA_ERROR_OTHER ping_api :=
  ⟨rfl, fun _ => rfl,
   (second_load_refused (fun _ => some empty_name_doc) false ping_api (some "other.xml")
      DEFAULT_API_XML_FILE rfl (fun _ => rfl)).1⟩



theorem lookup_update_self (t : FuncTable) (n : String) (f : Func) :
    xmlHashLookup (xmlHashUpdateEntry t n f) n = some f := by
  induction t with
  | nil => simp [xmlHashUpdateEntry, xmlHashLookup]
  | cons e t ih =>
    obtain ⟨k, v⟩ := e
    simp only [xmlHashUpdateEntry]
    split
    · simp [xmlHashLookup]
    · rename_i hk
      simp only [xmlHashLookup, hk, if_false]
      exact ih

theorem lookup_update_ne (t : FuncTable) (n m : String) (f : Func) (h : n ≠ m) :
    xmlHashLookup (xmlHashUpdateEntry t n f) m = xmlHashLookup t m := by
  induction t with
  | nil => simp [xmlHashUpdateEntry, xmlHashLookup, h]
  | cons e t ih =>
    obtain ⟨k, v⟩ := e
    simp only [xmlHashUpdateEntry]
    split
    · rename_i hk
      subst hk
      simp [xmlHashLookup, h]
    · rename_i hk
      simp only [xmlHashLookup]
      split
      · rfl
      · exact ih

theorem load_functions_total (err_f : ErrF) : ∀ (xs : XmlNode) (table : FuncTable) (e : Bool),
    load_functions err_f xs table e ≠ .out_of_fuel := by
  intro xs
  induction xs with
  | nil => intro table e h; simp only [load_functions] at h; cases h
  | other next ih => intro table e; exact ih table e
  | element name attrs children next _ ih =>
    intro table e
    simp only [load_functions]
    split
    · exact ih _ _
    · split
      · exact ih _ _
      · split
        · exact ih _ _
        · split
          · exact ih _ _
          · split
            · exact ih _ _
            · split
              · exact ih _ _
              · intro h; cases h
              · rename_i h; exact absurd h (load_func_def_general err_f _).1
              · split
                · exact ih _ _
                · intro h; cases h
                · rename_i h; exact absurd h (load_func_def_general err_f _).1
                · exact ih _ _

theorem char_at_zero_none (s : String) : char_at s 0 = none ↔ s.data = [] := by
  unfold char_at
  cases s.data <;> simp

theorem load_functions_table (err_f : ErrF) : ∀ (xs : XmlNode) (table T : FuncTable),
    IdsInRange xs → load_functions err_f xs table false = .done T →
    ∀ n, xmlHashLookup T n =
      match last_well_formed err_f n xs with
      | some f => some f
      | none => xmlHashLookup table n := by
  intro xs
  induction xs with
  | nil =>
    intro table T _ h n
    simp only [load_functions] at h
    cases h
    rfl
  | other next ih => intro table T hr h n; exact ih table T hr h n
  | element name attrs children next _ ih =>
    intro table T hr h n
    obtain ⟨hr1, hr2⟩ := hr
    simp only [load_functions] at h
    simp only [last_well_formed]
    -- the value for `n` when the element is skipped
    have skip : load_functions err_f next table false = .done T →
        (xmlStrcasecmp name.data "function".data = 0 → func_of err_f attrs children = none) →
        xmlHashLookup T n =
          match
            (match last_well_formed err_f n next with
              | some f => some f
              | none =>
                if xmlStrcasecmp name.data "function".data = 0 then
                  match func_of err_f attrs children with
                  | some (n1, f) => if n1 = n then some f else none
                  | none => none
                else none) with
          | some f => some f
          | none => xmlHashLookup table n := by
      intro h1 h2
      rw [ih table T hr2 h1 n]
      cases last_well_formed err_f n next with
      | some f => rfl
      | none =>
        simp only []
        by_cases hf : xmlStrcasecmp name.data "function".data = 0
        · rw [if_pos hf, h2 hf]
        · rw [if_neg hf]
    by_cases hf : xmlStrcasecmp name.data "function".data = 0
    swap
    · rw [if_pos hf] at h
      exact skip h (fun h0 => absurd h0 hf)
    rw [if_neg (not_not.2 hf)] at h
    cases hname : xmlGetProp attrs "name" with
    | none =>
      rw [hname] at h
      exact skip h (fun _ => by unfold func_of; rw [hname])
    | some fname =>
      rw [hname] at h
      simp only [] at h
      cases hid : xmlGetProp attrs "id" with
      | none =>
        rw [hid] at h
        exact skip h (fun _ => by unfold func_of; rw [hname, hid])
      | some fid =>
        rw [hid] at h
        simp only [] at h
        have hrange := hr1 hf fid hid
        rw [hrange] at h
        simp only [Bool.or_false, Bool.false_eq_true, or_false] at h
        by_cases hempty : char_at fid 0 = none
        · rw [if_pos hempty] at h
          exact skip h (fun _ => by
            unfold func_of
            rw [hname, hid]
            simp only []
            rw [if_pos (Or.inl ((char_at_zero_none fid).1 hempty))])
        rw [if_neg hempty] at h
        by_cases hend : (strtol fid.data 0).endptr = []
        swap
        · rw [if_pos hend] at h
          exact skip h (fun _ => by
            unfold func_of
            rw [hname, hid]
            simp only []
            rw [if_pos (Or.inr (Or.inl hend))])
        rw [if_neg (not_not.2 hend)] at h
        have hcond : ¬ (fid.data = [] ∨ (strtol fid.data 0).endptr ≠ []
            ∨ (strtol fid.data 0).erange = true) := by
          rintro (h1 | h1 | h1)
          · exact hempty ((char_at_zero_none fid).2 h1)
          · exact h1 hend
          · rw [hrange] at h1; cases h1
        have hfo : func_of err_f attrs children =
            match load_func_def err_f (find_in_out children (.nil, .nil)).1,
                  load_func_def err_f (find_in_out children (.nil, .nil)).2 with
            | .tree f_in, .tree f_out =>
              some (fname, { name := fname, id := long_to_int (strtol fid.data 0).value,
                             in_ := f_in, out := f_out })
            | _, _ => none := by
          unfold func_of
          rw [hname, hid]
          simp only []
          rw [if_neg hcond]
        cases hin : load_func_def err_f (find_in_out children (.nil, .nil)).1 with
        | null =>
          rw [hin] at h hfo
          exact skip h (fun _ => hfo)
        | abort => rw [hin] at h; cases h
        | out_of_fuel => rw [hin] at h; cases h
        | tree f_in =>
          rw [hin] at h hfo
          simp only [] at h hfo
          cases hout : load_func_def err_f (find_in_out children (.nil, .nil)).2 with
          | null =>
            rw [hout] at h hfo
            exact skip h (fun _ => hfo)
          | abort => rw [hout] at h; cases h
          | out_of_fuel => rw [hout] at h; cases h
          | tree f_out =>
            rw [hout] at h hfo
            simp only [] at h hfo
            rw [ih _ T hr2 h n]
            cases last_well_formed err_f n next with
            | some f => rfl
            | none =>
              simp only []
              rw [if_pos hf, hfo]
              simp only []
              by_cases hn : fname = n
              · subst hn
                rw [if_pos rfl, lookup_update_self]
              · rw [if_neg hn, lookup_update_ne _ _ _ _ hn]



theorem load_functions_skip_malformed (err_f : ErrF) (name : String)
    (attrs : List (String × String)) (children next : XmlNode) (table : FuncTable) (e : Bool)
    (h : Malformed err_f attrs children) :
    load_functions err_f (.element name attrs children next) table e = .abort
      ∨ ∃ e1, load_functions err_f (.element name attrs children next) table e
          = load_functions err_f next table e1 := by
  simp only [load_functions]
  split
  · exact Or.inr ⟨_, rfl⟩
  · split
    · exact Or.inr ⟨_, rfl⟩
    · rename_i fname hname
      split
      · exact Or.inr ⟨_, rfl⟩
      · rename_i fid hid
        split
        · exact Or.inr ⟨_, rfl⟩
        · rename_i hempty
          split
          · exact Or.inr ⟨_, rfl⟩
          · rename_i hcond
            have hin := (load_func_def_general err_f (find_in_out children (.nil, .nil)).1).1
            have hout := (load_func_def_general err_f (find_in_out children (.nil, .nil)).2).1
            cases h1 : load_func_def err_f (find_in_out children (.nil, .nil)).1 with
            | null => exact Or.inr ⟨_, rfl⟩
            | abort => exact Or.inl rfl
            | out_of_fuel => exact absurd h1 hin
            | tree f_in =>
              simp only []
              cases h2 : load_func_def err_f (find_in_out children (.nil, .nil)).2 with
              | null => exact Or.inr ⟨_, rfl⟩
              | abort => exact Or.inl rfl
              | out_of_fuel => exact absurd h2 hout
              | tree f_out =>
                exfalso
                rcases h with h | h | ⟨id, h, h3⟩ | h | h
                · rw [hname] at h; cases h
                · rw [hid] at h; cases h
                · rw [hid] at h; cases h
                  rcases h3 with h3 | h3
                  · exact hempty ((char_at_zero_none fid).2 h3)
                  · exact hcond (Or.inl h3)
                · rw [h1] at h; cases h
                · rw [h2] at h; cases h

/-- C12, as stated, fails: in `<urfa><function name="f" id="1"/>
<function name="f" id="2"/><function name="g"/></urfa>` the last element has
no id, the load returns OK, and the first element, which is well formed (its
function is `f` with id 1), is not in the table: the lookup of `f` returns the
function with id 2. -/
theorem earlier_duplicate_not_present :
    ourfa_xmlapi_load_file (fun _ => some duplicate_doc) false (ourfa_xmlapi_new id) none
      = .returned OURFA_OK duplicate_api ∧
    func_of id [("name", "f"), ("id", "1")] .nil = some ("f", bare_func "f" 1) ∧
    ourfa_xmlapi_func duplicate_api "f" = some (bare_func "f" 2) ∧
    (∀ name, ourfa_xmlapi_func duplicate_api name ≠ some (bare_func "f" 1)) := by
  refine ⟨by rfl, by decide, by decide, ?_⟩
  intro name h
  unfold ourfa_xmlapi_func duplicate_api at h
  simp only [xmlHashLookup] at h
  split at h
  · revert h; decide
  · cases h

/-- C12 (amended): per-function problems are non-fatal.  A `function` element
with no `name`, no or an empty `id`, an `id` with characters left over, or a
body for which `load_func_def` returns `NULL` adds nothing to the table: the
loop goes on with the table unchanged (unless the process is stopped).  For a
readable document whose root is `urfa`, loaded into a container without a
file, with `errno` not `ERANGE` on entry and no id out of the range of `long`,
the load returns OK unless the process is stopped, and the table then holds,
for every name, the function of the last well-formed element with that name,
and nothing else. -/
theorem per_function_problems (err_f : ErrF) :
    (∀ name attrs children next table e, Malformed err_f attrs children →
      load_functions err_f (.element name attrs children next) table e = .abort
        ∨ ∃ e1, load_functions err_f (.element name attrs children next) table e
            = load_functions err_f next table e1) ∧
    (∀ (xmlReadFile : String → Option XmlNode) (file : Option String)
      (file0 : Option String) (table0 : Option FuncTable) doc rname rattrs children rnext,
      file0 = none → xmlReadFile (load_path file) = some doc →
      xmlDocGetRootElement doc = .element rname rattrs children rnext →
      xmlStrcasecmp rname.data "urfa".data = 0 → IdsInRange children →
      ourfa_xmlapi_load_file xmlReadFile false
          { file := file0, func_by_name := table0, printf_err := err_f } file = .abort
        ∨ ∃ T, ourfa_xmlapi_load_file xmlReadFile false
              { file := file0, func_by_name := table0, printf_err := err_f } file
            = .returned OURFA_OK
                { file := some (load_path file), func_by_name := some T, printf_err := err_f }
          ∧ ∀ n, xmlHashLookup T n = last_well_formed err_f n children) := by
  refine ⟨fun name attrs children next table e h =>
    load_functions_skip_malformed err_f name attrs children next table e h, ?_⟩
  intro X file file0 table0 doc rname rattrs children rnext hfresh hread hroot hurfa hrange
  subst hfresh
  have hload : ourfa_xmlapi_load_file X false
        { file := none, func_by_name := table0, printf_err := err_f } file =
      match load_functions err_f children [] false with
      | .done table =>
        load_file_end OURFA_OK
          { file := some (load_path file), func_by_name := some table, printf_err := err_f }
      | .abort => .abort
      | .out_of_fuel => .out_of_fuel := by
    unfold ourfa_xmlapi_load_file
    unfold load_path at hread
    simp only [hread, hroot, hurfa, ne_eq, not_true_eq_false, if_false]
    rfl
  rw [hload]
  cases hl : load_functions err_f children [] false with
  | done T =>
    right
    refine ⟨T, rfl, fun n => ?_⟩
    rw [load_functions_table err_f children [] T hrange hl n]
    cases last_well_formed err_f n children <;> rfl
  | abort => exact Or.inl rfl
  | out_of_fuel => exact absurd hl (load_functions_total err_f children [] false)

/-- C12 (amended) at the document with two elements `f` and an element `g`
without id. -/
theorem per_function_problems_witness :
    Malformed id [("name", "g")] .nil ∧
    (load_functions id (.element "function" [("name", "g")] .nil .nil) [] false = .abort
      ∨ ∃ e1, load_functions id (.element "function" [("name", "g")] .nil .nil) [] false
          = load_functions id .nil [] e1) ∧
    IdsInRange duplicate_functions ∧
    (ourfa_xmlapi_load_file (fun _ => some duplicate_doc) false
        { file := none, func_by_name := none, printf_err := id } none = .abort
      ∨ ∃ T, ourfa_xmlapi_load_file (fun _ => some duplicate_doc) false
            { file := none, func_by_name := none, printf_err := id } none
          = .returned OURFA_OK
              { file := some (load_path none), func_by_name := some T, printf_err := id }
        ∧ ∀ n, xmlHashLookup T n = last_well_formed id n duplicate_functions) := by
  have hm : Malformed id [("name", "g")] .nil := Or.inr (Or.inl rfl)
  have hr : IdsInRange duplicate_functions := by
    refine ⟨fun _ i hi => ?_, fun _ i hi => ?_, fun _ i hi => ?_, trivial⟩
    · cases hi; decide
    · cases hi; decide
    · cases hi
  exact ⟨hm, (per_function_problems id).1 "function" [("name", "g")] .nil .nil [] false hm, hr,
    (per_function_problems id).2 (fun _ => some duplicate_doc) none none none duplicate_doc
      "urfa" [] duplicate_functions .nil rfl rfl rfl (by decide) hr⟩



theorem find_in_out_no_input : ∀ (xs : XmlNode) (acc : XmlNode × XmlNode),
    NoChildNamed "input" xs → (find_in_out xs acc).1 = acc.1 := by
  intro xs
  induction xs with
  | nil => intro acc _; rfl
  | other next ih => intro acc h; exact ih acc h
  | element name attrs children next _ ih =>
    intro acc h
    simp only [find_in_out]
    rw [if_neg h.1]
    split
    · exact ih _ h.2
    · exact ih _ h.2

theorem find_in_out_no_output : ∀ (xs : XmlNode) (acc : XmlNode × XmlNode),
    NoChildNamed "output" xs → (find_in_out xs acc).2 = acc.2 := by
  intro xs
  induction xs with
  | nil => intro acc _; rfl
  | other next ih => intro acc h; exact ih acc h
  | element name attrs children next _ ih =>
    intro acc h
    simp only [find_in_out]
    split
    · exact ih _ h.2
    · rw [if_neg h.1]
      exact ih _ h.2

theorem have_child_of_tree (err_f : ErrF) (x : XmlNode) (nodes : List FuncNode)
    (h : load_func_def err_f x = .tree nodes) :
    (¬ HasElement x.children → nodes = [root_node]) ∧
    ((match nodes[0]? with
      | none => (0 : Int)
      | some root => if root.children = none then 0 else 1) = 1 ↔ HasElement x.children) := by
  obtain ⟨_, h1, h2⟩ := load_func_def_general err_f x
  by_cases hel : HasElement x.children
  · obtain ⟨r, j, hr, _, hj⟩ := h2 hel nodes h
    refine ⟨fun hn => absurd hel hn, ?_⟩
    rw [hr]
    simp [hj, hel]
  · have := h1 hel
    rw [h] at this
    cases this
    refine ⟨fun _ => rfl, ?_⟩
    simp [root_node, hel]

theorem load_functions_step (err_f : ErrF) (name : String) (attrs : List (String × String))
    (children next : XmlNode) (table : FuncTable) (e : Bool) :
    load_functions err_f (.element name attrs children next) table e = .abort
    ∨ (∃ e1, load_functions err_f (.element name attrs children next) table e
          = load_functions err_f next table e1)
    ∨ ∃ e1 n f, load_functions err_f (.element name attrs children next) table e
          = load_functions err_f next (xmlHashUpdateEntry table n f) e1 ∧
        xmlGetProp attrs "name" = some n ∧ f.name = n ∧
        load_func_def err_f (find_in_out children (.nil, .nil)).1 = .tree f.in_ ∧
        load_func_def err_f (find_in_out children (.nil, .nil)).2 = .tree f.out := by
  simp only [load_functions]
  split
  · exact Or.inr (Or.inl ⟨_, rfl⟩)
  · cases hn : xmlGetProp attrs "name" with
    | none => exact Or.inr (Or.inl ⟨_, rfl⟩)
    | some fname =>
      simp only []
      cases hi : xmlGetProp attrs "id" with
      | none => exact Or.inr (Or.inl ⟨_, rfl⟩)
      | some fid =>
        simp only []
        split
        · exact Or.inr (Or.inl ⟨_, rfl⟩)
        · split
          · exact Or.inr (Or.inl ⟨_, rfl⟩)
          · have hin := (load_func_def_general err_f (find_in_out children (.nil, .nil)).1).1
            have hout := (load_func_def_general err_f (find_in_out children (.nil, .nil)).2).1
            cases h1 : load_func_def err_f (find_in_out children (.nil, .nil)).1 with
            | null => exact Or.inr (Or.inl ⟨_, rfl⟩)
            | abort => exact Or.inl rfl
            | out_of_fuel => exact absurd h1 hin
            | tree f_in =>
              simp only []
              cases h2 : load_func_def err_f (find_in_out children (.nil, .nil)).2 with
              | null => exact Or.inr (Or.inl ⟨_, rfl⟩)
              | abort => exact Or.inl rfl
              | out_of_fuel => exact absurd h2 hout
              | tree f_out => exact Or.inr (Or.inr ⟨_, _, _, rfl, rfl, rfl, rfl, rfl⟩)

/-- C14: whatever the callback answers, `load_func_def` for a missing element
(no `input`, or no `output`, child) or for one without element children
returns the ROOT node alone, with no children, no parent and no next sibling;
and for every function the loader stores, `ourfa_xmlapi_f_have_input`
(`ourfa_xmlapi_f_have_output`) is 1 exactly when the `input` (`output`)
element the loader used has an element child, and 0 otherwise, the tree being
the root alone in that case. -/
theorem empty_body_is_root (err_f : ErrF) :
    (∀ x, ¬ HasElement x.children →
      load_func_def err_f x
        = .tree [{ type := .ROOT, parent := none, next := none, children := none,
                   n := .empty }]) ∧
    (∀ children, NoChildNamed "input" children →
      (find_in_out children (.nil, .nil)).1 = .nil) ∧
    (∀ children, NoChildNamed "output" children →
      (find_in_out children (.nil, .nil)).2 = .nil) ∧
    (∀ name attrs children next table e,
      load_functions err_f (.element name attrs children next) table e = .abort
      ∨ (∃ e1, load_functions err_f (.element name attrs children next) table e
            = load_functions err_f next table e1)
      ∨ ∃ e1 n f, load_functions err_f (.element name attrs children next) table e
            = load_functions err_f next (xmlHashUpdateEntry table n f) e1 ∧
          (¬ HasElement (find_in_out children (.nil, .nil)).1.children → f.in_ = [root_node]) ∧
          (¬ HasElement (find_in_out children (.nil, .nil)).2.children → f.out = [root_node]) ∧
          (ourfa_xmlapi_f_have_input (some f) = 1
            ↔ HasElement (find_in_out children (.nil, .nil)).1.children) ∧
          (ourfa_xmlapi_f_have_input (some f) = 0
            ↔ ¬ HasElement (find_in_out children (.nil, .nil)).1.children) ∧
          (ourfa_xmlapi_f_have_output (some f) = 1
            ↔ HasElement (find_in_out children (.nil, .nil)).2.children) ∧
          (ourfa_xmlapi_f_have_output (some f) = 0
            ↔ ¬ HasElement (find_in_out children (.nil, .nil)).2.children)) := by
  refine ⟨fun x h => (load_func_def_general err_f x).2.1 h,
    fun children h => find_in_out_no_input children _ h,
    fun children h => find_in_out_no_output children _ h, ?_⟩
  intro name attrs children next table e
  rcases load_functions_step err_f name attrs children next table e with
    h | h | ⟨e1, n, f, h, _, _, hin, hout⟩
  · exact Or.inl h
  · exact Or.inr (Or.inl h)
  · right; right
    obtain ⟨hi1, hi2⟩ := have_child_of_tree err_f _ _ hin
    obtain ⟨ho1, ho2⟩ := have_child_of_tree err_f _ _ hout
    have zero_iff : ∀ (l : List FuncNode) (P : Prop),
        ((match l[0]? with
          | none => (0 : Int)
          | some root => if root.children = none then 0 else 1) = 1 ↔ P) →
        ((match l[0]? with
          | none => (0 : Int)
          | some root => if root.children = none then 0 else 1) = 0 ↔ ¬ P) := by
      intro l P hP
      rw [← hP]
      cases l[0]? with
      | none => simp
      | some root =>
        simp only []
        split <;> simp
    exact ⟨e1, n, f, h, hi1, ho1, hi2, zero_iff _ _ hi2, ho2, zero_iff _ _ ho2⟩

/-- C14 at a function with an `input` that holds white space only and an
`output` with one element. -/
theorem empty_body_is_root_witness :
    ¬ HasElement (XmlNode.element "input" [] (.other .nil) .nil).children ∧
    load_func_def id (.element "input" [] (.other .nil) .nil)
      = .tree [{ type := .ROOT, parent := none, next := none, children := none, n := .empty }] ∧
    NoChildNamed "input" .nil ∧ (find_in_out .nil (.nil, .nil)).1 = .nil ∧
    (load_functions id ping_with_output [] false = .abort
      ∨ (∃ e1, load_functions id ping_with_output [] false = load_functions id .nil [] e1)
      ∨ ∃ e1 n f, load_functions id ping_with_output [] false
            = load_functions id .nil (xmlHashUpdateEntry [] n f) e1 ∧
          (ourfa_xmlapi_f_have_input (some f) = 0) ∧ (ourfa_xmlapi_f_have_output (some f) = 1)) := by
  refine ⟨fun h => h, (empty_body_is_root id).1 _ (fun h => h), trivial,
    (empty_body_is_root id).2.1 .nil trivial, ?_⟩
  rcases (empty_body_is_root id).2.2.2 "function" [("name", "ping"), ("id", "1")]
      (.element "input" [] (.other .nil)
        (.element "output" [] (.element "integer" [("name", "x")] .nil .nil) .nil)) .nil [] false
    with h | h | ⟨e1, n, f, h, _, _, _, h4, h5, _⟩
  · exact Or.inl h
  · exact Or.inr (Or.inl h)
  · exact Or.inr (Or.inr ⟨e1, n, f, h, h4.2 (fun hh => hh), h5.2 trivial⟩)



theorem make_node_rejected (err_f : ErrF) (hid : ∀ k, err_f k = k) (name : String)
    (attrs : List (String × String)) (h : RejectedKind (ourfa_xmlapi_node_type_by_name name))
    (ast : Ast) (node : FuncNode) : make_node err_f name attrs ast ≠ .done OURFA_OK node := by
  unfold RejectedKind at h
  unfold make_node
  simp only []
  generalize ourfa_xmlapi_node_type_by_name name = t at h
  rcases h with h | h | h | h | h | h | h <;> subst h <;> simp only [] <;>
    (intro hc; injection hc with h1 _; rw [hid] at h1; exact other_ne_ok h1)

theorem rejectedKind_of_name (name : String) (h : ReservedName name ∨ NotInTable name) :
    RejectedKind (ourfa_xmlapi_node_type_by_name name) := by
  have key : ∀ k n, (k, n) ∈ node_types → eqIgnoreCase name n →
      ourfa_xmlapi_node_type_by_name name = k := by
    intro k n hmem hcase
    unfold ourfa_xmlapi_node_type_by_name
    rw [node_type_by_name_loop_congr hcase]
    exact node_types_lookup k n hmem
  unfold RejectedKind
  rcases h with h | ⟨hs, hno⟩
  · rcases h with h | h | h | h | h | h
    · exact Or.inl (key _ _ (by decide) h)
    · exact Or.inr (Or.inl (key _ _ (by decide) h))
    · exact Or.inr (Or.inr (Or.inl (key _ _ (by decide) h)))
    · exact Or.inr (Or.inr (Or.inr (Or.inl (key _ _ (by decide) h))))
    · exact Or.inr (Or.inr (Or.inr (Or.inr (Or.inl (key _ _ (by decide) h)))))
    · exact Or.inr (Or.inr (Or.inr (Or.inr (Or.inr (Or.inl (key _ _ (by decide) h))))))
  · refine Or.inr (Or.inr (Or.inr (Or.inr (Or.inr (Or.inr ?_)))))
    apply node_type_by_name_loop_unknown
    intro e he hz
    exact hno e he (forall₂_of_xmlStrcasecmp_eq_zero _ _ (node_types_no_nul e he) hs hz)

theorem not_rejected_of_nodeOk (nd : FuncNode) (h : NodeOk nd) : ¬ RejectedKind nd.type := by
  unfold NodeOk at h
  unfold RejectedKind
  intro hr
  rcases hr with hr | hr | hr | hr | hr | hr | hr <;> rw [hr] at h <;> exact h

/-- C17, as stated, fails: with a callback that answers `OURFA_OK`, the body
`<input><call function="f"/></input>`, in which the walk reaches the element
`call`, builds a tree with a CALL node below the root, and the function that
has this body is stored. -/
theorem reserved_tag_can_build :
    Visited "call" [("function", "f")] call_body.children ∧ ReservedName "call" ∧
    load_func_def err_f_ok call_body
      = .tree [{ type := .ROOT, parent := none, next := none, children := some 1, n := .empty },
               { type := .CALL, parent := some 0, next := none, children := none,
                 n := .empty }] ∧
    ∃ f, load_functions err_f_ok (function_with_call .nil) [] false = .done [("f", f)] := by
  refine ⟨Or.inl ⟨rfl, rfl⟩, Or.inl ?_, by decide, _, rfl⟩
  unfold eqIgnoreCase
  refine List.Forall₂.cons ?_ (List.Forall₂.cons ?_ (List.Forall₂.cons ?_
    (List.Forall₂.cons ?_ List.Forall₂.nil))) <;> exact Or.inl rfl

/-- C17 (amended): with an error callback that returns the kind it is given,
an element named call, parameter, message, shift, remove or ROOT in any letter
case, or with a name that is not in the table `node_types`, has a kind without
a case in `load_func_def`; a body in which the walk reaches an element of such
a kind yields no tree (`load_func_def` returns `NULL` or is stopped by the
assertion of its cleanup), so the function whose `input` or `output` it is is
not stored; and no node after the root of a tree returned has the kind CALL,
PARAMETER, MESSAGE, SHIFT, REMOVE, ROOT or UNKNOWN. -/
theorem reserved_tags_rejected (err_f : ErrF) (hid : ∀ k, err_f k = k) :
    (∀ name, ReservedName name ∨ NotInTable name →
      RejectedKind (ourfa_xmlapi_node_type_by_name name)) ∧
    (∀ xml_root name attrs, Visited name attrs xml_root.children →
      RejectedKind (ourfa_xmlapi_node_type_by_name name) →
      load_func_def err_f xml_root = .null ∨ load_func_def err_f xml_root = .abort) ∧
    (∀ fname fattrs fchildren next table erange name attrs,
      (Visited name attrs (find_in_out fchildren (.nil, .nil)).1.children
        ∨ Visited name attrs (find_in_out fchildren (.nil, .nil)).2.children) →
      RejectedKind (ourfa_xmlapi_node_type_by_name name) →
      load_functions err_f (.element fname fattrs fchildren next) table erange = .abort
        ∨ ∃ erange1, load_functions err_f (.element fname fattrs fchildren next) table erange
            = load_functions err_f next table erange1) ∧
    (∀ xml_root nodes, load_func_def err_f xml_root = .tree nodes →
      ∀ i nd, nodes[i]? = some nd → 0 < i → ¬ RejectedKind nd.type) := by
  have fails : ∀ xml_root name attrs, Visited name attrs xml_root.children →
      RejectedKind (ourfa_xmlapi_node_type_by_name name) →
      load_func_def err_f xml_root = .null ∨ load_func_def err_f xml_root = .abort := by
    intro xml_root name attrs hv hr
    rcases load_func_def_cases err_f hid xml_root with ⟨nodes, r, _, _, _, _, hall⟩ | h | h
    · obtain ⟨ast, node, hmk⟩ := hall name attrs hv
      exact absurd hmk (make_node_rejected err_f hid name attrs hr ast node)
    · exact Or.inl h
    · exact Or.inr h
  refine ⟨rejectedKind_of_name, fails, ?_, ?_⟩
  · intro fname fattrs fchildren next table erange name attrs hv hr
    apply load_functions_skips err_f hid
    rcases hv with hv | hv
    · exact Or.inl (fails _ name attrs hv hr)
    · exact Or.inr (fails _ name attrs hv hr)
  · intro xml_root nodes h i nd hi hpos
    rcases load_func_def_cases err_f hid xml_root with ⟨nodes', r, h1, hI, _⟩ | h' | h'
    · rw [h1] at h; cases h
      exact not_rejected_of_nodeOk nd (hI.2.2 i nd hi hpos)
    · rw [h'] at h; cases h
    · rw [h'] at h; cases h

/-- C17 (amended) at the body `<input><Shift name="a"/></input>` and at the
tree of the sample body. -/
theorem reserved_tags_rejected_witness :
    (∀ k, (id : ErrF) k = k) ∧ RejectedKind (ourfa_xmlapi_node_type_by_name "Shift") ∧
    Visited "Shift" [("name", "a")] shift_body.children ∧
    (load_func_def id shift_body = .null ∨ load_func_def id shift_body = .abort) ∧
    (∀ i nd, sample_nodes[i]? = some nd → 0 < i → ¬ RejectedKind nd.type) :=
  ⟨fun _ => rfl, Or.inr (Or.inr (Or.inr (Or.inl (by decide)))), Or.inl ⟨rfl, rfl⟩,
   (reserved_tags_rejected id (fun _ => rfl)).2.1 shift_body "Shift" [("name", "a")]
     (Or.inl ⟨rfl, rfl⟩) (Or.inr (Or.inr (Or.inr (Or.inl (by decide))))),
   (reserved_tags_rejected id (fun _ => rfl)).2.2.2 sample_body sample_nodes (by decide)⟩



theorem digit_value_ten (c : Char) :
    (∃ d, digit_value c = some d ∧ d < 10) ↔ is_decimal_digit c = true := by
  unfold digit_value is_decimal_digit
  constructor
  · rintro ⟨d, h, hd⟩
    split at h
    · simp; omega
    · split at h
      · cases h; omega
      · split at h
        · cases h; omega
        · cases h
  · intro h
    simp at h
    exact ⟨c.toNat - 48, by rw [if_pos h], by omega⟩

theorem digit_value_ten_eq (c : Char) (h : is_decimal_digit c = true) :
    digit_value c = some (c.toNat - 48) := by
  unfold is_decimal_digit at h
  simp at h
  unfold digit_value
  rw [if_pos h]

theorem strtol_digits_all : ∀ (s : List Char) (acc cnt : Nat),
    s.all is_decimal_digit = true →
    strtol_digits 10 s acc cnt
      = (s.foldl (fun acc c => acc * 10 + (c.toNat - 48)) acc, cnt + s.length, []) := by
  intro s
  induction s with
  | nil => intro acc cnt _; rfl
  | cons c cs ih =>
    intro acc cnt h
    simp only [List.all_cons, Bool.and_eq_true] at h
    have hd := digit_value_ten_eq c h.1
    have hlt : c.toNat - 48 < 10 := by
      have := h.1; unfold is_decimal_digit at this; simp at this; omega
    simp only [strtol_digits, hd, if_pos hlt, List.foldl_cons, List.length_cons]
    rw [ih _ _ h.2]
    congr 2
    omega

theorem strtol_digits_rest : ∀ (s : List Char) (acc cnt : Nat),
    s.all is_decimal_digit = false → (strtol_digits 10 s acc cnt).2.2 ≠ [] := by
  intro s
  induction s with
  | nil => intro acc cnt h; simp at h
  | cons c cs ih =>
    intro acc cnt h
    simp only [strtol_digits]
    cases hdv : digit_value c with
    | none => simp
    | some d =>
      simp only []
      by_cases hlt : d < 10
      · rw [if_pos hlt]
        have hc := (digit_value_ten c).1 ⟨d, hdv, hlt⟩
        apply ih
        simp only [List.all_cons, hc, Bool.true_and] at h
        exact h
      · rw [if_neg hlt]; simp

theorem strtol_digits_count : ∀ (s : List Char) (acc cnt : Nat),
    cnt ≤ (strtol_digits 10 s acc cnt).2.1 := by
  intro s
  induction s with
  | nil => intro acc cnt; exact Nat.le_refl _
  | cons c cs ih =>
    intro acc cnt
    simp only [strtol_digits]
    cases hdv : digit_value c with
    | none => exact Nat.le_refl _
    | some d =>
      simp only []
      by_cases hlt : d < 10
      · rw [if_pos hlt]; exact Nat.le_trans (Nat.le_succ _) (ih _ _)
      · rw [if_neg hlt]

theorem strtol_ten_body (neg : Bool) (nptr s : List Char) :
    (match (match s with
        | '0' :: x :: t => if (x = 'x' ∨ x = 'X') ∧ ((10 : Nat) = 0 ∨ (10 : Nat) = 16) then some t else none
        | _ => none : Option (List Char)) with
      | some t =>
        match strtol_digits 16 t 0 0 with
        | (_, 0, _) => (⟨0, s.drop 1, false⟩ : StrtolResult)
        | (n, _, rest) => strtol_clamp neg n rest
      | none =>
        let b := if (10 : Nat) = 0 then (match s with | '0' :: _ => 8 | _ => 10) else 10
        match strtol_digits b s 0 0 with
        | (_, 0, _) => ⟨0, nptr, false⟩
        | (n, _, rest) => strtol_clamp neg n rest)
    = if (strtol_digits 10 s 0 0).2.1 = 0 then ⟨0, nptr, false⟩
      else strtol_clamp neg (strtol_digits 10 s 0 0).1 (strtol_digits 10 s 0 0).2.2 := by
  have h1 : (match s with
        | '0' :: x :: t => if (x = 'x' ∨ x = 'X') ∧ ((10 : Nat) = 0 ∨ (10 : Nat) = 16) then some t else none
        | _ => none : Option (List Char)) = none := by
    split
    · simp
    · rfl
  rw [h1]
  simp only [Nat.reduceEqDiff, OfNat.ofNat_ne_zero, if_false]
  rcases hsd : strtol_digits 10 s 0 0 with ⟨n, cnt, rest⟩
  cases cnt with
  | zero => simp
  | succ k => simp

theorem strtol_clamp_endptr (neg : Bool) (n : Nat) (rest : List Char) :
    (strtol_clamp neg n rest).endptr = rest := by
  unfold strtol_clamp
  split <;> split <;> rfl

theorem strtol_clamp_value (neg : Bool) (n : Nat) (rest : List Char) :
    (strtol_clamp neg n rest).value = clamp_long (if neg then -(n : Int) else (n : Int)) := by
  unfold strtol_clamp clamp_long LONG_MAX LONG_MIN
  cases neg
  · simp only [Bool.false_eq_true, if_false]
    split
    · rfl
    · rw [if_neg (by omega)]
  · simp only [if_true]
    split
    · rw [if_neg (by omega), if_pos (by omega)]
    · rw [if_neg (by omega), if_neg (by omega)]

theorem strtol_after_digits (neg : Bool) (nptr u : List Char) (hu : u ≠ [])
    (hall : u.all is_decimal_digit = true) :
    (if (strtol_digits 10 u 0 0).2.1 = 0 then (⟨0, nptr, false⟩ : StrtolResult)
      else strtol_clamp neg (strtol_digits 10 u 0 0).1 (strtol_digits 10 u 0 0).2.2)
    = strtol_clamp neg (decimal_nat u) [] := by
  rw [strtol_digits_all u 0 0 hall]
  have : 0 + u.length ≠ 0 := by
    cases u with
    | nil => exact absurd rfl hu
    | cons c cs => simp
  simp only [this, if_false]
  rfl

theorem strtol_after_other (neg : Bool) (nptr u : List Char)
    (h : ¬ (u ≠ [] ∧ u.all is_decimal_digit = true)) :
    nptr = [] ∨
    (if (strtol_digits 10 u 0 0).2.1 = 0 then (⟨0, nptr, false⟩ : StrtolResult)
      else strtol_clamp neg (strtol_digits 10 u 0 0).1 (strtol_digits 10 u 0 0).2.2).endptr
      ≠ [] := by
  by_cases hn : nptr = []
  · exact Or.inl hn
  · right
    split
    · exact hn
    · rw [strtol_clamp_endptr]
      apply strtol_digits_rest
      cases hall : u.all is_decimal_digit
      · rfl
      · exfalso
        apply h
        refine ⟨?_, hall⟩
        rintro rfl
        rename_i hc
        exact hc rfl

theorem strtol_ten (nptr : List Char) :
    strtol nptr 10 =
      if (strtol_digits 10 (match nptr.dropWhile isspace with
            | '-' :: t => (true, t)
            | '+' :: t => (false, t)
            | _ => (false, nptr.dropWhile isspace)).2 0 0).2.1 = 0 then ⟨0, nptr, false⟩
      else strtol_clamp (match nptr.dropWhile isspace with
            | '-' :: t => (true, t)
            | '+' :: t => (false, t)
            | _ => (false, nptr.dropWhile isspace)).1
          (strtol_digits 10 (match nptr.dropWhile isspace with
            | '-' :: t => (true, t)
            | '+' :: t => (false, t)
            | _ => (false, nptr.dropWhile isspace)).2 0 0).1
          (strtol_digits 10 (match nptr.dropWhile isspace with
            | '-' :: t => (true, t)
            | '+' :: t => (false, t)
            | _ => (false, nptr.dropWhile isspace)).2 0 0).2.2 := by
  unfold strtol
  exact strtol_ten_body _ _ _

theorem sign_cases (s : List Char) : ∃ (neg : Bool) (u : List Char),
    (match s with
      | '-' :: t => (true, t)
      | '+' :: t => (false, t)
      | _ => (false, s)) = (neg, u) ∧
    (match s with
      | '-' :: u =>
        if u ≠ [] ∧ u.all is_decimal_digit = true then some (-(decimal_nat u : Int)) else none
      | '+' :: u =>
        if u ≠ [] ∧ u.all is_decimal_digit = true then some (decimal_nat u : Int) else none
      | u =>
        if u ≠ [] ∧ u.all is_decimal_digit = true then some (decimal_nat u : Int) else none)
    = (if u ≠ [] ∧ u.all is_decimal_digit = true
        then some (if neg then -(decimal_nat u : Int) else (decimal_nat u : Int))
        else none) ∧ (u ≠ [] → s ≠ []) := by
  rcases s with _ | ⟨a, t⟩
  · exact ⟨false, [], rfl, rfl, fun h => h⟩
  · by_cases h1 : a = '-'
    · subst h1; exact ⟨true, t, rfl, rfl, fun _ => List.cons_ne_nil _ _⟩
    · by_cases h2 : a = '+'
      · subst h2; exact ⟨false, t, rfl, rfl, fun _ => List.cons_ne_nil _ _⟩
      · refine ⟨false, a :: t, ?_, ?_, fun h => h⟩
        · split
          · rename_i heq; cases heq; exact absurd rfl h1
          · rename_i heq; cases heq; exact absurd rfl h2
          · rfl
        · split
          · rename_i heq; cases heq; exact absurd rfl h1
          · rename_i heq; cases heq; exact absurd rfl h2
          · rfl

/-- What the ERROR case tests is that the code is a decimal integer from its
first to its last character, and the value read is that integer brought into
the range of `long`. -/
theorem error_code_check (c : List Char) :
    ((c = [] ∨ (strtol c 10).endptr ≠ []) ↔ decimal_value c = none) ∧
    ∀ v, decimal_value c = some v → (strtol c 10).value = clamp_long v := by
  rw [strtol_ten]
  unfold decimal_value
  generalize hsd : c.dropWhile isspace = s
  have key : ∀ (neg : Bool) (u : List Char), (u ≠ [] → c ≠ []) →
      ((c = [] ∨ (if (strtol_digits 10 u 0 0).2.1 = 0 then (⟨0, c, false⟩ : StrtolResult)
          else strtol_clamp neg (strtol_digits 10 u 0 0).1 (strtol_digits 10 u 0 0).2.2).endptr
          ≠ []) ↔
        (if u ≠ [] ∧ u.all is_decimal_digit = true
          then some (if neg then -(decimal_nat u : Int) else (decimal_nat u : Int))
          else none) = none) ∧
      ∀ v, (if u ≠ [] ∧ u.all is_decimal_digit = true
          then some (if neg then -(decimal_nat u : Int) else (decimal_nat u : Int))
          else none) = some v →
        (if (strtol_digits 10 u 0 0).2.1 = 0 then (⟨0, c, false⟩ : StrtolResult)
          else strtol_clamp neg (strtol_digits 10 u 0 0).1 (strtol_digits 10 u 0 0).2.2).value
          = clamp_long v := by
    intro neg u hne
    by_cases h : u ≠ [] ∧ u.all is_decimal_digit = true
    · rw [if_pos h, strtol_after_digits neg c u h.1 h.2, strtol_clamp_endptr,
        strtol_clamp_value]
      refine ⟨⟨fun hc => ?_, fun hc => by cases hc⟩, fun v hv => by cases hv; rfl⟩
      rcases hc with hc | hc
      · exact absurd hc (hne h.1)
      · exact absurd rfl hc
    · rw [if_neg h]
      exact ⟨⟨fun _ => rfl, fun _ => strtol_after_other neg c u h⟩, fun v hv => by cases hv⟩
  obtain ⟨neg, u, hp, hd, hne⟩ := sign_cases s
  rw [hp, hd]
  refine key neg u (fun hu hc => hne hu ?_)
  rw [← hsd, hc]
  rfl

theorem error_attributes_eval (err_f : ErrF) (attrs : List (String × String)) (c : String)
    (hc : xmlGetProp attrs "code" = some c) :
    get_xml_attributes err_f attrs error_attributes
      = (OURFA_OK, [some c, xmlGetProp attrs "comment", xmlGetProp attrs "variable"]) := by
  simp only [get_xml_attributes, error_attributes, hc]
  cases xmlGetProp attrs "comment" <;> cases xmlGetProp attrs "variable" <;> simp

theorem load_single_error (err_f : ErrF) (rname : String) (rattrs : List (String × String))
    (rnext : XmlNode) (name : String) (attrs : List (String × String)) (c : String)
    (ht : ourfa_xmlapi_node_type_by_name name = .ERROR)
    (hc : xmlGetProp attrs "code" = some c) :
    load_func_def err_f (.element rname rattrs (.element name attrs .nil .nil) rnext) =
      if (char_at c 0 = none ∨ (strtol c.data 10).endptr ≠ [])
          ∧ err_f OURFA_ERROR_OTHER ≠ OURFA_OK then .null
      else .tree (error_tree (long_to_int (strtol c.data 10).value)
        (xmlGetProp attrs "comment") (xmlGetProp attrs "variable")) := by
  have hmk : make_node err_f name attrs { nodes := [root_node], cur_node := none } =
      .done (if char_at c 0 = none ∨ (strtol c.data 10).endptr ≠ []
              then err_f OURFA_ERROR_OTHER else OURFA_OK)
        { type := .ERROR, parent := none, next := none, children := none,
          n := .n_error (some (long_to_int (strtol c.data 10).value))
                 (xmlGetProp attrs "comment") (xmlGetProp attrs "variable") } := by
    unfold make_node
    simp only [ht, error_attributes_eval err_f attrs c hc, attr_at]
    simp only [List.getD_cons_zero, List.getD_cons_succ, if_true]
    split <;> rfl
  unfold load_func_def
  simp only [XmlNode.children, XmlNode.size]
  rw [walk_succ]
  simp only [step, hmk]
  by_cases h1 : char_at c 0 = none ∨ (strtol c.data 10).endptr ≠ []
  · by_cases h3 : err_f OURFA_ERROR_OTHER = OURFA_OK
    · simp only [h1, h3, if_true, ne_eq, not_true_eq_false, and_false, if_false]
      rfl
    · simp only [h1, h3, if_true, ne_eq, not_false_eq_true, and_true]
      rfl
  · simp only [h1, if_false, ne_eq, not_true_eq_false, false_and]
    rfl

theorem bad_code_iff (c : String) :
    (char_at c 0 = none ∨ (strtol c.data 10).endptr ≠ []) ↔ decimal_value c.data = none := by
  rw [char_at_zero_none]
  exact (error_code_check c.data).1

theorem make_node_bad_code (err_f : ErrF) (hid : ∀ k, err_f k = k) (name : String)
    (attrs : List (String × String)) (c : String)
    (ht : ourfa_xmlapi_node_type_by_name name = .ERROR)
    (hc : xmlGetProp attrs "code" = some c) (hbad : decimal_value c.data = none)
    (ast : Ast) (node : FuncNode) : make_node err_f name attrs ast ≠ .done OURFA_OK node := by
  unfold make_node
  simp only [ht, error_attributes_eval err_f attrs c hc, attr_at]
  simp only [List.getD_cons_zero, List.getD_cons_succ, if_true]
  rw [if_pos ((bad_code_iff c).2 hbad), hid]
  intro hcon; injection hcon with h5 _; exact other_ne_ok h5

theorem long_to_int_clamp (v : Int) (h1 : -(2 ^ 31) ≤ v) (h2 : v < 2 ^ 31) :
    long_to_int (clamp_long v) = v := by
  unfold long_to_int clamp_long LONG_MAX LONG_MIN
  rw [if_neg (by omega), if_neg (by omega)]
  omega

/-- C18, as stated, fails twice: with a callback that answers `OURFA_OK` the
code "12x", which is no decimal integer, builds an ERROR node with code 12;
and with the callback that keeps the kind the code "4294967297" builds a node
whose code is 1, not the integer the string denotes. -/
theorem error_code_not_the_integer :
    decimal_value "12x".data = none ∧
    load_func_def err_f_ok (error_body "12x") = .tree (error_tree 12 none none) ∧
    decimal_value "4294967297".data = some 4294967297 ∧
    load_func_def id (error_body "4294967297") = .tree (error_tree 1 none none) := by
  refine ⟨by decide, by decide, by decide, by decide⟩

/-- C18 (amended): with an error callback that returns the kind it is given,
a body that is one `error` element without children builds when the `code`
attribute is present and is, from its first to its last character, a base-10
integer in the form `strtol` reads (white space, an optional sign, one or more
decimal digits) that lies in the range of `int`, and the node's code is then
that integer.  With a code that is no such integer the build returns `NULL`;
without the attribute it returns `NULL` or is stopped; and in any body an
`error` element the walk meets with a code that is no such integer yields no
tree. -/
theorem error_code_checked (err_f : ErrF) (hid : ∀ k, err_f k = k) :
    (∀ rname rattrs rnext name attrs, ourfa_xmlapi_node_type_by_name name = .ERROR →
      (xmlGetProp attrs "code" = none →
        load_func_def err_f (.element rname rattrs (.element name attrs .nil .nil) rnext) = .null
        ∨ load_func_def err_f (.element rname rattrs (.element name attrs .nil .nil) rnext)
            = .abort) ∧
      (∀ c, xmlGetProp attrs "code" = some c → decimal_value c.data = none →
        load_func_def err_f (.element rname rattrs (.element name attrs .nil .nil) rnext)
          = .null) ∧
      (∀ c v, xmlGetProp attrs "code" = some c → decimal_value c.data = some v →
        -(2 ^ 31) ≤ v → v < 2 ^ 31 →
        load_func_def err_f (.element rname rattrs (.element name attrs .nil .nil) rnext)
          = .tree (error_tree v (xmlGetProp attrs "comment")
              (xmlGetProp attrs "variable")))) ∧
    (∀ xml_root name attrs c, Visited name attrs xml_root.children →
      ourfa_xmlapi_node_type_by_name name = .ERROR → xmlGetProp attrs "code" = some c →
      decimal_value c.data = none →
      load_func_def err_f xml_root = .null ∨ load_func_def err_f xml_root = .abort) := by
  refine ⟨?_, ?_⟩
  · intro rname rattrs rnext name attrs ht
    refine ⟨fun hnone => ?_, fun c hc hbad => ?_, fun c v hc hv h1 h2 => ?_⟩
    · rcases load_func_def_cases err_f hid
          (.element rname rattrs (.element name attrs .nil .nil) rnext)
        with ⟨nodes, r, _, _, _, _, hall⟩ | h | h
      · obtain ⟨ast, node, hmk⟩ := hall name attrs (Or.inl ⟨rfl, rfl⟩)
        refine absurd hmk (make_node_missing err_f hid name attrs ?_ ast node)
        unfold MissingRequired
        rw [ht]
        exact hnone
      · exact Or.inl h
      · exact Or.inr h
    · rw [load_single_error err_f rname rattrs rnext name attrs c ht hc,
        if_pos ⟨(bad_code_iff c).2 hbad, by rw [hid]; exact other_ne_ok⟩]
    · have hgood : ¬ (char_at c 0 = none ∨ (strtol c.data 10).endptr ≠ []) := by
        intro hb
        rw [(bad_code_iff c).1 hb] at hv
        cases hv
      rw [load_single_error err_f rname rattrs rnext name attrs c ht hc,
        if_neg (fun hb => hgood hb.1), (error_code_check c.data).2 v hv,
        long_to_int_clamp v h1 h2]
  · intro xml_root name attrs c hv ht hc hbad
    rcases load_func_def_cases err_f hid xml_root with ⟨nodes, r, _, _, _, _, hall⟩ | h | h
    · obtain ⟨ast, node, hmk⟩ := hall name attrs hv
      exact absurd hmk (make_node_bad_code err_f hid name attrs c ht hc hbad ast node)
    · exact Or.inl h
    · exact Or.inr h

/-- C18 (amended) at the codes "", "12x", "0x10" and " -42". -/
theorem error_code_checked_witness :
    (∀ k, (id : ErrF) k = k) ∧ ourfa_xmlapi_node_type_by_name "error" = .ERROR ∧
    decimal_value "".data = none ∧ load_func_def id (error_body "") = .null ∧
    decimal_value "12x".data = none ∧ load_func_def id (error_body "12x") = .null ∧
    decimal_value "0x10".data = none ∧ load_func_def id (error_body "0x10") = .null ∧
    decimal_value " -42".data = some (-42) ∧
    load_func_def id (error_body " -42") = .tree (error_tree (-42) none none) :=
  ⟨fun _ => rfl, by decide,
   by decide,
   ((error_code_checked id (fun _ => rfl)).1 "input" [] .nil "error" [("code", "")]
      (by decide)).2.1 "" rfl (by decide),
   by decide,
   ((error_code_checked id (fun _ => rfl)).1 "input" [] .nil "error" [("code", "12x")]
      (by decide)).2.1 "12x" rfl (by decide),
   by decide,
   ((error_code_checked id (fun _ => rfl)).1 "input" [] .nil "error" [("code", "0x10")]
      (by decide)).2.1 "0x10" rfl (by decide),
   by decide,
   ((error_code_checked id (fun _ => rfl)).1 "input" [] .nil "error" [("code", " -42")]
      (by decide)).2.2 " -42" (-42) rfl (by decide) (by decide) (by decide)⟩


/-- C19: for every context without a schema and every function name,
`ourfa_call` returns -1; the context afterwards differs only in its error
message, which is "XML api not loaded"; nothing is stored in `*out`; and no
collaborator is called: no `start_func_call`, no send, no receive (nothing is
taken from what the connection has to deliver). -/
theorem call_without_schema (env : CallEnv) (ourfa : ourfa_t) (func : String)
    (in_ : Option Hash) (out : Bool) (incoming : List (Int × Pkt))
    (h : ourfa.xmlapi = none) :
    ourfa_call env (some ourfa) (some func) in_ out incoming
      = some { ret := -1, ourfa := some { ourfa with err_msg := "XML api not loaded" },
               out := none, incoming := incoming, trace := [] } := by
  unfold ourfa_call
  simp only [h]
  rfl

/-- C19 at a context just made by `ourfa_new`. -/
theorem call_without_schema_witness :
    (ourfa_new 0 0).xmlapi = none ∧
    ourfa_call env_no_resp_ctx (some (ourfa_new 0 0)) (some "ping") none true [(1, ⟨7⟩)]
      = some { ret := -1, ourfa := some { ourfa_new 0 0 with err_msg := "XML api not loaded" },
               out := none, incoming := [(1, ⟨7⟩)], trace := [] } :=
  ⟨rfl, call_without_schema env_no_resp_ctx (ourfa_new 0 0) "ping" none true [(1, ⟨7⟩)] rfl⟩

theorem call_receive_no_resp_ctx (env : CallEnv) (ourfa : ourfa_t) (xmlapi : XmlApi)
    (func : String) (out : Bool) (incoming : List (Int × Pkt)) (trace : List Event)
    (hresp : env.load_resp_pkt_start xmlapi func = none) :
    call_receive env ourfa xmlapi func out incoming trace
      = some ⟨0, some (set_err ourfa
            ("Cannot init response context: " ++ env.xmlapi_last_err_str xmlapi)).2,
          if out then some none else none, incoming, trace ++ [.load_resp_pkt_start]⟩ := by
  unfold call_receive
  rw [hresp]

/-- C20 fails in the code: when the response interpreter cannot be made
(`ourfa_xmlapictx_load_resp_pkt_start` returns `NULL`) after the function was
resolved, the request, if the function has input, was built and sent, and the
call was started, `ourfa_call` sets the error message and returns 0, which is
not negative. -/
theorem resp_ctx_failure_returns_zero (env : CallEnv) (ourfa : ourfa_t) (xmlapi : XmlApi)
    (func : String) (ctx : CallCtx) (in_ : Option Hash) (out : Bool)
    (incoming : List (Int × Pkt))
    (hx : ourfa.xmlapi = some xmlapi) (hctx : env.xmlapictx_new xmlapi func = some ctx)
    (hreq : ourfa_xmlapictx_have_input_parameters ctx = 0
      ∨ ∃ pkt_in conn, env.xmlapictx_get_req_pkt ctx in_ = (0, some pkt_in) ∧
          (env.pkt_add_attrs pkt_in).1 = 0 ∧ ourfa.conn = some conn ∧
          0 < env.conn_send_packet conn (env.pkt_add_attrs pkt_in).2)
    (hstart : env.conn_start_func_call ourfa.conn (ourfa_xmlapictx_func_id ctx) = 0)
    (hresp : env.load_resp_pkt_start xmlapi func = none) :
    ∃ r, ourfa_call env (some ourfa) (some func) in_ out incoming = some r ∧ r.ret = 0 ∧
      ¬ r.ret < 0 ∧
      r.ourfa = some { ourfa with err_msg := String.mk (("Cannot init response context: "
                        ++ env.xmlapi_last_err_str xmlapi).data.take 499) } ∧
      r.out = (if out then some none else none) ∧ r.incoming = incoming := by
  obtain ⟨proto, login_type, ssl, timeout, login, pass, server_port, xmlapi0, conn0, err_msg,
    debug_stream⟩ := ourfa
  simp only [] at hx hstart hreq
  subst hx
  unfold ourfa_call
  simp only [hctx]
  by_cases hin : ourfa_xmlapictx_have_input_parameters ctx = 0
  · simp only [hin, ne_eq, not_true_eq_false, if_false, hstart]
    rw [call_receive_no_resp_ctx _ _ _ _ _ _ _ hresp]
    exact ⟨_, rfl, rfl, (by show ¬ (0 : Int) < 0; decide), rfl, rfl, rfl⟩
  · rcases hreq with hreq | ⟨pkt_in, conn, h1, h2, h3, h4⟩
    · exact absurd hreq hin
    · subst h3
      have hs : ourfa_send_packet env
          (some { proto := proto, login_type := login_type, ssl := ssl, timeout := timeout,
                  login := login, pass := pass, server_port := server_port,
                  xmlapi := some xmlapi, conn := some conn, err_msg := "",
                  debug_stream := debug_stream })
          (env.pkt_add_attrs pkt_in).2
          = (env.conn_send_packet conn (env.pkt_add_attrs pkt_in).2,
             some { proto := proto, login_type := login_type, ssl := ssl, timeout := timeout,
                    login := login, pass := pass, server_port := server_port,
                    xmlapi := some xmlapi, conn := some conn, err_msg := "",
                    debug_stream := debug_stream },
             [.conn_send_packet (env.pkt_add_attrs pkt_in).2]) := by
        unfold ourfa_send_packet
        simp only []
        rw [if_neg (by omega)]
      simp only [hin, ne_eq, not_false_eq_true, if_true, h1, not_true_eq_false, if_false,
        hstart, h2, hs]
      rw [if_neg (by omega), call_receive_no_resp_ctx _ _ _ _ _ _ _ hresp]
      exact ⟨_, rfl, rfl, (by show ¬ (0 : Int) < 0; decide), rfl, rfl, rfl⟩

/-- C20 at the function `ping` of a loaded schema, on an open connection. -/
theorem resp_ctx_failure_returns_zero_witness :
    ping_ourfa.xmlapi = some ping_api ∧
    ∃ r, ourfa_call env_no_resp_ctx (some ping_ourfa) (some "ping") none true [] = some r ∧
      r.ret = 0 ∧ ¬ r.ret < 0 ∧
      r.ourfa = some { ping_ourfa with err_msg := String.mk (("Cannot init response context: "
                        ++ "no memory").data.take 499) } ∧
      r.out = (if true then some none else none) ∧ r.incoming = [] :=
  ⟨rfl, resp_ctx_failure_returns_zero env_no_resp_ctx ping_ourfa ping_api "ping" ⟨ping_func⟩
    none true [] rfl rfl (Or.inl rfl) rfl rfl⟩


theorem recv_packet_consumes (env : CallEnv) (ourfa : ourfa_t) (pkt : Option Pkt)
    (incoming : List (Int × Pkt))
    (h : 0 < (ourfa_recv_packet env (some ourfa) pkt incoming).res0) :
    (ourfa_recv_packet env (some ourfa) pkt incoming).incoming.length < incoming.length := by
  unfold ourfa_recv_packet at h ⊢
  simp only [] at h ⊢
  cases hc : ourfa.conn with
  | none => rw [hc] at h; simp at h
  | some conn =>
    rw [hc] at h
    simp only [] at h ⊢
    cases incoming with
    | nil => simp at h
    | cons e rest =>
      obtain ⟨res0, p⟩ := e
      simp only [] at h ⊢
      split <;> simp

theorem recv_loop_total (env : CallEnv) (resp_ctx : RespCtx) :
    ∀ (fuel : Nat) (ourfa : ourfa_t) (pkt_out : Option Pkt) (incoming : List (Int × Pkt))
      (last_err : Int) (fed : List (Option Pkt)) (trace : List Event),
      incoming.length < fuel →
      ∃ l, recv_loop env resp_ctx fuel ourfa pkt_out incoming last_err fed trace = some l := by
  intro fuel
  induction fuel with
  | zero => intro _ _ incoming _ _ _ h; omega
  | succ fuel ih =>
    intro ourfa pkt_out incoming last_err fed trace h
    unfold recv_loop
    simp only []
    by_cases hpos : (ourfa_recv_packet env (some ourfa) pkt_out incoming).res0 > 0
    · rw [if_pos hpos]
      split
      · exact ⟨_, rfl⟩
      · apply ih
        have := recv_packet_consumes env ourfa pkt_out incoming hpos
        omega
    · rw [if_neg hpos]
      exact ⟨_, rfl⟩

theorem call_receive_total (env : CallEnv) (ourfa : ourfa_t) (xmlapi : XmlApi) (func : String)
    (out : Bool) (incoming : List (Int × Pkt)) (trace : List Event) :
    ∃ r, call_receive env ourfa xmlapi func out incoming trace = some r := by
  unfold call_receive
  cases env.load_resp_pkt_start xmlapi func with
  | none => exact ⟨_, rfl⟩
  | some resp_ctx =>
    simp only []
    obtain ⟨l, hl⟩ := recv_loop_total env resp_ctx (incoming.length + 1) ourfa none incoming 1 []
      (trace ++ [.load_resp_pkt_start]) (by omega)
    rw [hl]
    simp only []
    split
    · exact ⟨_, rfl⟩
    · split
      · exact ⟨_, rfl⟩
      · split
        · exact ⟨_, rfl⟩
        · split <;> exact ⟨_, rfl⟩

theorem ourfa_call_total (env : CallEnv) (ourfa : Option ourfa_t) (func : Option String)
    (in_ : Option Hash) (out : Bool) (incoming : List (Int × Pkt)) :
    ∃ r, ourfa_call env ourfa func in_ out incoming = some r := by
  unfold ourfa_call
  simp only []
  repeat' split
  all_goals first | exact ⟨_, rfl⟩ | exact call_receive_total _ _ _ _ _ _ _


/-- C26: if the context has an open connection, `ourfa_set_conf` returns -1
whatever its other arguments are, and the context afterwards differs from the
one before in its error message only: login, pass, server_port, login_type,
ssl, timeout, the schema and the connection are the same. -/
theorem set_conf_online_refused (env : ConfEnv) (ctx : ourfa_t) (conn : Conn)
    (login pass server_port : Option String) (login_type ssl : Option Nat)
    (api_xml_dir api_xml_file : Option String) (timeout : Option Int)
    (h : ctx.conn = some conn) :
    ourfa_set_conf env (some ctx) login pass server_port login_type ssl api_xml_dir
        api_xml_file timeout
      = (-1, some { ctx with
          err_msg := "Can not set configuration when online.  Disconnect first" }) := by
  obtain ⟨proto, login_type0, ssl0, timeout0, login0, pass0, server_port0, xmlapi0, conn0,
    err_msg0, debug_stream0⟩ := ctx
  subst h
  rfl

/-- C26 at the context `ping_ourfa`, with every option supplied. -/
theorem set_conf_online_refused_witness :
    ping_ourfa.conn = some ⟨0⟩ ∧
    ourfa_set_conf conf_env (some ping_ourfa) (some "l") (some "p") (some "h:1") (some 1)
        (some 1) none (some "api.xml") (some 9)
      = (-1, some { ping_ourfa with
          err_msg := "Can not set configuration when online.  Disconnect first" }) :=
  ⟨rfl, set_conf_online_refused conf_env ping_ourfa ⟨0⟩ (some "l") (some "p") (some "h:1")
    (some 1) (some 1) none (some "api.xml") (some 9) rfl⟩

/-- C27: if a login type is supplied that `ourfa_is_valid_login_type` does not
accept, `ourfa_set_conf` returns -1 and the context afterwards differs from
the one before in its error message only, whatever other options are supplied
and whatever the collaborators answer. -/
theorem set_conf_invalid_login_type (env : ConfEnv) (ctx : ourfa_t)
    (login pass server_port : Option String) (t : Nat) (ssl : Option Nat)
    (api_xml_dir api_xml_file : Option String) (timeout : Option Int)
    (h : env.is_valid_login_type t = false) :
    ∃ msg, ourfa_set_conf env (some ctx) login pass server_port (some t) ssl api_xml_dir
        api_xml_file timeout
      = (-1, some { ctx with err_msg := msg }) := by
  unfold ourfa_set_conf
  simp only [h]
  split
  · exact ⟨_, rfl⟩
  · split
    · exact ⟨_, rfl⟩
    · split
      · exact ⟨_, rfl⟩
      · split
        · exact ⟨_, rfl⟩
        · exact ⟨_, rfl⟩

/-- C27 at a new context, with the login type 7 and valid other options: the
message is "Invalid login type 7". -/
theorem set_conf_invalid_login_type_witness :
    conf_env.is_valid_login_type 7 = false ∧
    (∃ msg, ourfa_set_conf conf_env (some (ourfa_new 0 0)) (some "l") (some "p") (some "h:1")
        (some 7) (some 1) none (some "api.xml") (some 9)
      = (-1, some { ourfa_new 0 0 with err_msg := msg })) ∧
    ourfa_set_conf conf_env (some (ourfa_new 0 0)) (some "l") (some "p") (some "h:1")
        (some 7) (some 1) none (some "api.xml") (some 9)
      = (-1, some { ourfa_new 0 0 with err_msg := "Invalid login type 7" }) :=
  ⟨rfl, set_conf_invalid_login_type conf_env (ourfa_new 0 0) (some "l") (some "p")
    (some "h:1") 7 (some 1) none (some "api.xml") (some 9) rfl, by rfl⟩


theorem recv_packet_cons (env : CallEnv) (o : ourfa_t) (c : Conn) (pkt : Option Pkt) (n : Int)
    (p : Pkt) (rest : List (Int × Pkt)) (hc : o.conn = some c) (hn : 0 ≤ n) :
    ourfa_recv_packet env (some o) pkt ((n, p) :: rest)
      = ⟨n, some p, some o, rest, [.conn_recv_packet]⟩ := by
  unfold ourfa_recv_packet
  simp only [hc]
  rw [if_neg (by omega)]

theorem recv_loop_run (env : CallEnv) (resp_ctx : RespCtx) (c : Conn) :
    ∀ (pre : List (Int × Pkt)) (fuel : Nat) (o : ourfa_t) (pkt_out : Option Pkt)
      (last_err : Int) (fed : List (Option Pkt)) (trace : List Event) (n : Int) (p : Pkt)
      (post : List (Int × Pkt)),
      o.conn = some c →
      (∀ e ∈ pre, 0 < e.1 ∧ env.pkt_has_termination (some e.2) = false) →
      pre.length < fuel → 0 < n → env.pkt_has_termination (some p) = true →
      recv_loop env resp_ctx fuel o pkt_out (pre ++ (n, p) :: post) last_err fed trace
        = some ⟨n,
            (List.foldl (feed_step env resp_ctx) (last_err, fed) (pre.map Prod.snd ++ [p])).1,
            (List.foldl (feed_step env resp_ctx) (last_err, fed) (pre.map Prod.snd ++ [p])).2,
            o, post,
            trace ++ loop_events env resp_ctx (last_err, fed) (pre.map Prod.snd ++ [p])⟩ := by
  intro pre
  induction pre with
  | nil =>
    intro fuel o pkt_out last_err fed trace n p post hc _ hfuel hn hterm
    cases fuel with
    | zero => simp at hfuel
    | succ fuel =>
      unfold recv_loop
      simp only [List.nil_append, recv_packet_cons env o c pkt_out n p post hc (by omega),
        gt_iff_lt, hn, if_true, hterm, Option.getD_some, List.map_nil, List.foldl_cons,
        List.foldl_nil, loop_events, List.append_nil]
      by_cases h1 : last_err = 1
      · simp [feed_step, h1]
      · simp [feed_step, h1]
  | cons e pre ih =>
    intro fuel o pkt_out last_err fed trace n p post hc hpre hfuel hn hterm
    obtain ⟨m, q⟩ := e
    have hq := hpre (m, q) (List.mem_cons_self _ _)
    cases fuel with
    | zero => simp at hfuel
    | succ fuel =>
      unfold recv_loop
      simp only [List.cons_append, recv_packet_cons env o c pkt_out m q _ hc (by omega),
        gt_iff_lt, hq.1, if_true, hq.2, Option.getD_some, Bool.false_eq_true, if_false]
      rw [ih fuel o (some q) _ _ _ n p post hc
        (fun e he => hpre e (List.mem_cons_of_mem _ he))
        (by simp at hfuel; omega) hn hterm]
      by_cases h1 : last_err = 1
      · simp [feed_step, h1, loop_events]
      · simp [feed_step, h1, loop_events]

theorem count_recv_loop_events (env : CallEnv) (resp_ctx : RespCtx) :
    ∀ (pkts : List Pkt) (st : Int × List (Option Pkt)),
      (loop_events env resp_ctx st pkts).count .conn_recv_packet = pkts.length := by
  intro pkts
  induction pkts with
  | nil => intro st; rfl
  | cons p ps ih =>
    intro st
    simp only [loop_events, List.count_append, ih, List.length_cons]
    by_cases h1 : st.1 = 1
    · simp [h1, List.count_cons]; omega
    · simp [h1, List.count_cons]; omega

theorem ourfa_call_to_receive (env : CallEnv) (ourfa : ourfa_t) (func : String)
    (in_ : Option Hash) (out : Bool) (incoming : List (Int × Pkt)) (xmlapi : XmlApi)
    (ctx : CallCtx) (h : CallStarted env ourfa func in_ xmlapi ctx) :
    ∃ trace0, ourfa_call env (some ourfa) (some func) in_ out incoming
        = call_receive env { ourfa with err_msg := "" } xmlapi func out incoming trace0 ∧
      trace0.count .conn_recv_packet = 0 ∧ fed_packets trace0 = [] ∧
      ∀ h, trace0.count (.hash_free h) = 0 := by
  obtain ⟨proto, login_type, ssl, timeout, login, pass, server_port, xmlapi0, conn0, err_msg,
    debug_stream⟩ := ourfa
  obtain ⟨hx, hctx, hreq, hstart⟩ := h
  simp only [] at hx hstart hreq
  subst hx
  unfold ourfa_call
  simp only [hctx]
  by_cases hin : ourfa_xmlapictx_have_input_parameters ctx = 0
  · simp only [hin, ne_eq, not_true_eq_false, if_false, hstart]
    exact ⟨_, rfl, by simp [List.count_cons], by simp [fed_packets],
        fun h => by simp [List.count_cons]⟩
  · rcases hreq with hreq | ⟨pkt_in, conn, h1, h2, h3, h4⟩ | h1
    · exact absurd hreq hin
    · subst h3
      have hs : ourfa_send_packet env
          (some { proto := proto, login_type := login_type, ssl := ssl, timeout := timeout,
                  login := login, pass := pass, server_port := server_port,
                  xmlapi := some xmlapi, conn := some conn, err_msg := "",
                  debug_stream := debug_stream })
          (env.pkt_add_attrs pkt_in).2
          = (env.conn_send_packet conn (env.pkt_add_attrs pkt_in).2,
             some { proto := proto, login_type := login_type, ssl := ssl, timeout := timeout,
                    login := login, pass := pass, server_port := server_port,
                    xmlapi := some xmlapi, conn := some conn, err_msg := "",
                    debug_stream := debug_stream },
             [.conn_send_packet (env.pkt_add_attrs pkt_in).2]) := by
        unfold ourfa_send_packet
        simp only []
        rw [if_neg (by omega)]
      simp only [hin, ne_eq, not_false_eq_true, if_true, h1, not_true_eq_false, if_false,
        hstart, h2, hs]
      rw [if_neg (by omega)]
      exact ⟨_, rfl, by simp [List.count_cons], by simp [fed_packets],
        fun h => by simp [List.count_cons]⟩
    · simp only [hin, ne_eq, not_false_eq_true, if_true, h1, not_true_eq_false, if_false,
        hstart]
      exact ⟨_, rfl, by simp [List.count_cons], by simp [fed_packets],
        fun h => by simp [List.count_cons]⟩

theorem call_receive_terminated (env : CallEnv) (o : ourfa_t) (xmlapi : XmlApi) (func : String)
    (out : Bool) (incoming : List (Int × Pkt)) (trace : List Event) (resp_ctx : RespCtx)
    (c : Conn) (pre : List (Int × Pkt)) (n : Int) (p : Pkt) (post : List (Int × Pkt))
    (hresp : env.load_resp_pkt_start xmlapi func = some resp_ctx) (hc : o.conn = some c)
    (ht : TerminatedAt env incoming pre n p post) :
    call_receive env o xmlapi func out incoming trace =
      match env.load_resp_pkt_end resp_ctx (feed env resp_ctx (pre.map Prod.snd ++ [p])).2 with
      | none =>
        some ⟨-1, some (set_err o
                ("Unable to parse packet: " ++ env.xmlapi_last_err_str xmlapi)).2, none, post,
              trace ++ [.load_resp_pkt_start]
                ++ loop_events env resp_ctx (1, []) (pre.map Prod.snd ++ [p])
                ++ [.load_resp_pkt_end]⟩
      | some h =>
        if (feed env resp_ctx (pre.map Prod.snd ++ [p])).1 < 0 then
          some ⟨-1, some (set_err o
                  ("Unable to parse packet: " ++ env.xmlapi_last_err_str xmlapi)).2, none, post,
                trace ++ [.load_resp_pkt_start]
                  ++ loop_events env resp_ctx (1, []) (pre.map Prod.snd ++ [p])
                  ++ [.load_resp_pkt_end]⟩
        else if out then
          some ⟨0, some o, some (some h), post,
                trace ++ [.load_resp_pkt_start]
                  ++ loop_events env resp_ctx (1, []) (pre.map Prod.snd ++ [p])
                  ++ [.load_resp_pkt_end]⟩
        else
          some ⟨0, some o, none, post,
                trace ++ [.load_resp_pkt_start]
                  ++ loop_events env resp_ctx (1, []) (pre.map Prod.snd ++ [p])
                  ++ [.load_resp_pkt_end] ++ [.hash_free h]⟩ := by
  obtain ⟨hinc, hpre, hn, hterm⟩ := ht
  subst hinc
  unfold call_receive
  simp only [hresp]
  rw [recv_loop_run env resp_ctx c pre _ o none 1 [] _ n p post hc hpre
    (by simp; omega) hn hterm]
  simp only []
  rw [if_neg (by omega)]
  rfl

theorem count_free_loop_events (env : CallEnv) (resp_ctx : RespCtx) (h : Hash) :
    ∀ (pkts : List Pkt) (st : Int × List (Option Pkt)),
      (loop_events env resp_ctx st pkts).count (.hash_free h) = 0 := by
  intro pkts
  induction pkts with
  | nil => intro st; rfl
  | cons p ps ih =>
    intro st
    simp only [loop_events, List.count_append, ih]
    by_cases h1 : st.1 = 1
    · simp [h1, List.count_cons]
    · simp [h1, List.count_cons]

theorem fed_packets_append (a b : List Event) :
    fed_packets (a ++ b) = fed_packets a ++ fed_packets b := by
  unfold fed_packets
  exact List.filterMap_append _ _ _

theorem fed_loop_events (env : CallEnv) (resp_ctx : RespCtx) :
    ∀ (pkts : List Pkt) (st : Int × List (Option Pkt)),
      (List.foldl (feed_step env resp_ctx) st pkts).2
        = st.2 ++ fed_packets (loop_events env resp_ctx st pkts) := by
  intro pkts
  induction pkts with
  | nil => intro st; simp [loop_events, fed_packets]
  | cons p ps ih =>
    intro st
    simp only [List.foldl_cons, loop_events, fed_packets_append, ih]
    by_cases h1 : st.1 = 1
    · simp [feed_step, h1, fed_packets]
    · simp [feed_step, h1, fed_packets]

theorem feed_snoc (env : CallEnv) (resp_ctx : RespCtx) (qs : List Pkt) (q : Pkt) :
    feed env resp_ctx (qs ++ [q]) = feed_step env resp_ctx (feed env resp_ctx qs) q := by
  unfold feed
  rw [List.foldl_append]
  rfl

theorem foldl_feed_stuck (env : CallEnv) (resp_ctx : RespCtx) :
    ∀ (pkts : List Pkt) (st : Int × List (Option Pkt)), st.1 ≠ 1 →
      List.foldl (feed_step env resp_ctx) st pkts = st := by
  intro pkts
  induction pkts with
  | nil => intro st _; rfl
  | cons p ps ih =>
    intro st h
    have hs : feed_step env resp_ctx st p = st := by
      unfold feed_step
      rw [if_neg h]
    rw [List.foldl_cons, hs]
    exact ih st h

theorem feed_stuck (env : CallEnv) (resp_ctx : RespCtx) (pkts : List Pkt) (k : Nat)
    (h : (feed env resp_ctx (pkts.take k)).1 ≠ 1) :
    feed env resp_ctx pkts = feed env resp_ctx (pkts.take k) := by
  have : feed env resp_ctx pkts
      = List.foldl (feed_step env resp_ctx) (feed env resp_ctx (pkts.take k)) (pkts.drop k) := by
    unfold feed
    rw [← List.foldl_append, List.take_append_drop]
  rw [this]
  exact foldl_feed_stuck env resp_ctx _ _ h

theorem feed_le (env : CallEnv) (resp_ctx : RespCtx) :
    ∀ (pkts : List Pkt), (feed env resp_ctx pkts).2.length ≤ pkts.length := by
  intro pkts
  induction pkts using List.reverseRecOn with
  | nil => simp [feed]
  | append_singleton qs q ih =>
    rw [feed_snoc]
    unfold feed_step
    split
    · simp; omega
    · simp; omega

theorem feed_all_fed (env : CallEnv) (resp_ctx : RespCtx) :
    ∀ (pkts : List Pkt), (∀ k, k < pkts.length → (feed env resp_ctx (pkts.take k)).1 = 1) →
      (feed env resp_ctx pkts).2 = pkts.map some := by
  intro pkts
  induction pkts using List.reverseRecOn with
  | nil => intro _; rfl
  | append_singleton qs q ih =>
    intro h
    have hqs : (feed env resp_ctx qs).1 = 1 := by
      have := h qs.length (by simp)
      simpa using this
    have ih' := ih (fun k hk => by
      have := h k (by simp; omega)
      rwa [List.take_append_of_le_length (by omega)] at this)
    rw [feed_snoc]
    unfold feed_step
    rw [if_pos hqs, ih']
    simp

theorem call_terminated (env : CallEnv) (ourfa : ourfa_t) (func : String)
    (in_ : Option Hash) (out : Bool) (incoming : List (Int × Pkt)) (xmlapi : XmlApi)
    (ctx : CallCtx) (resp_ctx : RespCtx) (c : Conn) (pre : List (Int × Pkt)) (n : Int)
    (p : Pkt) (post : List (Int × Pkt))
    (hs : CallStarted env ourfa func in_ xmlapi ctx)
    (hresp : env.load_resp_pkt_start xmlapi func = some resp_ctx) (hc : ourfa.conn = some c)
    (ht : TerminatedAt env incoming pre n p post) :
    ∃ r tail, ourfa_call env (some ourfa) (some func) in_ out incoming = some r ∧
      r.incoming = post ∧
      r.trace.count Event.conn_recv_packet = pre.length + 1 ∧
      fed_packets r.trace = (feed env resp_ctx (pre.map Prod.snd ++ [p])).2 ∧
      (r.ret = 0 ∨ r.ret = -1) ∧
      (∀ h, (feed env resp_ctx (pre.map Prod.snd ++ [p])).1 = 1 →
        env.load_resp_pkt_end resp_ctx (feed env resp_ctx (pre.map Prod.snd ++ [p])).2
          = some h →
        r.ret = 0 ∧ r.ourfa = some { ourfa with err_msg := "" } ∧
        r.out = (if out then some (some h) else none) ∧
        r.trace = tail ++ (if out then [] else [Event.hash_free h]) ∧
        tail.count (Event.hash_free h) = 0) := by
  obtain ⟨trace0, h0, hcount0, hfed0, hfree0⟩ :=
    ourfa_call_to_receive env ourfa func in_ out incoming xmlapi ctx hs
  have hrecv := call_receive_terminated env { ourfa with err_msg := "" } xmlapi func out incoming
    trace0 resp_ctx c pre n p post hresp hc ht
  rw [h0, hrecv]
  have hcnt : ∀ (extra : List Event), extra.count Event.conn_recv_packet = 0 →
      (trace0 ++ [Event.load_resp_pkt_start]
        ++ loop_events env resp_ctx (1, []) (pre.map Prod.snd ++ [p])
        ++ [Event.load_resp_pkt_end] ++ extra).count Event.conn_recv_packet = pre.length + 1 := by
    intro extra he
    simp only [List.count_append, hcount0, count_recv_loop_events, he]
    simp [List.count_cons]
  have hfed : ∀ (extra : List Event), fed_packets extra = [] →
      fed_packets (trace0 ++ [Event.load_resp_pkt_start]
        ++ loop_events env resp_ctx (1, []) (pre.map Prod.snd ++ [p])
        ++ [Event.load_resp_pkt_end] ++ extra)
      = (feed env resp_ctx (pre.map Prod.snd ++ [p])).2 := by
    intro extra he
    have := fed_loop_events env resp_ctx (pre.map Prod.snd ++ [p]) (1, [])
    simp only [List.nil_append] at this
    unfold feed
    rw [this]
    simp only [fed_packets_append, hfed0, he]
    simp [fed_packets]
  have hcnt0 := hcnt [] rfl
  have hfed0' := hfed [] rfl
  rw [List.append_nil] at hcnt0 hfed0'
  have hfree : ∀ h, (trace0 ++ [Event.load_resp_pkt_start]
        ++ loop_events env resp_ctx (1, []) (pre.map Prod.snd ++ [p])
        ++ [Event.load_resp_pkt_end]).count (Event.hash_free h) = 0 := by
    intro h
    simp only [List.count_append, hfree0, count_free_loop_events]
    simp [List.count_cons]
  cases hend : env.load_resp_pkt_end resp_ctx (feed env resp_ctx (pre.map Prod.snd ++ [p])).2 with
  | none =>
    exact ⟨_, [], rfl, rfl, hcnt0, hfed0', Or.inr rfl, fun h _ hh => by cases hh⟩
  | some h =>
    simp only []
    by_cases hneg : (feed env resp_ctx (pre.map Prod.snd ++ [p])).1 < 0
    · rw [if_pos hneg]
      exact ⟨_, [], rfl, rfl, hcnt0, hfed0', Or.inr rfl, fun h' h1 _ => by omega⟩
    · rw [if_neg hneg]
      cases out with
      | true =>
        simp only [if_true]
        refine ⟨_, (trace0 ++ [Event.load_resp_pkt_start]
          ++ loop_events env resp_ctx (1, []) (pre.map Prod.snd ++ [p])
          ++ [Event.load_resp_pkt_end]), rfl, rfl, hcnt0, hfed0', Or.inl rfl,
          fun h' _ hh => ?_⟩
        cases hh
        exact ⟨rfl, rfl, rfl, (List.append_nil _).symm, hfree h⟩
      | false =>
        simp only [Bool.false_eq_true, if_false]
        refine ⟨_, (trace0 ++ [Event.load_resp_pkt_start]
          ++ loop_events env resp_ctx (1, []) (pre.map Prod.snd ++ [p])
          ++ [Event.load_resp_pkt_end]), rfl, rfl, hcnt _ rfl, hfed _ rfl, Or.inl rfl,
          fun h' _ hh => ?_⟩
        cases hh
        exact ⟨rfl, rfl, rfl, rfl, hfree h⟩

/-- C23: in a call that gets as far as receiving on an open connection, when
the connection delivers packets without the termination attribute and then a
packet with it, `ourfa_call` receives exactly these packets: the number of
calls of `ourfa_conn_recv_packet` is the number of packets up to and including
the terminating one, and what the connection had to deliver after it is still
there, whatever the response interpreter answers. -/
theorem termination_ends_receiving (env : CallEnv) (ourfa : ourfa_t) (func : String)
    (in_ : Option Hash) (out : Bool) (incoming : List (Int × Pkt)) (xmlapi : XmlApi)
    (ctx : CallCtx) (resp_ctx : RespCtx) (c : Conn) (pre : List (Int × Pkt)) (n : Int)
    (p : Pkt) (post : List (Int × Pkt))
    (hs : CallStarted env ourfa func in_ xmlapi ctx)
    (hresp : env.load_resp_pkt_start xmlapi func = some resp_ctx) (hc : ourfa.conn = some c)
    (ht : TerminatedAt env incoming pre n p post) :
    ∃ r, ourfa_call env (some ourfa) (some func) in_ out incoming = some r ∧
      r.incoming = post ∧ r.trace.count Event.conn_recv_packet = pre.length + 1 := by
  obtain ⟨r, _, h1, h2, h3, _⟩ := call_terminated env ourfa func in_ out incoming xmlapi ctx
    resp_ctx c pre n p post hs hresp hc ht
  exact ⟨r, h1, h2, h3⟩

/-- C23 at a call of `ping` when the connection delivers the packets 1, 4 (the
terminating one) and 2, with an interpreter that answers 1 (more data needed)
to every packet. -/
theorem termination_ends_receiving_witness :
    CallStarted (call_env true 1) echo_ourfa "ping" none echo_api ⟨ping_func⟩ ∧
    TerminatedAt (call_env true 1) [(10, ⟨1⟩), (10, ⟨4⟩), (10, ⟨2⟩)] [(10, ⟨1⟩)] 10 ⟨4⟩
      [(10, ⟨2⟩)] ∧
    ∃ r, ourfa_call (call_env true 1) (some echo_ourfa) (some "ping") none true
        [(10, ⟨1⟩), (10, ⟨4⟩), (10, ⟨2⟩)] = some r ∧
      r.incoming = [(10, ⟨2⟩)] ∧ r.trace.count Event.conn_recv_packet = 1 + 1 :=
  have hs : CallStarted (call_env true 1) echo_ourfa "ping" none echo_api ⟨ping_func⟩ :=
    ⟨rfl, rfl, Or.inl rfl, rfl⟩
  have ht : TerminatedAt (call_env true 1) [(10, ⟨1⟩), (10, ⟨4⟩), (10, ⟨2⟩)] [(10, ⟨1⟩)] 10
      ⟨4⟩ [(10, ⟨2⟩)] :=
    ⟨rfl, by decide, by decide, rfl⟩
  ⟨hs, ht, termination_ends_receiving (call_env true 1) echo_ourfa "ping" none true _ echo_api
    ⟨ping_func⟩ ⟨0⟩ ⟨0⟩ [(10, ⟨1⟩)] 10 ⟨4⟩ [(10, ⟨2⟩)] hs rfl rfl ht⟩

/-- C24, as stated, fails: when the interpreter answers 0 to the first packet,
the packets received after it, the terminating one included, are not given to
it: of the three packets received only the first is fed. -/
theorem later_packets_not_fed :
    (ourfa_call (call_env true 0) (some echo_ourfa) (some "ping") none true
        [(10, ⟨1⟩), (10, ⟨2⟩), (10, ⟨4⟩)]).map
      (fun r => (r.ret, r.trace.count Event.conn_recv_packet, fed_packets r.trace))
      = some (0, 3, [some ⟨1⟩]) := by
  decide

/-- C24 (amended): in a call that gets as far as receiving on an open
connection, when the connection delivers packets without the termination
attribute and then a packet with it, a received packet is given to the
response interpreter while the interpreter has answered 1 (more data needed)
to every packet given to it before: if it answered 1 to all the packets before
the terminating one, every packet, the terminating one included, is fed, in
order; and once its answer is not 1, no packet received later is fed. -/
theorem packets_fed_while_need_more (env : CallEnv) (ourfa : ourfa_t) (func : String)
    (in_ : Option Hash) (out : Bool) (incoming : List (Int × Pkt)) (xmlapi : XmlApi)
    (ctx : CallCtx) (resp_ctx : RespCtx) (c : Conn) (pre : List (Int × Pkt)) (n : Int)
    (p : Pkt) (post : List (Int × Pkt))
    (hs : CallStarted env ourfa func in_ xmlapi ctx)
    (hresp : env.load_resp_pkt_start xmlapi func = some resp_ctx) (hc : ourfa.conn = some c)
    (ht : TerminatedAt env incoming pre n p post) :
    ∃ r, ourfa_call env (some ourfa) (some func) in_ out incoming = some r ∧
      fed_packets r.trace = (feed env resp_ctx (pre.map Prod.snd ++ [p])).2 ∧
      ((∀ k, k < (pre.map Prod.snd ++ [p]).length →
          (feed env resp_ctx ((pre.map Prod.snd ++ [p]).take k)).1 = 1) →
        fed_packets r.trace = (pre.map Prod.snd ++ [p]).map some) ∧
      (∀ k, (feed env resp_ctx ((pre.map Prod.snd ++ [p]).take k)).1 ≠ 1 →
        fed_packets r.trace = (feed env resp_ctx ((pre.map Prod.snd ++ [p]).take k)).2 ∧
        (fed_packets r.trace).length ≤ k) := by
  obtain ⟨r, _, h1, _, _, h4, _⟩ := call_terminated env ourfa func in_ out incoming xmlapi ctx
    resp_ctx c pre n p post hs hresp hc ht
  refine ⟨r, h1, h4, fun hall => ?_, fun k hk => ?_⟩
  · rw [h4]
    exact feed_all_fed env resp_ctx _ hall
  · rw [h4, feed_stuck env resp_ctx _ k hk]
    refine ⟨rfl, Nat.le_trans (feed_le env resp_ctx _) ?_⟩
    rw [List.length_take]
    exact Nat.min_le_left _ _

/-- C24 (amended) at a call of `ping` when the connection delivers the packets
1, 2 and 4 (the terminating one): with an interpreter that answers 1 all three
are fed. -/
theorem packets_fed_while_need_more_witness :
    CallStarted (call_env true 1) echo_ourfa "ping" none echo_api ⟨ping_func⟩ ∧
    TerminatedAt (call_env true 1) [(10, ⟨1⟩), (10, ⟨2⟩), (10, ⟨4⟩)] [(10, ⟨1⟩), (10, ⟨2⟩)] 10
      ⟨4⟩ [] ∧
    ∃ r, ourfa_call (call_env true 1) (some echo_ourfa) (some "ping") none true
        [(10, ⟨1⟩), (10, ⟨2⟩), (10, ⟨4⟩)] = some r ∧
      fed_packets r.trace = [some ⟨1⟩, some ⟨2⟩, some ⟨4⟩] := by
  have hs : CallStarted (call_env true 1) echo_ourfa "ping" none echo_api ⟨ping_func⟩ :=
    ⟨rfl, rfl, Or.inl rfl, rfl⟩
  have ht : TerminatedAt (call_env true 1) [(10, ⟨1⟩), (10, ⟨2⟩), (10, ⟨4⟩)]
      [(10, ⟨1⟩), (10, ⟨2⟩)] 10 ⟨4⟩ [] :=
    ⟨rfl, by decide, by decide, rfl⟩
  obtain ⟨r, h1, _, h3, _⟩ := packets_fed_while_need_more (call_env true 1) echo_ourfa "ping"
    none true _ echo_api ⟨ping_func⟩ ⟨0⟩ ⟨0⟩ [(10, ⟨1⟩), (10, ⟨2⟩)] 10 ⟨4⟩ [] hs rfl rfl ht
  exact ⟨hs, ht, r, h1, h3 (by decide)⟩

/-- C25: in a call that gets as far as receiving on an open connection, when
the receive loop ends on a packet with the termination attribute while the
interpreter's last answer is 1 and `ourfa_xmlapictx_load_resp_pkt_end` gives a
hash, `ourfa_call` returns 0 and leaves the error message empty; with a place
for the result given, exactly that hash is stored there and it is not freed;
without one, nothing is stored and the last call made is the release of the
hash. -/
theorem incomplete_result_is_success (env : CallEnv) (ourfa : ourfa_t) (func : String)
    (in_ : Option Hash) (out : Bool) (incoming : List (Int × Pkt)) (xmlapi : XmlApi)
    (ctx : CallCtx) (resp_ctx : RespCtx) (c : Conn) (pre : List (Int × Pkt)) (n : Int)
    (p : Pkt) (post : List (Int × Pkt)) (h : Hash)
    (hs : CallStarted env ourfa func in_ xmlapi ctx)
    (hresp : env.load_resp_pkt_start xmlapi func = some resp_ctx) (hc : ourfa.conn = some c)
    (ht : TerminatedAt env incoming pre n p post)
    (hlast : (feed env resp_ctx (pre.map Prod.snd ++ [p])).1 = 1)
    (hend : env.load_resp_pkt_end resp_ctx (feed env resp_ctx (pre.map Prod.snd ++ [p])).2
      = some h) :
    ∃ r, ourfa_call env (some ourfa) (some func) in_ out incoming = some r ∧
      r.ret = 0 ∧ r.ourfa = some { ourfa with err_msg := "" } ∧
      (out = true → r.out = some (some h) ∧ r.trace.count (Event.hash_free h) = 0) ∧
      (out = false → r.out = none ∧ r.trace.getLast? = some (Event.hash_free h)) := by
  obtain ⟨r, tail, h1, _, _, _, _, h6⟩ := call_terminated env ourfa func in_ out incoming xmlapi
    ctx resp_ctx c pre n p post hs hresp hc ht
  obtain ⟨hr, ho, hout, htr, hfree⟩ := h6 h hlast hend
  refine ⟨r, h1, hr, ho, fun ht => ?_, fun hf => ?_⟩
  · subst ht
    simp only [if_true, List.append_nil] at hout htr
    exact ⟨hout, by rw [htr]; exact hfree⟩
  · subst hf
    simp only [Bool.false_eq_true, if_false] at hout htr
    exact ⟨hout, by rw [htr]; simp⟩

/-- C25 at a call of `ping` when the connection delivers the packets 1 and 4
(the terminating one), with an interpreter that answers 1 to every packet and
ends with the hash 2, with and without a place for the result. -/
theorem incomplete_result_is_success_witness :
    CallStarted (call_env true 1) echo_ourfa "ping" none echo_api ⟨ping_func⟩ ∧
    TerminatedAt (call_env true 1) [(10, ⟨1⟩), (10, ⟨4⟩)] [(10, ⟨1⟩)] 10 ⟨4⟩ [] ∧
    (feed (call_env true 1) ⟨0⟩ [⟨1⟩, ⟨4⟩]).1 = 1 ∧
    (∃ r, ourfa_call (call_env true 1) (some echo_ourfa) (some "ping") none true
        [(10, ⟨1⟩), (10, ⟨4⟩)] = some r ∧ r.ret = 0 ∧ r.out = some (some ⟨2⟩)) ∧
    (∃ r, ourfa_call (call_env true 1) (some echo_ourfa) (some "ping") none false
        [(10, ⟨1⟩), (10, ⟨4⟩)] = some r ∧ r.ret = 0 ∧ r.out = none ∧
        r.trace.getLast? = some (Event.hash_free ⟨2⟩)) := by
  have hs : CallStarted (call_env true 1) echo_ourfa "ping" none echo_api ⟨ping_func⟩ :=
    ⟨rfl, rfl, Or.inl rfl, rfl⟩
  have ht : TerminatedAt (call_env true 1) [(10, ⟨1⟩), (10, ⟨4⟩)] [(10, ⟨1⟩)] 10 ⟨4⟩ [] :=
    ⟨rfl, by decide, by decide, rfl⟩
  obtain ⟨r1, a1, a2, _, a4, _⟩ := incomplete_result_is_success (call_env true 1) echo_ourfa
    "ping" none true _ echo_api ⟨ping_func⟩ ⟨0⟩ ⟨0⟩ [(10, ⟨1⟩)] 10 ⟨4⟩ [] ⟨2⟩ hs rfl rfl ht
    (by decide) (by decide)
  obtain ⟨r2, b1, b2, _, _, b5⟩ := incomplete_result_is_success (call_env true 1) echo_ourfa
    "ping" none false _ echo_api ⟨ping_func⟩ ⟨0⟩ ⟨0⟩ [(10, ⟨1⟩)] 10 ⟨4⟩ [] ⟨2⟩ hs rfl rfl ht
    (by decide) (by decide)
  exact ⟨hs, ht, by decide, ⟨r1, a1, a2, (a4 rfl).1⟩, ⟨r2, b1, b2, (b5 rfl).1, (b5 rfl).2⟩⟩


theorem recv_packet_trace (env : CallEnv) (o : ourfa_t) (pkt : Option Pkt)
    (incoming : List (Int × Pkt)) :
    ∀ e ∈ (ourfa_recv_packet env (some o) pkt incoming).trace, e = Event.conn_recv_packet := by
  unfold ourfa_recv_packet
  split
  · intro e he; cases he
  · split
    · intro e he; cases he
    · simp only []
      split <;> simp

theorem recv_loop_trace (env : CallEnv) (resp_ctx : RespCtx) :
    ∀ (fuel : Nat) (o : ourfa_t) (pkt_out : Option Pkt) (incoming : List (Int × Pkt))
      (last_err : Int) (fed : List (Option Pkt)) (trace : List Event) (l : LoopEnd),
      recv_loop env resp_ctx fuel o pkt_out incoming last_err fed trace = some l →
      ∃ tail, l.trace = trace ++ tail ∧ ∀ e ∈ tail, is_request_event e = false := by
  intro fuel
  induction fuel with
  | zero => intro _ _ _ _ _ _ l h; cases h
  | succ fuel ih =>
    intro o pkt_out incoming last_err fed trace l h
    unfold recv_loop at h
    simp only [] at h
    have hr := recv_packet_trace env o pkt_out incoming
    have hr' : ∀ e ∈ (ourfa_recv_packet env (some o) pkt_out incoming).trace,
        is_request_event e = false := fun e he => by rw [hr e he]; rfl
    split at h
    · have hstep : ∀ e ∈ (ourfa_recv_packet env (some o) pkt_out incoming).trace
          ++ (if decide (last_err = 1) = true
              then [Event.load_resp_pkt (ourfa_recv_packet env (some o) pkt_out incoming).pkt]
              else []), is_request_event e = false := by
        intro e he
        rcases List.mem_append.1 he with he | he
        · exact hr' e he
        · split at he
          · simp only [List.mem_singleton] at he; rw [he]; rfl
          · cases he
      split at h
      · cases h
        exact ⟨_, List.append_assoc _ _ _, hstep⟩
      · obtain ⟨tail, ht, hq⟩ := ih _ _ _ _ _ _ l h
        refine ⟨((ourfa_recv_packet env (some o) pkt_out incoming).trace
          ++ (if decide (last_err = 1) = true
              then [Event.load_resp_pkt (ourfa_recv_packet env (some o) pkt_out incoming).pkt]
              else [])) ++ tail, by rw [ht]; simp only [List.append_assoc], ?_⟩
        intro e he
        rcases List.mem_append.1 he with he | he
        · exact hstep e he
        · exact hq e he
    · cases h
      exact ⟨_, rfl, hr'⟩

theorem call_receive_trace (env : CallEnv) (o : ourfa_t) (xmlapi : XmlApi) (func : String)
    (out : Bool) (incoming : List (Int × Pkt)) (trace : List Event) (r : CallResult)
    (h : call_receive env o xmlapi func out incoming trace = some r) :
    ∃ tail, r.trace = trace ++ Event.load_resp_pkt_start :: tail ∧
      ∀ e ∈ tail, is_request_event e = false := by
  unfold call_receive at h
  split at h
  · cases h
    exact ⟨[], rfl, fun e he => by cases he⟩
  · rename_i resp_ctx _
    simp only [] at h
    split at h
    · cases h
    · rename_i l hl
      obtain ⟨tail, ht, hq⟩ := recv_loop_trace env resp_ctx _ _ _ _ _ _ _ l hl
      have hq1 : ∀ e ∈ tail ++ [Event.load_resp_pkt_end], is_request_event e = false := by
        intro e he
        rcases List.mem_append.1 he with he | he
        · exact hq e he
        · simp only [List.mem_singleton] at he; rw [he]; rfl
      have ht1 : l.trace ++ [Event.load_resp_pkt_end]
          = trace ++ Event.load_resp_pkt_start :: (tail ++ [Event.load_resp_pkt_end]) := by
        rw [ht]; simp
      split at h
      · cases h; exact ⟨_, ht1, hq1⟩
      · split at h
        · cases h; exact ⟨_, ht1, hq1⟩
        · rename_i hh _
          split at h
          · cases h; exact ⟨_, ht1, hq1⟩
          · split at h
            · cases h; exact ⟨_, ht1, hq1⟩
            · cases h
              refine ⟨tail ++ [Event.load_resp_pkt_end] ++ [Event.hash_free hh], ?_, ?_⟩
              · simp only [ht1]; simp
              · intro e he
                rcases List.mem_append.1 he with he | he
                · exact hq1 e he
                · simp only [List.mem_singleton] at he; rw [he]; rfl

theorem filter_send_nil (tail : List Event) (h : ∀ e ∈ tail, is_request_event e = false) :
    tail.filter is_send_event = [] := by
  rw [List.filter_eq_nil_iff]
  intro e he hs
  have := h e he
  unfold is_request_event at this
  rw [hs] at this
  simp at this

theorem have_input_iff (ctx : CallCtx) :
    ourfa_xmlapictx_have_input_parameters ctx ≠ 0
      ↔ ∃ root, ctx.f.in_[0]? = some root ∧ root.children ≠ none := by
  unfold ourfa_xmlapictx_have_input_parameters ourfa_xmlapi_f_have_input
  simp only []
  cases h : ctx.f.in_[0]? with
  | none => simp
  | some root =>
    simp only []
    by_cases hc : root.children = none
    · simp [hc]
    · simp [hc]

/-- C22, as stated, fails: for the function `echo`, which has an input
parameter, when the request cannot be built `ourfa_call` returns -1 after the
calls `ourfa_xmlapictx_new` and `ourfa_xmlapictx_get_req_pkt`: no packet is
sent. -/
theorem input_without_send :
    ourfa_xmlapictx_have_input_parameters ⟨echo_func⟩ = 1 ∧
    (ourfa_call (call_env false 1) (some echo_ourfa) (some "echo") none true
        [(10, ⟨4⟩)]).map (fun r => (r.ret, r.trace))
      = some (-1, [Event.xmlapictx_new "echo", Event.xmlapictx_get_req_pkt]) := by
  decide

/-- C22 (amended): `ourfa_call` builds a request exactly when the resolved
function has input parameters (the root of its `in` tree has a child).  For a
function without input no request is built, no terminator is appended and
nothing is sent: after `ourfa_xmlapictx_new` the call is started, and what
follows, if anything, begins with the making of the response interpreter.  For
a function with input the call of `ourfa_xmlapictx_get_req_pkt` comes right
after `ourfa_xmlapictx_new`, at most one packet is sent, and exactly one, the
request with the terminator, is given to the connection when the request was
built, the call was started, the terminator was appended and the context has a
connection. -/
theorem request_iff_input (env : CallEnv) (ourfa : ourfa_t) (func : String)
    (in_ : Option Hash) (out : Bool) (incoming : List (Int × Pkt)) (xmlapi : XmlApi)
    (ctx : CallCtx)
    (hx : ourfa.xmlapi = some xmlapi) (hctx : env.xmlapictx_new xmlapi func = some ctx) :
    (ourfa_xmlapictx_have_input_parameters ctx ≠ 0
      ↔ ∃ root, ctx.f.in_[0]? = some root ∧ root.children ≠ none) ∧
    ∃ r, ourfa_call env (some ourfa) (some func) in_ out incoming = some r ∧
      (ourfa_xmlapictx_have_input_parameters ctx = 0 →
        (∀ e ∈ r.trace, is_build_event e = false ∧ is_send_event e = false) ∧
        ∃ tail, r.trace = [Event.xmlapictx_new func,
            Event.conn_start_func_call (ourfa_xmlapictx_func_id ctx)] ++ tail ∧
          (tail = [] ∨ ∃ rest, tail = Event.load_resp_pkt_start :: rest)) ∧
      (ourfa_xmlapictx_have_input_parameters ctx ≠ 0 →
        (∃ tail, r.trace = [Event.xmlapictx_new func, Event.xmlapictx_get_req_pkt] ++ tail) ∧
        (r.trace.filter is_send_event).length ≤ 1 ∧
        (∀ pkt_in conn, env.xmlapictx_get_req_pkt ctx in_ = (0, some pkt_in) →
          env.conn_start_func_call ourfa.conn (ourfa_xmlapictx_func_id ctx) = 0 →
          (env.pkt_add_attrs pkt_in).1 = 0 → ourfa.conn = some conn →
          r.trace.filter is_send_event
            = [Event.conn_send_packet (env.pkt_add_attrs pkt_in).2])) := by
  refine ⟨have_input_iff ctx, ?_⟩
  obtain ⟨proto, login_type, ssl, timeout, login, pass, server_port, xmlapi0, conn0, err_msg,
    debug_stream⟩ := ourfa
  simp only [] at hx
  subst hx
  have hreq : ∀ e : Event, is_request_event e = false →
      is_build_event e = false ∧ is_send_event e = false := by
    intro e he
    unfold is_request_event at he
    simp only [Bool.or_eq_false_iff] at he
    exact ⟨he.2, he.1⟩
  unfold ourfa_call
  simp only [hctx]
  generalize ho : ({ proto := proto, login_type := login_type, ssl := ssl, timeout := timeout,
                     login := login, pass := pass, server_port := server_port,
                     xmlapi := some xmlapi, conn := conn0, err_msg := "",
                     debug_stream := debug_stream } : ourfa_t) = o0
  have hconn : o0.conn = conn0 := by rw [← ho]
  by_cases hin : ourfa_xmlapictx_have_input_parameters ctx = 0
  · simp only [hin, ne_eq, not_true_eq_false, if_false]
    by_cases hstart : env.conn_start_func_call conn0 (ourfa_xmlapictx_func_id ctx) = 0
    · simp only [hstart, not_true_eq_false, if_false]
      obtain ⟨r, hr⟩ := call_receive_total env o0 xmlapi func out incoming
        ([Event.xmlapictx_new func]
          ++ [Event.conn_start_func_call (ourfa_xmlapictx_func_id ctx)])
      obtain ⟨tail, ht, hq⟩ := call_receive_trace _ _ _ _ _ _ _ r hr
      refine ⟨r, hr, fun _ => ⟨?_, _, ht, Or.inr ⟨tail, rfl⟩⟩, fun h => h.elim⟩
      intro e he
      rw [ht] at he
      simp only [List.mem_append, List.mem_cons, List.mem_singleton, List.not_mem_nil,
        or_false] at he
      rcases he with (he | he) | he | he
      · rw [he]; exact ⟨rfl, rfl⟩
      · rw [he]; exact ⟨rfl, rfl⟩
      · rw [he]; exact ⟨rfl, rfl⟩
      · exact hreq e (hq e he)
    · simp only [hstart, not_false_eq_true, if_true]
      refine ⟨_, rfl, fun _ => ⟨?_, [], rfl, Or.inl rfl⟩, fun h => h.elim⟩
      intro e he
      simp only [List.mem_append, List.mem_singleton] at he
      rcases he with he | he <;> (rw [he]; exact ⟨rfl, rfl⟩)
  · simp only [hin, ne_eq, not_false_eq_true, if_true]
    by_cases hget : (env.xmlapictx_get_req_pkt ctx in_).1 = 0
    · simp only [hget, not_true_eq_false, if_false]
      by_cases hstart : env.conn_start_func_call conn0 (ourfa_xmlapictx_func_id ctx) = 0
      · simp only [hstart, not_true_eq_false, if_false]
        cases hpkt : (env.xmlapictx_get_req_pkt ctx in_).2 with
        | none =>
          simp only []
          obtain ⟨r, hr⟩ := call_receive_total env o0 xmlapi func out incoming
            ([Event.xmlapictx_new func, Event.xmlapictx_get_req_pkt]
              ++ [Event.conn_start_func_call (ourfa_xmlapictx_func_id ctx)])
          obtain ⟨tail, ht, hq⟩ := call_receive_trace _ _ _ _ _ _ _ r hr
          have hf := filter_send_nil tail hq
          refine ⟨r, hr, fun h => h.elim, fun _ => ⟨⟨_, by rw [ht]; rfl⟩, ?_, ?_⟩⟩
          · rw [ht]
            simp [List.filter_cons, is_send_event, hf]
          · intro pkt_in conn hg
            rw [hg] at hpkt
            cases hpkt
        | some pkt =>
          simp only []
          have hsent : ∀ pkt_in : Pkt,
              env.xmlapictx_get_req_pkt ctx in_ = (0, some pkt_in) → pkt_in = pkt := by
            intro pkt_in hg
            rw [hg] at hpkt
            cases hpkt
            rfl
          by_cases hadd : (env.pkt_add_attrs pkt).1 = 0
          · simp only [hadd, not_true_eq_false, if_false]
            cases conn0 with
            | none =>
              have hs : ourfa_send_packet env (some o0) (env.pkt_add_attrs pkt).2
                  = (-1, some o0, []) := by
                unfold ourfa_send_packet
                simp only [hconn]
              simp only [hs]
              rw [if_pos (by decide)]
              refine ⟨_, rfl, fun h => h.elim, fun _ => ⟨⟨_, rfl⟩, ?_, ?_⟩⟩
              · simp [List.filter_cons, is_send_event]
              · intro pkt_in conn _ _ _ hc
                cases hc
            | some conn1 =>
              obtain ⟨o1, hs⟩ : ∃ o1, ourfa_send_packet env (some o0) (env.pkt_add_attrs pkt).2
                  = (env.conn_send_packet conn1 (env.pkt_add_attrs pkt).2, some o1,
                     [Event.conn_send_packet (env.pkt_add_attrs pkt).2]) := by
                unfold ourfa_send_packet
                simp only [hconn]
                split
                · exact ⟨_, rfl⟩
                · exact ⟨_, rfl⟩
              rw [hs]
              simp only []
              by_cases hres : env.conn_send_packet conn1 (env.pkt_add_attrs pkt).2 ≤ 0
              · rw [if_pos hres]
                refine ⟨_, rfl, fun h => h.elim, fun _ => ⟨⟨_, rfl⟩, ?_, ?_⟩⟩
                · simp [List.filter_cons, is_send_event]
                · intro pkt_in conn hg _ _ _
                  rw [hsent pkt_in hg]
                  simp [List.filter_cons, is_send_event]
              · rw [if_neg hres]
                obtain ⟨r, hr⟩ := call_receive_total env ((some o1).getD o0) xmlapi func out
                  incoming
                  ([Event.xmlapictx_new func, Event.xmlapictx_get_req_pkt]
                    ++ [Event.conn_start_func_call (ourfa_xmlapictx_func_id ctx)]
                    ++ [Event.pkt_add_attrs]
                    ++ [Event.conn_send_packet (env.pkt_add_attrs pkt).2])
                obtain ⟨tail, ht, hq⟩ := call_receive_trace _ _ _ _ _ _ _ r hr
                have hf := filter_send_nil tail hq
                refine ⟨r, hr, fun h => h.elim, fun _ => ⟨⟨_, by rw [ht]; rfl⟩, ?_, ?_⟩⟩
                · rw [ht]
                  simp [List.filter_cons, is_send_event, hf]
                · intro pkt_in conn hg _ _ _
                  rw [hsent pkt_in hg, ht]
                  simp [List.filter_cons, is_send_event, hf]
          · simp only [hadd, not_false_eq_true, if_true]
            refine ⟨_, rfl, fun h => h.elim, fun _ => ⟨⟨_, rfl⟩, ?_, ?_⟩⟩
            · simp [List.filter_cons, is_send_event]
            · intro pkt_in conn hg _ ha
              rw [hsent pkt_in hg] at ha
              exact absurd ha hadd
      · simp only [hstart, not_false_eq_true, if_true]
        refine ⟨_, rfl, fun h => h.elim, fun _ => ⟨⟨_, rfl⟩, ?_, ?_⟩⟩
        · simp [List.filter_cons, is_send_event]
        · intro pkt_in conn _ hs
          exact hs.elim
    · simp only [hget, not_false_eq_true, if_true]
      refine ⟨_, rfl, fun h => h.elim, fun _ => ⟨⟨_, rfl⟩, ?_, ?_⟩⟩
      · simp [List.filter_cons, is_send_event]
      · intro pkt_in conn hg
        rw [hg] at hget
        exact absurd rfl hget

/-- C22 (amended) at the functions `ping` (no input) and `echo` (one input
parameter) on an open connection. -/
theorem request_iff_input_witness :
    echo_ourfa.xmlapi = some echo_api ∧
    ourfa_xmlapictx_have_input_parameters ⟨ping_func⟩ = 0 ∧
    (∃ r, ourfa_call (call_env true 1) (some echo_ourfa) (some "ping") none true [(10, ⟨4⟩)]
        = some r ∧
      ∀ e ∈ r.trace, is_build_event e = false ∧ is_send_event e = false) ∧
    ourfa_xmlapictx_have_input_parameters ⟨echo_func⟩ ≠ 0 ∧
    (∃ r, ourfa_call (call_env true 1) (some echo_ourfa) (some "echo") none true [(10, ⟨4⟩)]
        = some r ∧
      r.trace.filter is_send_event = [Event.conn_send_packet ⟨1⟩]) := by
  obtain ⟨_, r1, h1, h2, _⟩ := request_iff_input (call_env true 1) echo_ourfa "ping" none true
    [(10, ⟨4⟩)] echo_api ⟨ping_func⟩ rfl rfl
  obtain ⟨_, r2, k1, _, k3⟩ := request_iff_input (call_env true 1) echo_ourfa "echo" none true
    [(10, ⟨4⟩)] echo_api ⟨echo_func⟩ rfl rfl
  exact ⟨rfl, by decide, ⟨r1, h1, (h2 (by decide)).1⟩, by decide,
    ⟨r2, k1, (k3 (by decide)).2.2 ⟨1⟩ ⟨0⟩ rfl rfl rfl rfl⟩⟩

/-- C21 fails in the code: on a context without a connection
`ourfa_send_packet` and `ourfa_recv_packet` return -1 and leave the context,
its error message included, as it was; and when `ourfa_conn_start_func_call`
fails, `ourfa_call` returns -1 with the error message it emptied at its
start. -/
theorem negative_result_without_message (env : CallEnv) (ourfa : ourfa_t) (pkt : Pkt)
    (pkt_out : Option Pkt) (incoming : List (Int × Pkt)) (h : ourfa.conn = none) :
    ourfa_send_packet env (some ourfa) pkt = (-1, some ourfa, []) ∧
    ourfa_recv_packet env (some ourfa) pkt_out incoming = ⟨-1, pkt_out, some ourfa, incoming, []⟩ ∧
    ∀ func in_ out xmlapi ctx, ourfa.xmlapi = some xmlapi →
      env.xmlapictx_new xmlapi func = some ctx →
      ourfa_xmlapictx_have_input_parameters ctx = 0 →
      env.conn_start_func_call none (ourfa_xmlapictx_func_id ctx) ≠ 0 →
      ourfa_call env (some ourfa) (some func) in_ out incoming
        = some ⟨-1, some { ourfa with err_msg := "" }, none, incoming,
            [Event.xmlapictx_new func,
             Event.conn_start_func_call (ourfa_xmlapictx_func_id ctx)]⟩ := by
  refine ⟨?_, ?_, ?_⟩
  · unfold ourfa_send_packet
    simp only [h]
  · unfold ourfa_recv_packet
    simp only [h]
  · intro func in_ out xmlapi ctx hx hctx hin hstart
    unfold ourfa_call
    simp only [hx, hctx, hin, h, ne_eq, not_true_eq_false, if_false, hstart, not_false_eq_true,
      if_true]
    rfl

/-- C21 at a context just made by `ourfa_new` (its message is empty), and at a
context with a schema and no connection. -/
theorem negative_result_without_message_witness :
    (ourfa_new 0 0).conn = none ∧ (ourfa_new 0 0).err_msg = "" ∧
    ourfa_send_packet (call_env true 1) (some (ourfa_new 0 0)) ⟨1⟩
      = (-1, some (ourfa_new 0 0), []) ∧
    ourfa_call (call_env true 1) (some offline_ourfa) (some "ping") none true []
      = some ⟨-1, some { offline_ourfa with err_msg := "" }, none, [],
          [Event.xmlapictx_new "ping", Event.conn_start_func_call 1]⟩ :=
  ⟨rfl, rfl,
   (negative_result_without_message (call_env true 1) (ourfa_new 0 0) ⟨1⟩ none [] rfl).1,
   (negative_result_without_message (call_env true 1) offline_ourfa ⟨1⟩ none [] rfl).2.2
     "ping" none true echo_api ⟨ping_func⟩ rfl rfl rfl (by decide)⟩

/-- C28 fails in the code: the id "4294967297" denotes 4294967297, which is in
the range of `long` and out of the range of `int`; the function is stored, and
its id is 1. -/
theorem id_out_of_int_range_is_stored :
    decimal_value "4294967297".data = some 4294967297 ∧
    ourfa_xmlapi_load_file (fun _ => some big_id_doc) false (ourfa_xmlapi_new id) none
      = .returned OURFA_OK
          { file := some DEFAULT_API_XML_FILE, func_by_name := some [("f", bare_func "f" 1)],
            printf_err := id } ∧
    (ourfa_xmlapi_func
      { file := some DEFAULT_API_XML_FILE, func_by_name := some [("f", bare_func "f" 1)],
        printf_err := id } "f").map (fun f => f.id) = some 1 :=
  ⟨by decide, by rfl, by decide⟩

/-- C29 fails in the code: when the first element inside a `for` (or an `if`)
fails, the loop is left with the FOR (IF) node still linked to itself as its
"children"; the cleanup reaches that node, the assertion
`def->children != def` fails and the process is stopped, in `load_func_def`
and so in `ourfa_xmlapi_load_file`. -/
theorem cleanup_reaches_self_link :
    walk id for_bad_first.children.size for_bad_first.children []
        { nodes := [root_node], cur_node := none }
      = .failed
          [{ type := .ROOT, parent := none, next := none, children := some 1, n := .empty },
           { type := .FOR, parent := some 0, next := none, children := some 1,
             n := .n_for (some "i") (some "0") (some "n") (some "array-1") }] ∧
    load_func_def id for_bad_first = .abort ∧
    load_func_def id if_bad_first = .abort ∧
    ourfa_xmlapi_load_file (fun _ => some for_bad_first_doc) false (ourfa_xmlapi_new id) none
      = .abort :=
  ⟨by decide, by decide, by decide, by rfl⟩

end Ourfa
